import Mathlib

/-!
# Wesley (early ChaiScript) interpreter: parser entry point and tree-walking evaluator

Shallow embedding of `src/wesley/main.cpp`.

* `TokenType`, `tokentype_to_string`, `build_parser_rules`, `eval_function`, `eval_token`,
  `parse`, `evaluate_string` are translated from `main.cpp`.
* The headers `langkit_lexer.hpp`, `langkit_parser.hpp`, `boxedcpp.hpp` and the bootstrap
  headers are not part of the sources at hand.  What `main.cpp` uses from them (tokens, rule
  combinators, boxed values, the scoped environment, the function registry and `dispatch`)
  is modelled from the specification; each such definition says so in its doc comment.

Conventions.
* C++ exceptions are values of `Thrown`; a computation returns `Except Thrown α` paired with the
  interpreter state it leaves behind (effects made before a throw persist).
* An out-of-range `children[k]` / `vals[i]` / `*end` is undefined behaviour in C++.  The
  embedding reports a read of a child that is not there as `Thrown.child_out_of_range` and
  every other undefined behaviour as `Thrown.undefined_behaviour`.
* Loops and recursion that need not terminate are bounded by a fuel argument; running out of
  fuel is reported as `Thrown.out_of_fuel`.
-/

namespace Wesley

/-! ## Tokens -/

/-- The enumeration `TokenType::Type` of `main.cpp`, in declaration order. -/
inductive TokenType where
  | File | Whitespace | Identifier | Integer | Operator | Parens_Open | Parens_Close
  | Square_Open | Square_Close | Curly_Open | Curly_Close | Comma | Quoted_String
  | Single_Quoted_String | Carriage_Return | Semicolon
  | Function_Def | Scoped_Block | Statement | Equation | Return | Expression | Term | Factor
  | Negate | Comment
  | Value | Fun_Call | Method_Call | Comparison | If_Block | While_Block | Boolean | Real_Number
  | Array_Call | Variable_Decl | Array_Init
  | For_Block | Prefix | Break
  deriving DecidableEq, Repr

/-- The integer value of an enumerator of `TokenType::Type`. -/
def TokenType.toNat : TokenType → Nat
  | File => 0 | Whitespace => 1 | Identifier => 2 | Integer => 3 | Operator => 4
  | Parens_Open => 5 | Parens_Close => 6 | Square_Open => 7 | Square_Close => 8
  | Curly_Open => 9 | Curly_Close => 10 | Comma => 11 | Quoted_String => 12
  | Single_Quoted_String => 13 | Carriage_Return => 14 | Semicolon => 15
  | Function_Def => 16 | Scoped_Block => 17 | Statement => 18 | Equation => 19
  | Return => 20 | Expression => 21 | Term => 22 | Factor => 23 | Negate => 24
  | Comment => 25 | Value => 26 | Fun_Call => 27 | Method_Call => 28 | Comparison => 29
  | If_Block => 30 | While_Block => 31 | Boolean => 32 | Real_Number => 33
  | Array_Call => 34 | Variable_Decl => 35 | Array_Init => 36 | For_Block => 37
  | Prefix => 38 | Break => 39

/-- The array `token_types` of `tokentype_to_string` (`main.cpp` lines 23-27). -/
def token_types : List String :=
  ["File", "Whitespace", "Identifier", "Integer", "Operator", "Parens_Open", "Parens_Close",
   "Square_Open", "Square_Close", "Curly_Open", "Curly_Close", "Comma", "Quoted_String",
   "Single_Quoted_String", "Carriage_Return", "Semicolon",
   "Function_Def", "Scoped_Block", "Statement", "Equation", "Return", "Expression", "Term",
   "Factor", "Negate", "Comment",
   "Value", "Fun_Call", "Method_Call", "Comparison", "If_Block", "While_Block", "Boolean",
   "Real Number", "Array_Call", "Variable_Decl", "Array_Init",
   "For_Block", "Prefix", "Break"]

/-- The function `tokentype_to_string` of `main.cpp` (lines 22-30); an index outside the
array is undefined behaviour (`none`). -/
def tokentype_to_string (tokentype : Nat) : Option String :=
  token_types[tokentype]?

/-- The name of an enumerator as `TokenType::Type` declares it (`main.cpp` lines 16-20). -/
def TokenType.enumerator : TokenType → String
  | File => "File" | Whitespace => "Whitespace" | Identifier => "Identifier"
  | Integer => "Integer" | Operator => "Operator" | Parens_Open => "Parens_Open"
  | Parens_Close => "Parens_Close" | Square_Open => "Square_Open"
  | Square_Close => "Square_Close" | Curly_Open => "Curly_Open" | Curly_Close => "Curly_Close"
  | Comma => "Comma" | Quoted_String => "Quoted_String"
  | Single_Quoted_String => "Single_Quoted_String" | Carriage_Return => "Carriage_Return"
  | Semicolon => "Semicolon" | Function_Def => "Function_Def" | Scoped_Block => "Scoped_Block"
  | Statement => "Statement" | Equation => "Equation" | Return => "Return"
  | Expression => "Expression" | Term => "Term" | Factor => "Factor" | Negate => "Negate"
  | Comment => "Comment" | Value => "Value" | Fun_Call => "Fun_Call"
  | Method_Call => "Method_Call" | Comparison => "Comparison" | If_Block => "If_Block"
  | While_Block => "While_Block" | Boolean => "Boolean" | Real_Number => "Real_Number"
  | Array_Call => "Array_Call" | Variable_Decl => "Variable_Decl" | Array_Init => "Array_Init"
  | For_Block => "For_Block" | Prefix => "Prefix" | Break => "Break"

/-- Modelled from the spec: a source position `(line, column)` of a token span. -/
structure Position where
  line : Nat
  column : Nat
  deriving DecidableEq, Repr

/-- Modelled from the spec: the `Token` record of `langkit_lexer.hpp` (literal text, kind tag,
source span, ordered children).  The parser reuses the record for the nodes of the tree. -/
inductive Token where
  | mk (text : String) (identifier : TokenType) (filename : String)
      (start stop : Position) (children : List Token)

namespace Token

def text : Token → String
  | mk t _ _ _ _ _ => t

def identifier : Token → TokenType
  | mk _ k _ _ _ _ => k

def filename : Token → String
  | mk _ _ f _ _ _ => f

def start : Token → Position
  | mk _ _ _ s _ _ => s

def stop : Token → Position
  | mk _ _ _ _ e _ => e

def children : Token → List Token
  | mk _ _ _ _ _ c => c

/-- The assignment `tokens[i]->text = ...` of `evaluate_string`. -/
def setText (t : Token) (s : String) : Token :=
  mk s t.identifier t.filename t.start t.stop t.children

/-- The call `parent->children.push_back(...)` for a list of contributed nodes. -/
def addChildren (t : Token) (cs : List Token) : Token :=
  mk t.text t.identifier t.filename t.start t.stop (t.children ++ cs)

end Token

/-! ## Rule combinators (`langkit_parser.hpp`) -/

/-- The rule objects declared in `build_parser_rules`, one name per C++ variable. -/
inductive RuleName where
  | params | block | fundef | statement | equation | boolean | comparison | expression
  | term | factor | negate | prefix_rule
  | funcall | methodcall | if_block | while_block | for_block | arraycall | vardecl | arrayinit
  | return_statement | break_statement
  | value | statements | for_conditions | source_elem | source_elems | statement_list
  | rule
  deriving DecidableEq, Repr

/-- Modelled from the spec: the combinator kinds of `langkit_parser.hpp` (section 4.5).
`Ref` is a shared reference to a declared rule object, which is how the C++ rule graph is
cyclic. -/
inductive RuleBody where
  | Seq (a b : RuleBody)
  | Alt (a b : RuleBody)
  | Star (r : RuleBody)
  | Plus (r : RuleBody)
  | Opt (r : RuleBody)
  | Ign (r : RuleBody)
  | Wrap (r : RuleBody)
  | Id (kind : TokenType)
  | Str (text : String)
  | Ref (name : RuleName)
  deriving Repr

/-- Modelled from the spec: a `Rule` value, i.e. a rule graph (for every declared rule its
optional output kind and its body, `none` while the rule has not been assigned) together with
the rule that is run. -/
structure Rule where
  kind : RuleName → Option TokenType
  body : RuleName → Option RuleBody
  top : RuleBody

/-- Result of running a rule: the C++ pair `(iter, matched)` together with the children
contributed to the parent.  On failure the iterator is restored and nothing is contributed. -/
inductive Match where
  | matched (rest : List Token) (contributed : List Token)
  | failed
  | out_of_fuel

/-- Modelled from the spec: the fresh node a rule with a declared output kind allocates.  Its
text is empty, its span runs from the first token at the iterator to the last consumed one. -/
def fresh_node (kind : TokenType) (input rest contributed : List Token) : Token :=
  let consumed := input.take (input.length - rest.length)
  let filename := (input.head?.map Token.filename).getD ""
  let start := (consumed.head?.map Token.start).getD ⟨0, 0⟩
  let stop := (consumed.getLast?.map Token.stop).getD start
  Token.mk "" kind filename start stop contributed

/-- Modelled from the spec: zero-or-more repetition given the runner of the body.  The first
argument bounds the number of iterations. -/
def star_loop (body : List Token → Match) : Nat → List Token → List Token → Match
  | 0, _, _ => Match.out_of_fuel
  | n + 1, ts, acc =>
    match body ts with
    | Match.matched rest cs => star_loop body n rest (acc ++ cs)
    | Match.failed => Match.matched ts acc
    | Match.out_of_fuel => Match.out_of_fuel

/-- Modelled from the spec: the semantics of the combinators (section 4.5), run on the token
suffix starting at the iterator. -/
def run_rule (g : Rule) : Nat → RuleBody → List Token → Match
  | 0, _, _ => Match.out_of_fuel
  | n + 1, r, ts =>
    match r with
    | RuleBody.Seq a b =>
      match run_rule g n a ts with
      | Match.matched rest cs =>
        match run_rule g n b rest with
        | Match.matched rest2 cs2 => Match.matched rest2 (cs ++ cs2)
        | other => other
      | other => other
    | RuleBody.Alt a b =>
      match run_rule g n a ts with
      | Match.failed => run_rule g n b ts
      | other => other
    | RuleBody.Star a => star_loop (run_rule g n a) (ts.length + 1) ts []
    | RuleBody.Plus a =>
      match run_rule g n a ts with
      | Match.matched rest cs => star_loop (run_rule g n a) (rest.length + 1) rest cs
      | other => other
    | RuleBody.Opt a =>
      match run_rule g n a ts with
      | Match.failed => Match.matched ts []
      | other => other
    | RuleBody.Ign a =>
      match run_rule g n a ts with
      | Match.matched rest _ => Match.matched rest []
      | other => other
    | RuleBody.Wrap a => run_rule g n a ts
    | RuleBody.Id k =>
      match ts with
      | t :: rest => if t.identifier = k then Match.matched rest [t] else Match.failed
      | [] => Match.failed
    | RuleBody.Str s =>
      match ts with
      | t :: rest => if t.text = s then Match.matched rest [t] else Match.failed
      | [] => Match.failed
    | RuleBody.Ref name =>
      match g.body name with
      | none => Match.failed
      | some b =>
        match g.kind name with
        | none => run_rule g n b ts
        | some k =>
          match run_rule g n b ts with
          | Match.matched rest cs => Match.matched rest [fresh_node k ts rest cs]
          | other => other

/-- Left-nested sequence `a >> b >> c`, as the C++ operator `>>` associates (the list is never
empty in the grammar). -/
def seqs : List RuleBody → RuleBody
  | [] => RuleBody.Opt (RuleBody.Str "")
  | r :: rs => rs.foldl RuleBody.Seq r

/-- Left-nested alternation `a | b | c`, as the C++ operator `|` associates (the list is never
empty in the grammar). -/
def alts : List RuleBody → RuleBody
  | [] => RuleBody.Opt (RuleBody.Str "")
  | r :: rs => rs.foldl RuleBody.Alt r

open RuleBody RuleName in
/-- The bodies assigned in `build_parser_rules` (`main.cpp` lines 203-241); `statements` is
declared and never assigned. -/
def build_parser_rules_body : RuleName → Option RuleBody
  | RuleName.rule =>
    some (seqs [Star (Ign (Id TokenType.Semicolon)), Ref source_elems,
      Star (Ign (Id TokenType.Semicolon))])
  | source_elems =>
    some (seqs [Ref source_elem,
      Star (seqs [Plus (Ign (Id TokenType.Semicolon)), Ref source_elem])])
  | source_elem => some (alts [Ref fundef, Ref statement])
  | statement_list =>
    some (seqs [Ref statement,
      Star (seqs [Plus (Ign (Id TokenType.Semicolon)), Ref statement])])
  | statement => some (alts [Ref if_block, Ref while_block, Ref for_block, Ref equation])
  | if_block =>
    some (seqs [Ign (Str "if"), Ref boolean, Ref block,
      Star (seqs [Star (Ign (Id TokenType.Semicolon)), Str "elseif", Ref boolean, Ref block]),
      Opt (seqs [Star (Ign (Id TokenType.Semicolon)), Str "else", Ref block])])
  | while_block => some (seqs [Ign (Str "while"), Ref boolean, Ref block])
  | for_block => some (seqs [Ign (Str "for"), Ref for_conditions, Ref block])
  | for_conditions =>
    some (seqs [Ign (Id TokenType.Parens_Open), Opt (Ref equation), Ign (Str ";"), Ref boolean,
      Ign (Str ";"), Ref equation, Ign (Id TokenType.Parens_Close)])
  | fundef =>
    some (seqs [Ign (Str "def"), Id TokenType.Identifier,
      Opt (seqs [Ign (Id TokenType.Parens_Open), Opt (Ref params),
        Ign (Id TokenType.Parens_Close)]),
      Ref block])
  | params =>
    some (seqs [Id TokenType.Identifier,
      Star (seqs [Ign (Str ","), Id TokenType.Identifier])])
  | block =>
    some (seqs [Star (Ign (Id TokenType.Semicolon)), Ign (Id TokenType.Curly_Open),
      Star (Ign (Id TokenType.Semicolon)), Opt (Ref statement_list),
      Star (Ign (Id TokenType.Semicolon)), Ign (Id TokenType.Curly_Close)])
  | equation =>
    some (seqs [Star (alts [
        seqs [alts [Ref vardecl, Ref arraycall, Id TokenType.Identifier], Str "="],
        seqs [alts [Ref vardecl, Ref arraycall, Id TokenType.Identifier], Str "+="],
        seqs [alts [Ref vardecl, Ref arraycall, Id TokenType.Identifier], Str "-="],
        seqs [alts [Ref vardecl, Ref arraycall, Id TokenType.Identifier], Str "*="],
        seqs [alts [Ref vardecl, Ref arraycall, Id TokenType.Identifier], Str "/="]]),
      Ref boolean])
  | boolean =>
    some (seqs [Ref comparison,
      Star (alts [seqs [Str "&&", Ref comparison], seqs [Str "||", Ref comparison]])])
  | comparison =>
    some (seqs [Ref expression,
      Star (alts [seqs [Str "==", Ref expression], seqs [Str "!=", Ref expression],
        seqs [Str "<", Ref expression], seqs [Str "<=", Ref expression],
        seqs [Str ">", Ref expression], seqs [Str ">=", Ref expression]])])
  | expression =>
    some (seqs [Ref term, Star (alts [seqs [Str "+", Ref term], seqs [Str "-", Ref term]])])
  | term =>
    some (seqs [Ref factor,
      Star (alts [seqs [Str "*", Ref factor], seqs [Str "/", Ref factor]])])
  | factor =>
    some (alts [Ref methodcall, Ref arraycall, Ref value, Ref negate, Ref prefix_rule,
      seqs [Ign (Str "+"), Ref value]])
  | funcall =>
    some (seqs [Id TokenType.Identifier, Ign (Id TokenType.Parens_Open),
      Opt (seqs [Ref boolean, Star (seqs [Ign (Str ","), Ref boolean])]),
      Ign (Id TokenType.Parens_Close)])
  | methodcall => some (seqs [Ref value, Plus (seqs [Ign (Str "."), Ref funcall])])
  | negate => some (seqs [Ign (Str "-"), Ref boolean])
  | prefix_rule =>
    some (alts [seqs [Str "++", alts [Ref boolean, Ref arraycall]],
      seqs [Str "--", alts [Ref boolean, Ref arraycall]]])
  | arraycall =>
    some (seqs [Ref value,
      Plus (seqs [Ign (Id TokenType.Square_Open), Ref boolean,
        Ign (Id TokenType.Square_Close)])])
  | value =>
    some (alts [Ref vardecl, Ref arrayinit, Ref block,
      seqs [Ign (Id TokenType.Parens_Open), Ref boolean, Ign (Id TokenType.Parens_Close)],
      Ref return_statement, Ref break_statement, Ref funcall, Id TokenType.Identifier,
      Id TokenType.Real_Number, Id TokenType.Integer, Id TokenType.Quoted_String,
      Id TokenType.Single_Quoted_String])
  | arrayinit =>
    some (seqs [Ign (Id TokenType.Square_Open),
      Opt (seqs [Ref boolean, Star (seqs [Ign (Str ","), Ref boolean])]),
      Ign (Id TokenType.Square_Close)])
  | vardecl => some (seqs [Ign (Str "var"), Id TokenType.Identifier])
  | return_statement => some (seqs [Ign (Str "return"), Opt (Ref boolean)])
  | break_statement => some (Wrap (Ign (Str "break")))
  | statements => none

open RuleName in
/-- The output kinds given to the rule constructors in `build_parser_rules`
(`main.cpp` lines 171-201). -/
def build_parser_rules_kind : RuleName → Option TokenType
  | block => some TokenType.Scoped_Block
  | fundef => some TokenType.Function_Def
  | equation => some TokenType.Equation
  | boolean => some TokenType.Boolean
  | comparison => some TokenType.Comparison
  | expression => some TokenType.Expression
  | term => some TokenType.Term
  | factor => some TokenType.Factor
  | negate => some TokenType.Negate
  | prefix_rule => some TokenType.Prefix
  | funcall => some TokenType.Fun_Call
  | methodcall => some TokenType.Method_Call
  | if_block => some TokenType.If_Block
  | while_block => some TokenType.While_Block
  | for_block => some TokenType.For_Block
  | arraycall => some TokenType.Array_Call
  | vardecl => some TokenType.Variable_Decl
  | arrayinit => some TokenType.Array_Init
  | return_statement => some TokenType.Return
  | break_statement => some TokenType.Break
  | _ => none

/-- The function `build_parser_rules` of `main.cpp`: the rule graph of the language, run from
the local rule `rule`. -/
def build_parser_rules : Rule where
  kind := build_parser_rules_kind
  body := build_parser_rules_body
  top := RuleBody.Ref RuleName.rule

/-! ## Boxed values, scopes and the function registry (`boxedcpp.hpp`) -/

/-- Modelled from the spec: the host datum carried by a box.  `void` is the payload of the
empty box.  Floating point is not interpreted: a `double` is kept as the literal it was read
from. -/
inductive Payload where
  | void
  | bool (b : Bool)
  | int (i : Int)
  | double (literal : String)
  | string (s : String)
  | vector (elems : List Nat)
  | host (type_name : String) (datum : Nat)
  deriving DecidableEq, Repr

/-- Modelled from the spec: a `Boxed_Value` is a shared handle to a cell holding the payload;
copies of a box share the cell, which is what lets `=` assign in place. -/
structure Boxed_Value where
  cell : Nat
  deriving DecidableEq, Repr

/-- Modelled from the spec: the `Lexer` of `langkit_lexer.hpp`, as the function `lex` from the
input text and the file name to the token vector. -/
structure Lexer where
  lex : String → String → List Token

/-- The callables that `main.cpp` wraps in a `Dynamic_Proxy_Function`: `eval_function` bound
to a body and its parameter names (`Function_Def`), `add_two`, and `eval` bound to the lexer
and the parser. -/
inductive Dynamic where
  | eval_function (node : Token) (param_names : List String)
  | add_two
  | eval (lexer : Lexer) (parser : Rule)

/-- Modelled from the spec: an entry of the function registry, either a native function with
a fixed arity whose adapter unboxes the arguments (`none` when an argument does not unbox), or
a dynamic proxy with an optional declared arity. -/
inductive Proxy_Function where
  | native (arity : Nat)
      (call : List Boxed_Value → List Payload → Option (Boxed_Value × List Payload))
  | dynamic (f : Dynamic) (arity : Option Nat)

/-- Modelled from the spec: the interpreter state `BoxedCPP_System`: the cells of the boxes,
the stack of scope frames (innermost first) and the function registry in registration
order. -/
structure BoxedCPP_System where
  store : List Payload
  scopes : List (List (String × Boxed_Value))
  functions : List (String × Proxy_Function)

/-- What the C++ code throws, together with the ways a run of the embedding can end that are
not C++ exceptions: the undefined behaviour of reading `children[k]` (or `children.back()`)
where the vector of children has no such element, any other undefined behaviour, and fuel
exhausted. -/
inductive Thrown where
  | ParserError (reason : String) (location : Token)
  | EvalError (reason : String) (location : Option Token)
  | ReturnValue (retval : Boxed_Value) (location : Token)
  | BreakLoop (location : Token)
  | std_exception (what : String)
  | child_out_of_range
  | undefined_behaviour
  | out_of_fuel

/-- Outcome of a computation together with the state it leaves behind. -/
abbrev Outcome (α : Type) := Except Thrown α × BoxedCPP_System

/-- Outcome of a computation that yields a `Boxed_Value`. -/
abbrev Result := Outcome Boxed_Value

namespace BoxedCPP_System

/-- Modelled from the spec: constructing a `Boxed_Value` from a host value puts the payload
in a new cell. -/
def box (ss : BoxedCPP_System) (p : Payload) : Boxed_Value × BoxedCPP_System :=
  (⟨ss.store.length⟩, { ss with store := ss.store ++ [p] })

/-- Modelled from the spec: the payload a box holds. -/
def payload (ss : BoxedCPP_System) (v : Boxed_Value) : Option Payload :=
  ss.store[v.cell]?

/-- Modelled from the spec: `Cast_Helper<bool &>`, the typed extraction of a boolean; `none`
stands for the conversion error. -/
def cast_bool (ss : BoxedCPP_System) (v : Boxed_Value) : Option Bool :=
  match ss.payload v with
  | some (Payload.bool b) => some b
  | _ => none

/-- Modelled from the spec: `Cast_Helper<std::string &>`. -/
def cast_string (ss : BoxedCPP_System) (v : Boxed_Value) : Option String :=
  match ss.payload v with
  | some (Payload.string s) => some s
  | _ => none

/-- Modelled from the spec: `new_scope()` pushes a frame. -/
def new_scope (ss : BoxedCPP_System) : BoxedCPP_System :=
  { ss with scopes := [] :: ss.scopes }

/-- Modelled from the spec: `pop_scope()` pops the top frame. -/
def pop_scope (ss : BoxedCPP_System) : BoxedCPP_System :=
  { ss with scopes := ss.scopes.drop 1 }

/-- Insert or overwrite a binding of a frame. -/
def frame_set (name : String) (v : Boxed_Value) :
    List (String × Boxed_Value) → List (String × Boxed_Value)
  | [] => [(name, v)]
  | (k, w) :: rest => if k = name then (k, v) :: rest else (k, w) :: frame_set name v rest

/-- Look a name up in a frame. -/
def frame_get (name : String) : List (String × Boxed_Value) → Option Boxed_Value
  | [] => none
  | (k, w) :: rest => if k = name then some w else frame_get name rest

/-- Modelled from the spec: `set_object(name, value)` inserts or overwrites in the innermost
frame. -/
def set_object (ss : BoxedCPP_System) (name : String) (v : Boxed_Value) : BoxedCPP_System :=
  match ss.scopes with
  | [] => { ss with scopes := [frame_set name v []] }
  | f :: fs => { ss with scopes := frame_set name v f :: fs }

/-- Modelled from the spec: `add_object(name, value)`, identical to `set_object`. -/
def add_object (ss : BoxedCPP_System) (name : String) (v : Boxed_Value) : BoxedCPP_System :=
  ss.set_object name v

/-- Modelled from the spec: `get_object(name)` searches innermost to outermost; `none` stands
for the failure. -/
def get_object (ss : BoxedCPP_System) (name : String) : Option Boxed_Value :=
  ss.scopes.findSome? (frame_get name)

/-- Modelled from the spec: `register_function(f, name)` appends an entry under the name. -/
def register_function (ss : BoxedCPP_System) (f : Proxy_Function) (name : String) :
    BoxedCPP_System :=
  { ss with functions := ss.functions ++ [(name, f)] }

/-- Modelled from the spec: `get_function(name)`, the entries of the name in registration
order. -/
def get_function (ss : BoxedCPP_System) (name : String) : List Proxy_Function :=
  (ss.functions.filter (fun e => e.1 = name)).map Prod.snd

end BoxedCPP_System

/-- Sequencing: run the continuation on the value of a computation that did not throw. -/
def andThen {α β : Type} (r : Outcome α) (k : α → BoxedCPP_System → Outcome β) : Outcome β :=
  match r with
  | (Except.ok v, ss) => k v ss
  | (Except.error e, ss) => (Except.error e, ss)

/-- The handler `catch (std::exception &) { throw e; }` around a computation. -/
def catch_std {α : Type} (r : Outcome α) (e : Thrown) : Outcome α :=
  match r with
  | (Except.error (Thrown.std_exception _), ss) => (Except.error e, ss)
  | other => other

/-- The access `children[i]` of a `std::vector`, then the continuation; an index past the
end is undefined behaviour. -/
def with_child {α : Type} (cs : List Token) (i : Nat) (ss : BoxedCPP_System)
    (k : Token → Outcome α) : Outcome α :=
  match cs[i]? with
  | some c => k c
  | none => (Except.error Thrown.child_out_of_range, ss)

/-- Modelled from the spec: `dispatch(funcs, plist)` (section 4.2): the first entry, in
registration order, whose arity fits and whose arguments unbox is called; a dynamic proxy
receives the argument vector intact; when no entry fits a `std::exception` is thrown. -/
def dispatch (call_dynamic : Dynamic → List Boxed_Value → BoxedCPP_System → Result) :
    List Proxy_Function → List Boxed_Value → BoxedCPP_System → Result
  | [], _, ss => (Except.error (Thrown.std_exception "No matching function to dispatch to"), ss)
  | Proxy_Function.native arity call :: fs, plist, ss =>
    if arity = plist.length then
      match call plist ss.store with
      | some (v, store) => (Except.ok v, { ss with store := store })
      | none => dispatch call_dynamic fs plist ss
    else dispatch call_dynamic fs plist ss
  | Proxy_Function.dynamic f arity :: fs, plist, ss =>
    if arity = none ∨ arity = some plist.length then call_dynamic f plist ss
    else dispatch call_dynamic fs plist ss

/-! ## The parser entry point -/

/-- The function `parse` of `main.cpp` (lines 626-641).  `results.first` is the token suffix
left by the rule; when the rule does not match, the iterator it returns is the restored one,
i.e. `tokens.begin()`.  Dereferencing the end iterator is undefined behaviour. -/
def parse (fuel : Nat) (rule : Rule) (tokens : List Token) (filename : String) :
    Except Thrown Token :=
  let parent := Token.mk "Root" TokenType.File filename ⟨0, 0⟩ ⟨0, 0⟩ []
  match run_rule rule fuel rule.top tokens with
  | Match.matched [] contributed => Except.ok (parent.addChildren contributed)
  | Match.matched (t :: _) _ => Except.error (Thrown.ParserError "Parse failed to complete" t)
  | Match.failed =>
    match tokens with
    | t :: _ => Except.error (Thrown.ParserError "Parse failed to complete" t)
    | [] => Except.error Thrown.undefined_behaviour
  | Match.out_of_fuel => Except.error Thrown.out_of_fuel

/-! ## The evaluator -/

/-- The C library function `atoi` on the text of an `Integer` token: optional white space, an
optional sign, then the longest run of decimal digits.  The value is the mathematical one; a
value outside the range of `int` is undefined behaviour in C, which the case `Integer` of
`eval_token` reports. -/
def atoi (s : String) : Int :=
  let isspace (c : Char) : Bool :=
    c = ' ' || c = '\t' || c = '\n' || c = '\r' || c.toNat = 11 || c.toNat = 12
  let cs := s.data.dropWhile isspace
  let digits (ds : List Char) : Int :=
    ((ds.takeWhile Char.isDigit).foldl (fun acc c => 10 * acc + (c.toNat - 48)) 0 : Nat)
  match cs with
  | '-' :: ds => - digits ds
  | '+' :: ds => digits ds
  | _ => digits cs

/-- The loop `for (i = 0; i < children.size(); ++i) retval = eval_token(ss, children[i]);`
of the cases `File`, `Value` and `Scoped_Block`. -/
def eval_children (ev : BoxedCPP_System → Token → Result) :
    List Token → Boxed_Value → BoxedCPP_System → Result
  | [], retval, ss => (Except.ok retval, ss)
  | c :: cs, _, ss => andThen (ev ss c) (fun v ss1 => eval_children ev cs v ss1)

/-- The loop `plb << eval_token(ss, c)` over the argument nodes of a call. -/
def eval_args (ev : BoxedCPP_System → Token → Result) :
    List Token → List Boxed_Value → BoxedCPP_System → Outcome (List Boxed_Value)
  | [], plb, ss => (Except.ok plb, ss)
  | c :: cs, plb, ss => andThen (ev ss c) (fun v ss1 => eval_args ev cs (plb ++ [v]) ss1)

/-- The `Cast_Helper<bool &>` on the value of a condition; a failed cast throws `err`. -/
def cond_of (r : Result) (err : Thrown) : Outcome Bool :=
  andThen r (fun v ss =>
    match ss.cast_bool v with
    | some b => (Except.ok b, ss)
    | none => (Except.error err, ss))

/-- The `try { retval = dispatch(ss.get_function(op->text), plb); } catch (std::exception &)
{ throw EvalError("Can not find appropriate '" + op->text + "'", op); }` of the operator
folds. -/
def dispatch_op (disp : String → List Boxed_Value → BoxedCPP_System → Result) (op : Token)
    (plb : List Boxed_Value) (ss : BoxedCPP_System) : Result :=
  catch_std (disp op.text plb ss)
    (Thrown.EvalError ("Can not find appropriate '" ++ op.text ++ "'") (some op))

/-- One iteration of the `Equation` loop at index `i` (`main.cpp` lines 321-329). -/
def Equation_step (ev : BoxedCPP_System → Token → Result)
    (disp : String → List Boxed_Value → BoxedCPP_System → Result) (children : List Token)
    (i : Nat) (retval : Boxed_Value) (ss : BoxedCPP_System) : Result :=
  with_child children i ss fun lhs =>
    andThen (ev ss lhs) fun l ss1 =>
      with_child children (i + 1) ss1 fun op => dispatch_op disp op [l, retval] ss1

/-- The `Equation` loop `for (i = ...; ((int)i) >= 0; i -= 2)` entered at index `i`: after
the iteration at index 0 or 1 the unsigned `i - 2` is negative as an `int`. -/
def Equation_loop (ev : BoxedCPP_System → Token → Result)
    (disp : String → List Boxed_Value → BoxedCPP_System → Result) (children : List Token) :
    Nat → Boxed_Value → BoxedCPP_System → Result
  | 0, retval, ss => Equation_step ev disp children 0 retval ss
  | 1, retval, ss => Equation_step ev disp children 1 retval ss
  | i + 2, retval, ss =>
    andThen (Equation_step ev disp children (i + 2) retval ss)
      (fun r ss1 => Equation_loop ev disp children i r ss1)

/-- The case `Equation` of `eval_token` (`main.cpp` lines 317-332).  `children.back()` of
an empty vector reads a child that is not there.  With two children `size() - 3` wraps to
`UINT_MAX`, which is `-1` as an `int`, so the loop is not entered. -/
def Equation (ev : BoxedCPP_System → Token → Result)
    (disp : String → List Boxed_Value → BoxedCPP_System → Result) (ss : BoxedCPP_System)
    (node : Token) : Result :=
  match node.children.getLast? with
  | none => (Except.error Thrown.child_out_of_range, ss)
  | some last =>
    andThen (ev ss last) fun retval ss1 =>
      if node.children.length > 1 then
        if node.children.length < 3 then (Except.ok retval, ss1)
        else Equation_loop ev disp node.children (node.children.length - 3) retval ss1
      else (Except.ok retval, ss1)

/-- The loop `for (i = 1; i < children.size(); i += 2)` of the cases `Factor`, `Expression`,
`Term`, `Boolean` and `Comparison` (`main.cpp` lines 345-356).  The first argument bounds the
number of iterations. -/
def Binary_loop (ev : BoxedCPP_System → Token → Result)
    (disp : String → List Boxed_Value → BoxedCPP_System → Result) (children : List Token) :
    Nat → Nat → Boxed_Value → BoxedCPP_System → Result
  | 0, _, _, ss => (Except.error Thrown.out_of_fuel, ss)
  | k + 1, i, retval, ss =>
    if i < children.length then
      with_child children (i + 1) ss fun rhs =>
        andThen (ev ss rhs) fun r ss1 =>
          with_child children i ss1 fun op =>
            andThen (dispatch_op disp op [retval, r] ss1)
              (fun v ss2 => Binary_loop ev disp children k (i + 2) v ss2)
    else (Except.ok retval, ss)

/-- The cases `Factor`, `Expression`, `Term`, `Boolean`, `Comparison` of `eval_token`
(`main.cpp` lines 338-359). -/
def Binary (ev : BoxedCPP_System → Token → Result)
    (disp : String → List Boxed_Value → BoxedCPP_System → Result) (ss : BoxedCPP_System)
    (node : Token) : Result :=
  with_child node.children 0 ss fun first =>
    andThen (ev ss first) fun retval ss1 =>
      if node.children.length > 1 then
        Binary_loop ev disp node.children (node.children.length + 1) 1 retval ss1
      else (Except.ok retval, ss1)

/-- The loop of the case `Array_Call` over the index nodes `children[1..]`
(`main.cpp` lines 362-372). -/
def Array_Call_loop (ev : BoxedCPP_System → Token → Result)
    (disp : String → List Boxed_Value → BoxedCPP_System → Result) :
    List Token → Boxed_Value → BoxedCPP_System → Result
  | [], retval, ss => (Except.ok retval, ss)
  | c :: cs, retval, ss =>
    andThen (ev ss c) fun idx ss1 =>
      andThen (catch_std (disp "[]" [retval, idx] ss1)
          (Thrown.EvalError "Can not find appropriate array lookup '[]'" (some c)))
        (fun v ss2 => Array_Call_loop ev disp cs v ss2)

/-- The case `Array_Call` of `eval_token` (`main.cpp` lines 360-374). -/
def Array_Call (ev : BoxedCPP_System → Token → Result)
    (disp : String → List Boxed_Value → BoxedCPP_System → Result) (ss : BoxedCPP_System)
    (node : Token) : Result :=
  with_child node.children 0 ss fun base =>
    andThen (ev ss base) fun retval ss1 =>
      Array_Call_loop ev disp (node.children.drop 1) retval ss1

/-- The case `Negate` of `eval_token` (`main.cpp` lines 375-388). -/
def Negate (ev : BoxedCPP_System → Token → Result)
    (disp : String → List Boxed_Value → BoxedCPP_System → Result) (ss : BoxedCPP_System)
    (node : Token) : Result :=
  with_child node.children 0 ss fun operand =>
    andThen (ev ss operand) fun retval ss1 =>
      catch_std (disp "-" [retval] ss1)
        (Thrown.EvalError "Can not find appropriate negation" (some operand))

/-- The case `Prefix` of `eval_token` (`main.cpp` lines 389-401). -/
def Prefix (ev : BoxedCPP_System → Token → Result)
    (disp : String → List Boxed_Value → BoxedCPP_System → Result) (ss : BoxedCPP_System)
    (node : Token) : Result :=
  with_child node.children 1 ss fun operand =>
    andThen (ev ss operand) fun retval ss1 =>
      with_child node.children 0 ss1 fun op =>
        catch_std (disp op.text [retval] ss1)
          (Thrown.EvalError "Can not find appropriate prefix" (some op))

/-- The loop of the case `Array_Init` over the element nodes, with its inner `try`
(`main.cpp` lines 405-413); the value of the loop is the vector `retval`. -/
def Array_Init_loop (ev : BoxedCPP_System → Token → Result)
    (disp : String → List Boxed_Value → BoxedCPP_System → Result) (retval : Boxed_Value) :
    List Token → BoxedCPP_System → Result
  | [], ss => (Except.ok retval, ss)
  | c :: cs, ss =>
    andThen
      (catch_std (andThen (ev ss c) (fun tmp ss1 => disp "push_back" [retval, tmp] ss1))
        (Thrown.EvalError "Can not find appropriate 'push_back'" (some c)))
      (fun _ ss2 => Array_Init_loop ev disp retval cs ss2)

/-- The case `Array_Init` of `eval_token` (`main.cpp` lines 402-419). -/
def Array_Init (ev : BoxedCPP_System → Token → Result)
    (disp : String → List Boxed_Value → BoxedCPP_System → Result) (ss : BoxedCPP_System)
    (node : Token) : Result :=
  catch_std
    (andThen (disp "Vector" [] ss)
      (fun retval ss1 => Array_Init_loop ev disp retval node.children ss1))
    (Thrown.EvalError "Can not find appropriate 'Vector()'" (some node))

/-- The `try`/`catch` around `dispatch` in the cases `Fun_Call` and `Method_Call`
(`main.cpp` lines 425-436 and 450-461): an `EvalError` is thrown again at `where_`, a
`std::exception` becomes the error that names the callee, a `ReturnValue` is caught and its
value is the result. -/
def call_site (disp : String → List Boxed_Value → BoxedCPP_System → Result) (name : String)
    (where_ : Token) (plb : List Boxed_Value) (ss : BoxedCPP_System) : Result :=
  match disp name plb ss with
  | (Except.error (Thrown.EvalError reason _), ss1) =>
    (Except.error (Thrown.EvalError reason (some where_)), ss1)
  | (Except.error (Thrown.std_exception _), ss1) =>
    (Except.error (Thrown.EvalError ("Can not find appropriate '" ++ name ++ "'")
      (some where_)), ss1)
  | (Except.error (Thrown.ReturnValue retval _), ss1) => (Except.ok retval, ss1)
  | other => other

/-- The case `Fun_Call` of `eval_token` (`main.cpp` lines 420-438). -/
def Fun_Call (ev : BoxedCPP_System → Token → Result)
    (disp : String → List Boxed_Value → BoxedCPP_System → Result) (ss : BoxedCPP_System)
    (node : Token) : Result :=
  andThen (eval_args ev (node.children.drop 1) [] ss) fun plb ss1 =>
    with_child node.children 0 ss1 fun callee => call_site disp callee.text callee plb ss1

/-- The loop of the case `Method_Call` over the segments `children[1..]`
(`main.cpp` lines 442-462); `first` is `node->children[0]`. -/
def Method_Call_loop (ev : BoxedCPP_System → Token → Result)
    (disp : String → List Boxed_Value → BoxedCPP_System → Result) (first : Token) :
    List Token → Boxed_Value → BoxedCPP_System → Result
  | [], retval, ss => (Except.ok retval, ss)
  | seg :: segs, retval, ss =>
    andThen (eval_args ev (seg.children.drop 1) [retval] ss) fun plb ss1 =>
      with_child seg.children 0 ss1 fun callee =>
        andThen (call_site disp callee.text first plb ss1)
          (fun v ss2 => Method_Call_loop ev disp first segs v ss2)

/-- The case `Method_Call` of `eval_token` (`main.cpp` lines 439-465). -/
def Method_Call (ev : BoxedCPP_System → Token → Result)
    (disp : String → List Boxed_Value → BoxedCPP_System → Result) (ss : BoxedCPP_System)
    (node : Token) : Result :=
  with_child node.children 0 ss fun first =>
    andThen (ev ss first) fun retval ss1 =>
      Method_Call_loop ev disp first (node.children.drop 1) retval ss1

/-- The loop `while ((!cond) && (i < node->children.size()))` of the case `If_Block`
(`main.cpp` lines 481-499), entered with `cond` false at index `i`.  The first argument bounds
the number of iterations. -/
def If_Block_loop (ev : BoxedCPP_System → Token → Result) (children : List Token) :
    Nat → Nat → Boxed_Value → BoxedCPP_System → Result
  | 0, _, _, ss => (Except.error Thrown.out_of_fuel, ss)
  | k + 1, i, retval, ss =>
    if i < children.length then
      with_child children i ss fun keyword =>
        if keyword.text = "else" then
          with_child children (i + 1) ss fun blk => ev ss blk
        else if keyword.text = "elseif" then
          with_child children (i + 1) ss fun c =>
            andThen (ev ss c) fun v ss1 =>
              match ss1.cast_bool v with
              | none =>
                (Except.error (Thrown.EvalError "Elseif condition not boolean" (some c)), ss1)
              | some true => with_child children (i + 2) ss1 fun blk => ev ss1 blk
              | some false => If_Block_loop ev children k (i + 3) v ss1
        else If_Block_loop ev children k (i + 3) retval ss
    else (Except.ok retval, ss)

/-- The case `If_Block` of `eval_token` (`main.cpp` lines 466-503). -/
def If_Block (ev : BoxedCPP_System → Token → Result) (ss : BoxedCPP_System) (node : Token) :
    Result :=
  with_child node.children 0 ss fun c =>
    andThen (ev ss c) fun retval ss1 =>
      match ss1.cast_bool retval with
      | none => (Except.error (Thrown.EvalError "If condition not boolean" (some c)), ss1)
      | some true => with_child node.children 1 ss1 fun blk => ev ss1 blk
      | some false =>
        if node.children.length > 2 then
          If_Block_loop ev node.children (node.children.length + 1) 2 retval ss1
        else (Except.ok retval, ss1)

/-- The `try` block of the `While_Block` loop (`main.cpp` lines 515-522): the body, then the
condition and its cast. -/
def While_Block_try (ev : BoxedCPP_System → Token → Result) (ss : BoxedCPP_System)
    (node : Token) : Outcome Bool :=
  with_child node.children 1 ss fun body =>
    andThen (ev ss body) fun _ ss1 =>
      with_child node.children 0 ss1 fun c =>
        cond_of (ev ss1 c) (Thrown.EvalError "While condition not boolean" (some c))

/-- The loop `while (cond)` of the case `While_Block` with its `catch (BreakLoop &)`, followed
by `retval = Boxed_Value()`.  The first argument bounds the number of iterations. -/
def While_Block_loop (ev : BoxedCPP_System → Token → Result) (node : Token) :
    Nat → Bool → BoxedCPP_System → Result
  | _, false, ss => let (v, ss1) := ss.box Payload.void; (Except.ok v, ss1)
  | 0, true, ss => (Except.error Thrown.out_of_fuel, ss)
  | k + 1, true, ss =>
    match While_Block_try ev ss node with
    | (Except.ok cond, ss1) => While_Block_loop ev node k cond ss1
    | (Except.error (Thrown.BreakLoop _), ss1) => While_Block_loop ev node k false ss1
    | (Except.error e, ss1) => (Except.error e, ss1)

/-- The case `While_Block` of `eval_token` (`main.cpp` lines 504-530). -/
def While_Block (ev : BoxedCPP_System → Token → Result) (fuel : Nat) (ss : BoxedCPP_System)
    (node : Token) : Result :=
  with_child node.children 0 ss fun c =>
    andThen (cond_of (ev ss c) (Thrown.EvalError "While condition not boolean" (some c)))
      (fun cond ss1 => While_Block_loop ev node fuel cond ss1)

/-- The first `try` block of the case `For_Block` (`main.cpp` lines 535-547): with four
children the initialiser then the condition, with three the condition; with any other number
of children `condition` is still the empty box and the cast fails. -/
def For_Block_init (ev : BoxedCPP_System → Token → Result) (ss : BoxedCPP_System)
    (node : Token) : Outcome Bool :=
  catch_std
    (if node.children.length = 4 then
      with_child node.children 0 ss fun init =>
        andThen (ev ss init) fun _ ss1 =>
          with_child node.children 1 ss1 fun c =>
            cond_of (ev ss1 c) (Thrown.std_exception "bad_boxed_cast")
    else if node.children.length = 3 then
      with_child node.children 0 ss fun c =>
        cond_of (ev ss c) (Thrown.std_exception "bad_boxed_cast")
    else (Except.error (Thrown.std_exception "bad_boxed_cast"), ss))
    (Thrown.EvalError "For condition not boolean" (some node))

/-- The `try` block of the `For_Block` loop (`main.cpp` lines 549-565): body, post
expression, condition.  With a number of children other than 3 or 4 nothing is evaluated and
`cond` stays true. -/
def For_Block_try (ev : BoxedCPP_System → Token → Result) (ss : BoxedCPP_System)
    (node : Token) : Outcome Bool :=
  catch_std
    (if node.children.length = 4 then
      with_child node.children 3 ss fun body =>
        andThen (ev ss body) fun _ ss1 =>
          with_child node.children 2 ss1 fun post =>
            andThen (ev ss1 post) fun _ ss2 =>
              with_child node.children 1 ss2 fun c =>
                cond_of (ev ss2 c) (Thrown.std_exception "bad_boxed_cast")
    else if node.children.length = 3 then
      with_child node.children 2 ss fun body =>
        andThen (ev ss body) fun _ ss1 =>
          with_child node.children 1 ss1 fun post =>
            andThen (ev ss1 post) fun _ ss2 =>
              with_child node.children 0 ss2 fun c =>
                cond_of (ev ss2 c) (Thrown.std_exception "bad_boxed_cast")
    else (Except.ok true, ss))
    (Thrown.EvalError "For condition not boolean" (some node))

/-- The loop `while (cond)` of the case `For_Block` with its `catch (BreakLoop &)`, followed
by `retval = Boxed_Value()`.  The first argument bounds the number of iterations. -/
def For_Block_loop (ev : BoxedCPP_System → Token → Result) (node : Token) :
    Nat → Bool → BoxedCPP_System → Result
  | _, false, ss => let (v, ss1) := ss.box Payload.void; (Except.ok v, ss1)
  | 0, true, ss => (Except.error Thrown.out_of_fuel, ss)
  | k + 1, true, ss =>
    match For_Block_try ev ss node with
    | (Except.ok cond, ss1) => For_Block_loop ev node k cond ss1
    | (Except.error (Thrown.BreakLoop _), ss1) => For_Block_loop ev node k false ss1
    | (Except.error e, ss1) => (Except.error e, ss1)

/-- The case `For_Block` of `eval_token` (`main.cpp` lines 531-572). -/
def For_Block (ev : BoxedCPP_System → Token → Result) (fuel : Nat) (ss : BoxedCPP_System)
    (node : Token) : Result :=
  andThen (For_Block_init ev ss node) (fun cond ss1 => For_Block_loop ev node fuel cond ss1)

/-- The case `Function_Def` of `eval_token` (`main.cpp` lines 573-583).  With fewer than two
children the unsigned `size() - 2` wraps and the loop reads past the children.  The proxy is
registered without a declared arity. -/
def Function_Def (ss : BoxedCPP_System) (node : Token) : Result :=
  if node.children.length < 2 then (Except.error Thrown.child_out_of_range, ss)
  else
    let num_args := node.children.length - 2
    let param_names := ((node.children.drop 1).take num_args).map Token.text
    match node.children.getLast?, node.children.head? with
    | some body, some name =>
      let ss1 := ss.register_function
        (Proxy_Function.dynamic (Dynamic.eval_function body param_names) none) name.text
      let (retval, ss2) := ss1.box Payload.void
      (Except.ok retval, ss2)
    | _, _ => (Except.error Thrown.child_out_of_range, ss)

/-- The case `Scoped_Block` of `eval_token` (`main.cpp` lines 584-591): `pop_scope` is reached
only when no child throws. -/
def Scoped_Block (ev : BoxedCPP_System → Token → Result) (ss : BoxedCPP_System)
    (node : Token) : Result :=
  let (retval, ss0) := ss.box Payload.void
  andThen (eval_children ev node.children retval ss0.new_scope)
    (fun v ss1 => (Except.ok v, ss1.pop_scope))

/-- The case `Return` of `eval_token` (`main.cpp` lines 592-601). -/
def Return (ev : BoxedCPP_System → Token → Result) (ss : BoxedCPP_System) (node : Token) :
    Result :=
  if node.children.length > 0 then
    with_child node.children 0 ss fun c =>
      andThen (ev ss c) (fun retval ss1 => (Except.error (Thrown.ReturnValue retval node), ss1))
  else
    let (retval, ss1) := ss.box Payload.void
    (Except.error (Thrown.ReturnValue retval node), ss1)

/-- The case `Variable_Decl` of `eval_token` (`main.cpp` lines 333-337). -/
def Variable_Decl (ss : BoxedCPP_System) (node : Token) : Result :=
  with_child node.children 0 ss fun name =>
    let (empty, ss1) := ss.box Payload.void
    let ss2 := ss1.set_object name.text empty
    match ss2.get_object name.text with
    | some retval => (Except.ok retval, ss2)
    | none => (Except.error (Thrown.std_exception "Object not known"), ss2)

/-- The case `Identifier` of `eval_token` (`main.cpp` lines 289-304). -/
def Identifier (ss : BoxedCPP_System) (node : Token) : Result :=
  if node.text = "true" then
    let (retval, ss1) := ss.box (Payload.bool true)
    (Except.ok retval, ss1)
  else if node.text = "false" then
    let (retval, ss1) := ss.box (Payload.bool false)
    (Except.ok retval, ss1)
  else
    match ss.get_object node.text with
    | some retval => (Except.ok retval, ss)
    | none =>
      (Except.error (Thrown.EvalError ("Can not find object: " ++ node.text) (some node)), ss)

/-- The parameter loop of `eval_function` (`main.cpp` lines 139-141); `vals[i]` past the end
of the argument vector is undefined behaviour. -/
def bind_params : List String → Nat → List Boxed_Value → BoxedCPP_System → Outcome Unit
  | [], _, _, ss => (Except.ok (), ss)
  | p :: ps, i, vals, ss =>
    match vals[i]? with
    | some v => bind_params ps (i + 1) vals (ss.add_object p v)
    | none => (Except.error Thrown.undefined_behaviour, ss)

/-- The function `eval_function` of `main.cpp` (lines 138-143). -/
def eval_function (ev : BoxedCPP_System → Token → Result) (ss : BoxedCPP_System)
    (node : Token) (param_names : List String) (vals : List Boxed_Value) : Result :=
  andThen (bind_params param_names 0 vals ss) (fun _ ss1 => ev ss1 node)

/-- The `std::string::substr(pos, count)` call: it throws `std::out_of_range` (here `none`)
when `pos` exceeds the size. -/
def substr (s : String) (pos count : Nat) : Option String :=
  if pos > s.length then none else some (String.mk ((s.data.drop pos).take count))

/-- The loop of `evaluate_string` that strips the quotes (`main.cpp` lines 647-651):
`text.substr(1, text.size() - 2)` on every string token, `size() - 2` being computed in
`size_t`. -/
def strip_quotes : List Token → Option (List Token)
  | [] => some []
  | t :: ts =>
    if t.identifier = TokenType.Quoted_String ∨ t.identifier = TokenType.Single_Quoted_String
    then
      match substr t.text 1 ((t.text.length + 2 ^ 64 - 2) % 2 ^ 64), strip_quotes ts with
      | some s, some rest => some (t.setText s :: rest)
      | _, _ => none
    else (strip_quotes ts).map (fun rest => t :: rest)

/-- The function `evaluate_string` of `main.cpp` (lines 643-679) given the evaluator `ev` of
trees.  Printing to `std::cout` is not modelled.  `substr` is called outside the `try`, the
handlers catch `ParserError`, `EvalError` and `std::exception` only, and the handler of
`EvalError` reads `ee.location->filename` unless the file name is `__EVAL__`. -/
def evaluate_string_with (ev : BoxedCPP_System → Token → Result) (parse_fuel : Nat)
    (lexer : Lexer) (parser : Rule) (ss : BoxedCPP_System) (input filename : String) : Result :=
  let tokens := lexer.lex input filename
  let (value, ss0) := ss.box Payload.void
  match strip_quotes tokens with
  | none => (Except.error (Thrown.std_exception "basic_string::substr"), ss0)
  | some tokens1 =>
    match parse parse_fuel parser tokens1 filename with
    | Except.error (Thrown.ParserError _ _) => (Except.ok value, ss0)
    | Except.error e => (Except.error e, ss0)
    | Except.ok parent =>
      match ev ss0 parent with
      | (Except.error (Thrown.EvalError _ location), ss1) =>
        if filename ≠ "__EVAL__" ∧ location.isNone then
          (Except.error Thrown.undefined_behaviour, ss1)
        else (Except.ok value, ss1)
      | (Except.error (Thrown.std_exception _), ss1) => (Except.ok value, ss1)
      | other => other

/-- The function `eval` of `main.cpp` (lines 104-117), bound to its lexer and parser. -/
def eval (ev : BoxedCPP_System → Token → Result) (parse_fuel : Nat) (lexer : Lexer)
    (parser : Rule) (ss : BoxedCPP_System) (vals : List Boxed_Value) : Result :=
  match vals[0]? with
  | none => (Except.error Thrown.undefined_behaviour, ss)
  | some v =>
    match ss.cast_string v with
    | none => (Except.error (Thrown.EvalError "Can not evaluate string: " none), ss)
    | some val => evaluate_string_with ev parse_fuel lexer parser ss val "__EVAL__"

/-- The callable stored in a `Dynamic_Proxy_Function`, applied to the argument vector.
`add_two` (`main.cpp` lines 100-102) dispatches `+` again; the first argument bounds that
nesting. -/
def call_dynamic (ev : BoxedCPP_System → Token → Result) :
    Nat → Dynamic → List Boxed_Value → BoxedCPP_System → Result
  | 0, _, _, ss => (Except.error Thrown.out_of_fuel, ss)
  | _ + 1, Dynamic.eval_function node param_names, vals, ss =>
    eval_function ev ss node param_names vals
  | k + 1, Dynamic.add_two, vals, ss =>
    dispatch (call_dynamic ev k) (ss.get_function "+") vals ss
  | k + 1, Dynamic.eval lexer parser, vals, ss => eval ev k lexer parser ss vals

/-- The call `dispatch(ss.get_function(name), plb)` as the evaluator makes it. -/
def dispatch_name (ev : BoxedCPP_System → Token → Result) (fuel : Nat) (name : String)
    (plb : List Boxed_Value) (ss : BoxedCPP_System) : Result :=
  dispatch (call_dynamic ev fuel) (ss.get_function name) plb ss

/-- The function `eval_token` of `main.cpp` (lines 278-623).  One unit of fuel is spent per
level of recursion (children, bodies of called functions); the loops of `While_Block` and
`For_Block` make at most `fuel` iterations. -/
def eval_token : Nat → BoxedCPP_System → Token → Result
  | 0, ss, _ => (Except.error Thrown.out_of_fuel, ss)
  | n + 1, ss, node =>
    match node.identifier with
    | TokenType.Value | TokenType.File =>
      let (retval, ss0) := ss.box Payload.void
      eval_children (eval_token n) node.children retval ss0
    | TokenType.Identifier => Identifier ss node
    | TokenType.Real_Number =>
      let (retval, ss1) := ss.box (Payload.double node.text)
      (Except.ok retval, ss1)
    | TokenType.Integer =>
      if atoi node.text < -2147483648 ∨ 2147483647 < atoi node.text then
        (Except.error Thrown.undefined_behaviour, ss)
      else
        let (retval, ss1) := ss.box (Payload.int (atoi node.text))
        (Except.ok retval, ss1)
    | TokenType.Quoted_String =>
      let (retval, ss1) := ss.box (Payload.string node.text)
      (Except.ok retval, ss1)
    | TokenType.Single_Quoted_String =>
      let (retval, ss1) := ss.box (Payload.string node.text)
      (Except.ok retval, ss1)
    | TokenType.Equation => Equation (eval_token n) (dispatch_name (eval_token n) n) ss node
    | TokenType.Variable_Decl => Variable_Decl ss node
    | TokenType.Factor | TokenType.Expression | TokenType.Term | TokenType.Boolean
    | TokenType.Comparison => Binary (eval_token n) (dispatch_name (eval_token n) n) ss node
    | TokenType.Array_Call => Array_Call (eval_token n) (dispatch_name (eval_token n) n) ss node
    | TokenType.Negate => Negate (eval_token n) (dispatch_name (eval_token n) n) ss node
    | TokenType.Prefix => Prefix (eval_token n) (dispatch_name (eval_token n) n) ss node
    | TokenType.Array_Init => Array_Init (eval_token n) (dispatch_name (eval_token n) n) ss node
    | TokenType.Fun_Call => Fun_Call (eval_token n) (dispatch_name (eval_token n) n) ss node
    | TokenType.Method_Call =>
      Method_Call (eval_token n) (dispatch_name (eval_token n) n) ss node
    | TokenType.If_Block => If_Block (eval_token n) ss node
    | TokenType.While_Block => While_Block (eval_token n) n ss node
    | TokenType.For_Block => For_Block (eval_token n) n ss node
    | TokenType.Function_Def => Function_Def ss node
    | TokenType.Scoped_Block => Scoped_Block (eval_token n) ss node
    | TokenType.Return => Return (eval_token n) ss node
    | TokenType.Break => (Except.error (Thrown.BreakLoop node), ss)
    | TokenType.Statement | TokenType.Carriage_Return | TokenType.Semicolon
    | TokenType.Comment | TokenType.Operator | TokenType.Whitespace | TokenType.Parens_Open
    | TokenType.Parens_Close | TokenType.Square_Open | TokenType.Square_Close
    | TokenType.Curly_Open | TokenType.Curly_Close | TokenType.Comma =>
      let (retval, ss1) := ss.box Payload.void
      (Except.ok retval, ss1)

/-- The function `evaluate_string` of `main.cpp` (lines 643-679), with the fuel given to the
parser and to the evaluator. -/
def evaluate_string (fuel : Nat) (lexer : Lexer) (parser : Rule) (ss : BoxedCPP_System)
    (input filename : String) : Result :=
  evaluate_string_with (eval_token fuel) fuel lexer parser ss input filename

/-! ## The folds and the arm selection, written as the specification words them -/

/-- The children `[a1, b1, ..., an, bn]` made by the pairs `(a1, b1), ..., (an, bn)`. -/
def interleave : List (Token × Token) → List Token
  | [] => []
  | (a, b) :: rest => a :: b :: interleave rest

/-- Specification of the operator fold (section 4.7, Factor / Expression / Term / Boolean /
Comparison): starting from the value `r` of the first child, for each pair `(op, rhs)` from
left to right evaluate `rhs` and dispatch the text of `op` on `(r, value of rhs)`. -/
def left_fold (ev : BoxedCPP_System → Token → Result)
    (disp : String → List Boxed_Value → BoxedCPP_System → Result) :
    List (Token × Token) → Boxed_Value → BoxedCPP_System → Result
  | [], r, ss => (Except.ok r, ss)
  | (op, rhs) :: rest, r, ss =>
    andThen (ev ss rhs) fun x ss1 =>
      andThen (dispatch_op disp op [r, x] ss1) fun r1 ss2 => left_fold ev disp rest r1 ss2

/-- Specification of the assignment fold (section 4.7, Equation): `current` is the value of
the rightmost operand; for each pair `(lhs, op)`, taken from right to left, evaluate `lhs` and
dispatch the text of `op` on `(value of lhs, current)`.  The pairs are listed here in the
order in which they are processed, i.e. rightmost first. -/
def assign_fold (ev : BoxedCPP_System → Token → Result)
    (disp : String → List Boxed_Value → BoxedCPP_System → Result) :
    List (Token × Token) → Boxed_Value → BoxedCPP_System → Result
  | [], current, ss => (Except.ok current, ss)
  | (lhs, op) :: rest, current, ss =>
    andThen (ev ss lhs) fun l ss1 =>
      andThen (dispatch_op disp op [l, current] ss1) fun r ss2 => assign_fold ev disp rest r ss2

/-- The children `[kw1, c1, b1, ..., kwn, cn, bn]` made by the `elseif` triples. -/
def elseif_children : List (Token × Token × Token) → List Token
  | [] => []
  | (kw, c, b) :: rest => kw :: c :: b :: elseif_children rest

/-- The children `[kw, b]` made by the optional `else` pair. -/
def else_children : Option (Token × Token) → List Token
  | none => []
  | some (kw, b) => [kw, b]

/-- Specification of the tail of an `If_Block` (section 4.7): the `elseif` conditions are
tested in order and the block of the first true one is evaluated; when none is true the
`else` block is evaluated if there is one, and otherwise no block is evaluated (the value is
then `last`, the value of the last condition tested). -/
def elseif_arms (ev : BoxedCPP_System → Token → Result) :
    List (Token × Token × Token) → Option (Token × Token) → Boxed_Value → BoxedCPP_System →
      Result
  | [], none, last, ss => (Except.ok last, ss)
  | [], some (_, blk), _, ss => ev ss blk
  | (_, c, blk) :: rest, els, _, ss =>
    andThen (ev ss c) fun v ss1 =>
      match ss1.cast_bool v with
      | none => (Except.error (Thrown.EvalError "Elseif condition not boolean" (some c)), ss1)
      | some true => ev ss1 blk
      | some false => elseif_arms ev rest els v ss1

/-- Specification of an `If_Block` (section 4.7): evaluate the condition and require a
boolean; on true evaluate the then-block, else walk the `elseif` / `else` arms. -/
def if_arms (ev : BoxedCPP_System → Token → Result) (cond blk : Token)
    (arms : List (Token × Token × Token)) (els : Option (Token × Token))
    (ss : BoxedCPP_System) : Result :=
  andThen (ev ss cond) fun v ss1 =>
    match ss1.cast_bool v with
    | none => (Except.error (Thrown.EvalError "If condition not boolean" (some cond)), ss1)
    | some true => ev ss1 blk
    | some false => elseif_arms ev arms els v ss1

/-- Specification of the parameter binding of a call (section 4.7, Function_Def): argument
`i` is bound to parameter name `i` with `add_object`, in order. -/
def bind_all (ss : BoxedCPP_System) (names : List String) (vals : List Boxed_Value) :
    BoxedCPP_System :=
  (names.zip vals).foldl (fun s p => s.add_object p.1 p.2) ss

/-- An entry of the registry that `dispatch` passes over for the argument vector `plist`: a
native function of another arity or whose arguments do not unbox, or a dynamic proxy declared
with another arity. -/
def declines (f : Proxy_Function) (plist : List Boxed_Value) (ss : BoxedCPP_System) : Prop :=
  match f with
  | Proxy_Function.native arity call => arity ≠ plist.length ∨ call plist ss.store = none
  | Proxy_Function.dynamic _ arity => arity ≠ none ∧ arity ≠ some plist.length

/-- The evaluation of `node` with fuel `n + 1` reaches the dispatch of the name of `callee`
with the argument vector `vals` in the state `ss1`: either `node` is a `Fun_Call`
`callee(args)` whose arguments evaluate to `vals`, or it is a `Method_Call` `recv.callee(args)`
whose receiver and arguments evaluate to `vals`. -/
def reaches_call (n : Nat) (ss : BoxedCPP_System) (node callee : Token)
    (vals : List Boxed_Value) (ss1 : BoxedCPP_System) : Prop :=
  (node.identifier = TokenType.Fun_Call ∧
    ∃ arg_nodes, node.children = callee :: arg_nodes ∧
      eval_args (eval_token n) arg_nodes [] ss = (Except.ok vals, ss1)) ∨
  (node.identifier = TokenType.Method_Call ∧
    ∃ recv seg arg_nodes rv ss0, node.children = [recv, seg] ∧
      seg.children = callee :: arg_nodes ∧
      eval_token n ss recv = (Except.ok rv, ss0) ∧
      eval_args (eval_token n) arg_nodes [rv] ss0 = (Except.ok vals, ss1))

/-- The empty result of a loop: `retval = Boxed_Value()`, a new empty box. -/
def empty_result (ss : BoxedCPP_System) : Result :=
  let (v, ss1) := ss.box Payload.void
  (Except.ok v, ss1)

/-- Specification of a loop (section 4.7, While_Block / For_Block): repeat (test the
condition; exit with the empty value if it is false; run one round), where a round is the
body of a `while` and the body followed by the post expression of a `for`.  A `Break` signal
raised by the round exits the loop with the empty value.  `entered` tells whether a round has
been run already: a `Break` raised by the condition itself exits the loop once it has been
entered and propagates on the very first test.  The first argument bounds the number of
rounds. -/
def loop_rounds (test : BoxedCPP_System → Outcome Bool) (round : BoxedCPP_System → Result) :
    Nat → Bool → BoxedCPP_System → Result
  | 0, entered, ss =>
    match test ss with
    | (Except.ok false, s1) => empty_result s1
    | (Except.ok true, s1) => (Except.error Thrown.out_of_fuel, s1)
    | (Except.error (Thrown.BreakLoop location), s1) =>
      if entered then empty_result s1 else (Except.error (Thrown.BreakLoop location), s1)
    | (Except.error e, s1) => (Except.error e, s1)
  | k + 1, entered, ss =>
    match test ss with
    | (Except.ok false, s1) => empty_result s1
    | (Except.ok true, s1) =>
      match round s1 with
      | (Except.ok _, s2) => loop_rounds test round k true s2
      | (Except.error (Thrown.BreakLoop _), s2) => empty_result s2
      | (Except.error e, s2) => (Except.error e, s2)
    | (Except.error (Thrown.BreakLoop location), s1) =>
      if entered then empty_result s1 else (Except.error (Thrown.BreakLoop location), s1)
    | (Except.error e, s1) => (Except.error e, s1)

/-- The test of a `While_Block`: evaluate the condition and require a boolean. -/
def while_test (ev : BoxedCPP_System → Token → Result) (c : Token) (ss : BoxedCPP_System) :
    Outcome Bool :=
  cond_of (ev ss c) (Thrown.EvalError "While condition not boolean" (some c))

/-- The error every `std::exception` raised inside a `For_Block` is turned into. -/
def for_error (node : Token) : Thrown :=
  Thrown.EvalError "For condition not boolean" (some node)

/-- The test of a `For_Block`: evaluate the condition and require a boolean. -/
def for_test (ev : BoxedCPP_System → Token → Result) (node c : Token)
    (ss : BoxedCPP_System) : Outcome Bool :=
  catch_std (cond_of (ev ss c) (Thrown.std_exception "bad_boxed_cast")) (for_error node)

/-- One round of a `For_Block`: the body, then the post expression. -/
def for_round (ev : BoxedCPP_System → Token → Result) (node body post : Token)
    (ss : BoxedCPP_System) : Result :=
  catch_std (andThen (ev ss body) (fun _ ss1 => ev ss1 post)) (for_error node)

/-- Specification of a `Method_Call` (section 4.7): for each segment `.name(args)` from left to
right, evaluate the arguments and dispatch `name` on the receiver followed by the evaluated
arguments; the result becomes the receiver of the next segment.  The dispatch is made as the
call site makes it (a `Return` signal is caught and its value used, errors are located at
`first`, the first child of the node). -/
def method_fold (ev : BoxedCPP_System → Token → Result)
    (disp : String → List Boxed_Value → BoxedCPP_System → Result) (first : Token) :
    List (Token × List Token) → Boxed_Value → BoxedCPP_System → Result
  | [], r, ss => (Except.ok r, ss)
  | (name, args) :: rest, r, ss =>
    andThen (eval_args ev args [] ss) fun vals ss1 =>
      andThen (call_site disp name.text first (r :: vals) ss1)
        (fun r1 ss2 => method_fold ev disp first rest r1 ss2)

/-- No entry registered under `name` accepts the argument vector `plist`: the registry has no
entry of that name, or every entry of that name declines. -/
def no_match (ss : BoxedCPP_System) (name : String) (plist : List Boxed_Value) : Prop :=
  ∀ f ∈ ss.get_function name, declines f plist ss

/-- A decimal digit character, `0` to `9`. -/
def is_digit_char (c : Char) : Prop := ∃ d, d < 10 ∧ c = Nat.digitChar d

/-- The number a list of decimal digits denotes when read after the number `a`. -/
def digits_value (cs : List Char) (a : Nat) : Nat :=
  cs.foldl (fun acc x => 10 * acc + (x.toNat - 48)) a

/-- A decimal spelling of the natural number `n`: its digits in base ten, most significant
first, after `zeros` leading zeros. -/
def decimal_spelling (zeros n : Nat) : String :=
  String.mk (List.replicate zeros '0' ++ Nat.toDigits 10 n)

/-- Running the rule body `r` on the token suffix `ts` gives the result `res` once the
fuel suffices. -/
def parses (g : Rule) (r : RuleBody) (ts : List Token) (res : Match) : Prop :=
  res ≠ Match.out_of_fuel ∧ ∃ n, run_rule g n r ts = res

/-- The shape of the bodies assigned to `term`, `expression`, `comparison` and `boolean`:
`sub >> *((Str(o1) >> sub) | (Str(o2) >> sub) | ...)`. -/
def level_body (sub : RuleName) (ops : List String) : RuleBody :=
  seqs [RuleBody.Ref sub,
    RuleBody.Star (alts (ops.map fun o => seqs [RuleBody.Str o, RuleBody.Ref sub]))]

open RuleBody RuleName in
/-- The alternatives under the star of the body assigned to `equation`
(`main.cpp` lines 219-223). -/
def assignment_targets : RuleBody :=
  alts [
    seqs [alts [Ref vardecl, Ref arraycall, Id TokenType.Identifier], Str "="],
    seqs [alts [Ref vardecl, Ref arraycall, Id TokenType.Identifier], Str "+="],
    seqs [alts [Ref vardecl, Ref arraycall, Id TokenType.Identifier], Str "-="],
    seqs [alts [Ref vardecl, Ref arraycall, Id TokenType.Identifier], Str "*="],
    seqs [alts [Ref vardecl, Ref arraycall, Id TokenType.Identifier], Str "/="]]

/-- The binary operators of the grammar, with the level of the rule that consumes them:
0 for `term`, 1 for `expression`, 2 for `comparison`, 3 for `boolean`. -/
def operator_level (s : String) : Option Nat :=
  if s ∈ ["*", "/"] then some 0
  else if s ∈ ["+", "-"] then some 1
  else if s ∈ ["==", "!=", "<", "<=", ">", ">="] then some 2
  else if s ∈ ["&&", "||"] then some 3
  else none

/-- The nodes a chain of rules with output kinds `kinds`, innermost first, builds around
the children `cs` when each rule is entered at `ts` and left at `rest`. -/
def wrap_levels (kinds : List TokenType) (ts rest cs : List Token) : List Token :=
  kinds.foldl (fun acc k => [fresh_node k ts rest acc]) cs

/-- The Boolean node for `a op b`: the operands `va` and `vb`, each wrapped in the nodes of
the levels below the operator, joined with the operator token in the node of its level, and
that node wrapped in the levels above. -/
def binary_tree (level : Nat) (ts : List Token) (op : Token) (bs va vb : List Token) :
    List Token :=
  let kinds := [TokenType.Factor, TokenType.Term, TokenType.Expression, TokenType.Comparison,
    TokenType.Boolean]
  wrap_levels (kinds.drop (level + 1)) ts []
    (wrap_levels (kinds.take (level + 1)) ts (op :: bs) va
      ++ op :: wrap_levels (kinds.take (level + 1)) bs [] vb)

/-- The run of conditions that all come out false: evaluate the conditions in order, each in
the state the previous one left; the result is the value of the last one (`last` when there
is none) and the state it left, or `none` as soon as a condition throws or is not `false`. -/
def conditions_false (ev : BoxedCPP_System → Token → Result) :
    List Token → Boxed_Value → BoxedCPP_System → Option (Boxed_Value × BoxedCPP_System)
  | [], last, ss => some (last, ss)
  | c :: cs, _, ss =>
    match ev ss c with
    | (Except.ok v, ss1) =>
      if ss1.cast_bool v = some false then conditions_false ev cs v ss1 else none
    | _ => none

/-- A match of the rule body consumes at least one token, given for each rule name whether
its matches do: a syntactic sufficient condition. -/
def consumes (nn : RuleName → Bool) : RuleBody → Bool
  | RuleBody.Seq a b => consumes nn a || consumes nn b
  | RuleBody.Alt a b => consumes nn a && consumes nn b
  | RuleBody.Star _ => false
  | RuleBody.Plus a => consumes nn a
  | RuleBody.Opt _ => false
  | RuleBody.Ign a => consumes nn a
  | RuleBody.Wrap a => consumes nn a
  | RuleBody.Id _ => true
  | RuleBody.Str _ => true
  | RuleBody.Ref name => nn name

/-- Every `Star` and every `Plus` inside the rule body repeats a body whose matches consume
at least one token. -/
def loops_consume (nn : RuleName → Bool) : RuleBody → Bool
  | RuleBody.Seq a b => loops_consume nn a && loops_consume nn b
  | RuleBody.Alt a b => loops_consume nn a && loops_consume nn b
  | RuleBody.Star a => consumes nn a && loops_consume nn a
  | RuleBody.Plus a => consumes nn a && loops_consume nn a
  | RuleBody.Opt a => loops_consume nn a
  | RuleBody.Ign a => loops_consume nn a
  | RuleBody.Wrap a => loops_consume nn a
  | RuleBody.Id _ => true
  | RuleBody.Str _ => true
  | RuleBody.Ref _ => true

/-- Every rule the body can enter before it has consumed a token has a rank below `k`. -/
def heads_below (nn : RuleName → Bool) (rank : RuleName → Nat) (k : Nat) : RuleBody → Bool
  | RuleBody.Seq a b => heads_below nn rank k a && (consumes nn a || heads_below nn rank k b)
  | RuleBody.Alt a b => heads_below nn rank k a && heads_below nn rank k b
  | RuleBody.Star a => heads_below nn rank k a
  | RuleBody.Plus a => heads_below nn rank k a
  | RuleBody.Opt a => heads_below nn rank k a
  | RuleBody.Ign a => heads_below nn rank k a
  | RuleBody.Wrap a => heads_below nn rank k a
  | RuleBody.Id _ => true
  | RuleBody.Str _ => true
  | RuleBody.Ref name => decide (rank name < k)

/-- The check of one rule of a rule graph: its loops repeat consuming bodies, the rules it
can enter before consuming a token have a smaller rank (no left recursion), and its matches
consume a token when the table `nn` says so. -/
def rule_well_formed (g : Rule) (nn : RuleName → Bool) (rank : RuleName → Nat)
    (name : RuleName) : Bool :=
  match g.body name with
  | none => true
  | some b =>
    loops_consume nn b && heads_below nn rank (rank name) b && (!nn name || consumes nn b)

/-- The rules of `build_parser_rules` whose matches consume at least one token: all that are
assigned. -/
def rule_consumes : RuleName → Bool
  | RuleName.statements => false
  | _ => true

open RuleName in
/-- A rank of the rules of `build_parser_rules` that decreases along every entry made before
a token is consumed. -/
def rule_rank : RuleName → Nat
  | value => 1
  | methodcall => 2
  | arraycall => 2
  | factor => 3
  | term => 4
  | expression => 5
  | comparison => 6
  | boolean => 7
  | equation => 8
  | statement => 9
  | statement_list => 10
  | source_elem => 10
  | source_elems => 11
  | RuleName.rule => 12
  | _ => 0

/-- The children a repetition contributes: the concatenation of the contributions of its
rounds, each satisfying `p`. -/
inductive star_sig (p : List Token → Prop) : List Token → Prop
  | nil : star_sig p []
  | cons (l rest : List Token) : p l → star_sig p rest → star_sig p (l ++ rest)

/-- What a rule body can contribute to its parent, by the structure of the body, given for
every rule name what a reference to it can contribute. -/
def sig (ref : RuleName → List Token → Prop) : RuleBody → List Token → Prop
  | RuleBody.Seq a b => fun cs => ∃ c1 c2, cs = c1 ++ c2 ∧ sig ref a c1 ∧ sig ref b c2
  | RuleBody.Alt a b => fun cs => sig ref a cs ∨ sig ref b cs
  | RuleBody.Star a => fun cs => star_sig (sig ref a) cs
  | RuleBody.Plus a => fun cs => star_sig (sig ref a) cs
  | RuleBody.Opt a => fun cs => cs = [] ∨ sig ref a cs
  | RuleBody.Ign _ => fun cs => cs = []
  | RuleBody.Wrap a => fun cs => sig ref a cs
  | RuleBody.Id k => fun cs => ∃ t, cs = [t] ∧ t.identifier = k
  | RuleBody.Str s => fun cs => ∃ t, cs = [t] ∧ t.text = s
  | RuleBody.Ref name => fun cs => ref name cs

/-- The trees on which `eval_token` reads no child that is not there, by the kind of the
node: a leaf kind reads no child; `File`, `Scoped_Block` and `Array_Init` loop over their
children; `Return` reads child 0 when there is one; the operator kinds read an operand and
then (operator, operand) pairs; `Equation` reads (target, operator) pairs and then the last
child; `If_Block` reads the condition, the block, then `elseif` triples and at most one final
`else` pair; `For_Block` has 3 or 4 children; `Function_Def` has a name, parameters and a
body; `Prefix` has 2 children; the other kinds have the children their case reads.  The
children that are evaluated are of this form again. -/
inductive Shaped : Token → Prop
  | leaf (t : Token) :
      (t.identifier = TokenType.Identifier ∨ t.identifier = TokenType.Real_Number ∨
        t.identifier = TokenType.Integer ∨ t.identifier = TokenType.Quoted_String ∨
        t.identifier = TokenType.Single_Quoted_String ∨ t.identifier = TokenType.Break) →
      Shaped t
  | sequence (t : Token) :
      (t.identifier = TokenType.File ∨ t.identifier = TokenType.Scoped_Block ∨
        t.identifier = TokenType.Array_Init) →
      (∀ c ∈ t.children, Shaped c) → Shaped t
  | return_node (t : Token) :
      t.identifier = TokenType.Return → t.children.length ≤ 1 →
      (∀ c ∈ t.children, Shaped c) → Shaped t
  | binary (t first : Token) (pairs : List (Token × Token)) :
      (t.identifier = TokenType.Factor ∨ t.identifier = TokenType.Expression ∨
        t.identifier = TokenType.Term ∨ t.identifier = TokenType.Boolean ∨
        t.identifier = TokenType.Comparison) →
      t.children = first :: interleave pairs → Shaped first →
      (∀ p ∈ pairs, Shaped p.2) → Shaped t
  | equation (t : Token) (pairs : List (Token × Token)) (last : Token) :
      t.identifier = TokenType.Equation → t.children = interleave pairs ++ [last] →
      (∀ p ∈ pairs, Shaped p.1) → Shaped last → Shaped t
  | variable_decl (t name : Token) :
      t.identifier = TokenType.Variable_Decl → t.children = [name] → Shaped t
  | array_call (t base : Token) (idxs : List Token) :
      t.identifier = TokenType.Array_Call → t.children = base :: idxs → Shaped base →
      (∀ c ∈ idxs, Shaped c) → Shaped t
  | negate (t c : Token) :
      t.identifier = TokenType.Negate → t.children = [c] → Shaped c → Shaped t
  | prefix_node (t op c : Token) :
      t.identifier = TokenType.Prefix → t.children = [op, c] → Shaped c → Shaped t
  | fun_call (t callee : Token) (args : List Token) :
      t.identifier = TokenType.Fun_Call → t.children = callee :: args →
      (∀ c ∈ args, Shaped c) → Shaped t
  | method_call (t recv : Token) (segs : List Token) :
      t.identifier = TokenType.Method_Call → t.children = recv :: segs → Shaped recv →
      (∀ seg ∈ segs, seg.identifier = TokenType.Fun_Call) → (∀ seg ∈ segs, Shaped seg) →
      Shaped t
  | if_block (t cond blk : Token) (arms : List (Token × Token × Token))
      (els : Option (Token × Token)) :
      t.identifier = TokenType.If_Block →
      t.children = cond :: blk :: (elseif_children arms ++ else_children els) →
      (∀ a ∈ arms, a.1.text = "elseif") → (∀ e, els = some e → e.1.text = "else") →
      Shaped cond → Shaped blk → (∀ a ∈ arms, Shaped a.2.1) → (∀ a ∈ arms, Shaped a.2.2) →
      (∀ e, els = some e → Shaped e.2) → Shaped t
  | while_block (t c body : Token) :
      t.identifier = TokenType.While_Block → t.children = [c, body] → Shaped c →
      Shaped body → Shaped t
  | for_block (t init c post body : Token) :
      t.identifier = TokenType.For_Block → t.children = [init, c, post, body] →
      Shaped init → Shaped c → Shaped post → Shaped body → Shaped t
  | for_block_no_init (t c post body : Token) :
      t.identifier = TokenType.For_Block → t.children = [c, post, body] →
      Shaped c → Shaped post → Shaped body → Shaped t
  | function_def (t name : Token) (params : List Token) (body : Token) :
      t.identifier = TokenType.Function_Def → t.children = name :: (params ++ [body]) →
      Shaped body → Shaped t

/-- What a reference to a rule of `build_parser_rules` contributes: a rule with an output
kind contributes one node of that kind; `value` contributes one node; `for_conditions`
contributes two or three; the other rules without an output kind contribute a list. -/
def rule_sig (name : RuleName) (cs : List Token) : Prop :=
  match build_parser_rules_kind name with
  | some k => ∃ node, cs = [node] ∧ node.identifier = k ∧ Shaped node
  | none =>
    match name with
    | RuleName.value => ∃ t, cs = [t] ∧ Shaped t
    | RuleName.for_conditions => (cs.length = 2 ∨ cs.length = 3) ∧ ∀ t ∈ cs, Shaped t
    | RuleName.params => True
    | _ => ∀ t ∈ cs, Shaped t

/-- The rule bodies that contribute only nodes that are evaluated: references to rules other
than `params`, and tokens of the literal kinds; no token matched by its text. -/
def contributes_operands : RuleBody → Bool
  | RuleBody.Seq a b => contributes_operands a && contributes_operands b
  | RuleBody.Alt a b => contributes_operands a && contributes_operands b
  | RuleBody.Star a => contributes_operands a
  | RuleBody.Plus a => contributes_operands a
  | RuleBody.Opt a => contributes_operands a
  | RuleBody.Ign _ => true
  | RuleBody.Wrap a => contributes_operands a
  | RuleBody.Id k =>
    k = TokenType.Identifier || k = TokenType.Real_Number || k = TokenType.Integer ||
      k = TokenType.Quoted_String || k = TokenType.Single_Quoted_String
  | RuleBody.Str _ => false
  | RuleBody.Ref name => name != RuleName.params

/-- The callable of a dynamic entry evaluates only trees of the parser: the body that a
`Function_Def` bound is a tree of the shape the parser builds, and `eval` is bound to the
grammar of `build_parser_rules`, as `main` binds it. -/
def Dynamic.runs_parsed : Dynamic → Prop
  | Dynamic.eval_function node _ => Shaped node
  | Dynamic.add_two => True
  | Dynamic.eval _ parser => parser = build_parser_rules

/-- An entry of the registry evaluates only trees of the parser; a native function evaluates
no tree. -/
def Proxy_Function.runs_parsed : Proxy_Function → Prop
  | Proxy_Function.native _ _ => True
  | Proxy_Function.dynamic f _ => f.runs_parsed

/-- Every entry of the function registry evaluates only trees of the parser.  The registry of
`build_eval_system` is such a registry, and so is the empty one. -/
def registry_parsed (ss : BoxedCPP_System) : Prop :=
  ∀ e ∈ ss.functions, e.2.runs_parsed

/-- The computation does not end in a read of a child that is not there, and the registry it
leaves behind evaluates only trees of the parser. -/
def children_in_bounds {α : Type} (r : Outcome α) : Prop :=
  r.1 ≠ Except.error Thrown.child_out_of_range ∧ registry_parsed r.2

/-! ## Concrete inputs -/

/-- A leaf token of the file `test.chai`, on line 0, whose span starts at column `col`. -/
def leaf (text : String) (kind : TokenType) (col : Nat) : Token :=
  Token.mk text kind "test.chai" ⟨0, col⟩ ⟨0, col + text.length⟩ []

/-- An interpreter state with the global frame only, no cell and no function. -/
def empty_system : BoxedCPP_System := ⟨[], [[]], []⟩

/-- The lexer that answers every input with the given token vector. -/
def lexer_of (tokens : List Token) : Lexer := ⟨fun _ _ => tokens⟩

/-- The tokens of the input `42`. -/
def tokens_42 : List Token := [leaf "42" TokenType.Integer 0]

/-- The tokens of the input `1 )`: the rule matches the proper prefix `1`. -/
def tokens_1_paren : List Token :=
  [leaf "1" TokenType.Integer 0, leaf ")" TokenType.Parens_Close 2]

/-- The tokens of the input `{ var x = 1`, a block whose brace is never closed. -/
def tokens_unmatched_brace : List Token :=
  [leaf "\x7b" TokenType.Curly_Open 0, leaf "var" TokenType.Identifier 2,
   leaf "x" TokenType.Identifier 6, leaf "=" TokenType.Operator 8,
   leaf "1" TokenType.Integer 10]

/-- The tokens of the input `{ foo }`, a block that reads the unbound name `foo`. -/
def tokens_block_foo : List Token :=
  [leaf "\x7b" TokenType.Curly_Open 0, leaf "foo" TokenType.Identifier 2,
   leaf "\x7d" TokenType.Curly_Close 6]

/-- The tokens of the input `while (true) { break }`. -/
def tokens_while_break : List Token :=
  [leaf "while" TokenType.Identifier 0, leaf "(" TokenType.Parens_Open 6,
   leaf "true" TokenType.Identifier 7, leaf ")" TokenType.Parens_Close 11,
   leaf "\x7b" TokenType.Curly_Open 13, leaf "break" TokenType.Identifier 15,
   leaf "\x7d" TokenType.Curly_Close 21]

/-- The tokens of the input `var x; def f(x) { }`. -/
def tokens_var_x_def_f : List Token :=
  [leaf "var" TokenType.Identifier 0, leaf "x" TokenType.Identifier 4,
   leaf ";" TokenType.Semicolon 5, leaf "def" TokenType.Identifier 7,
   leaf "f" TokenType.Identifier 11, leaf "(" TokenType.Parens_Open 12,
   leaf "x" TokenType.Identifier 13, leaf ")" TokenType.Parens_Close 14,
   leaf "\x7b" TokenType.Curly_Open 16, leaf "\x7d" TokenType.Curly_Close 18]

/-- The tokens of the input `f(1)`. -/
def tokens_call_f_1 : List Token :=
  [leaf "f" TokenType.Identifier 0, leaf "(" TokenType.Parens_Open 1,
   leaf "1" TokenType.Integer 2, leaf ")" TokenType.Parens_Close 3]

/-- The state left by `var x; def f(x) { }` run in the empty system. -/
def system_var_x_def_f : BoxedCPP_System :=
  (evaluate_string 200 (lexer_of tokens_var_x_def_f) build_parser_rules empty_system
    "var x; def f(x) \x7b \x7d" "test.chai").2

/-- The tokens of the input `def g(x) { }; def f(x) { g(2); x }`. -/
def tokens_def_g_def_f : List Token :=
  [leaf "def" TokenType.Identifier 0, leaf "g" TokenType.Identifier 4,
   leaf "(" TokenType.Parens_Open 5, leaf "x" TokenType.Identifier 6,
   leaf ")" TokenType.Parens_Close 7, leaf "\x7b" TokenType.Curly_Open 9,
   leaf "\x7d" TokenType.Curly_Close 11, leaf ";" TokenType.Semicolon 12,
   leaf "def" TokenType.Identifier 14, leaf "f" TokenType.Identifier 18,
   leaf "(" TokenType.Parens_Open 19, leaf "x" TokenType.Identifier 20,
   leaf ")" TokenType.Parens_Close 21, leaf "\x7b" TokenType.Curly_Open 23,
   leaf "g" TokenType.Identifier 25, leaf "(" TokenType.Parens_Open 26,
   leaf "2" TokenType.Integer 27, leaf ")" TokenType.Parens_Close 28,
   leaf ";" TokenType.Semicolon 29, leaf "x" TokenType.Identifier 31,
   leaf "\x7d" TokenType.Curly_Close 33]

/-- The state left by `def g(x) { }; def f(x) { g(2); x }` run in the empty system. -/
def system_def_g_def_f : BoxedCPP_System :=
  (evaluate_string 200 (lexer_of tokens_def_g_def_f) build_parser_rules empty_system
    "def g(x) \x7b \x7d; def f(x) \x7b g(2); x \x7d" "test.chai").2

/-- The token of the input `"break"`, a double-quoted string literal. -/
def tokens_quoted_break : List Token := [leaf "\"break\"" TokenType.Quoted_String 0]

/-- The tree `parse` returns for a token vector with the grammar of the language (the bare
root when `parse` throws). -/
def parsed (tokens : List Token) : Token :=
  match parse 400 build_parser_rules tokens "test.chai" with
  | Except.ok tree => tree
  | Except.error _ => Token.mk "Root" TokenType.File "test.chai" ⟨0, 0⟩ ⟨0, 0⟩ []

/-- The node reached from a node by following a path of child indices. -/
def Token.descend : Token → List Nat → Token
  | t, [] => t
  | t, i :: path => (t.children[i]?.getD t).descend path

/-- A host function for the examples: `+` on two boxed integers, with a fresh box for the
sum. -/
def native_plus : Proxy_Function :=
  Proxy_Function.native 2 fun plist store =>
    match plist with
    | [a, b] =>
      match store[a.cell]?, store[b.cell]? with
      | some (Payload.int x), some (Payload.int y) =>
        some (⟨store.length⟩, store ++ [Payload.int (x + y)])
      | _, _ => none
    | _ => none

/-- A host function for the examples: `=` copies the payload of its right operand into the
cell of its left operand and returns the left operand. -/
def native_assign : Proxy_Function :=
  Proxy_Function.native 2 fun plist store =>
    match plist with
    | [l, r] =>
      match store[r.cell]? with
      | some p => if l.cell < store.length then some (l, store.set l.cell p) else none
      | none => none
    | _ => none

/-- The expression node of the input `1 + 2 + 3`. -/
def expression_sum : Token :=
  (parsed [leaf "1" TokenType.Integer 0, leaf "+" TokenType.Operator 2,
    leaf "2" TokenType.Integer 4, leaf "+" TokenType.Operator 6,
    leaf "3" TokenType.Integer 8]).descend [0, 0, 0, 0]

/-- A system whose only function is the host `+`. -/
def system_plus : BoxedCPP_System := ⟨[], [[]], [("+", native_plus)]⟩

/-- The equation node of the input `x = y = 1`. -/
def equation_chain : Token :=
  (parsed [leaf "x" TokenType.Identifier 0, leaf "=" TokenType.Operator 2,
    leaf "y" TokenType.Identifier 4, leaf "=" TokenType.Operator 6,
    leaf "1" TokenType.Integer 8]).descend [0]

/-- A system with the host `=` in which `x` and `y` are bound to two empty boxes. -/
def system_assign : BoxedCPP_System :=
  ⟨[Payload.void, Payload.void], [[("x", ⟨0⟩), ("y", ⟨1⟩)]], [("=", native_assign)]⟩

/-- The `If_Block` node of the input `if (false) { 1 } elseif (true) { 2 } else { 3 }`. -/
def if_chain : Token :=
  (parsed [leaf "if" TokenType.Identifier 0, leaf "(" TokenType.Parens_Open 3,
    leaf "false" TokenType.Identifier 4, leaf ")" TokenType.Parens_Close 9,
    leaf "\x7b" TokenType.Curly_Open 11, leaf "1" TokenType.Integer 13,
    leaf "\x7d" TokenType.Curly_Close 15, leaf "elseif" TokenType.Identifier 17,
    leaf "(" TokenType.Parens_Open 24, leaf "true" TokenType.Identifier 25,
    leaf ")" TokenType.Parens_Close 29, leaf "\x7b" TokenType.Curly_Open 31,
    leaf "2" TokenType.Integer 33, leaf "\x7d" TokenType.Curly_Close 35,
    leaf "else" TokenType.Identifier 37, leaf "\x7b" TokenType.Curly_Open 42,
    leaf "3" TokenType.Integer 44, leaf "\x7d" TokenType.Curly_Close 46]).descend [0]

/-- The `If_Block` node of the input `if (1) { }`. -/
def if_one : Token :=
  (parsed [leaf "if" TokenType.Identifier 0, leaf "(" TokenType.Parens_Open 3,
    leaf "1" TokenType.Integer 4, leaf ")" TokenType.Parens_Close 5,
    leaf "\x7b" TokenType.Curly_Open 7, leaf "\x7d" TokenType.Curly_Close 9]).descend [0]

/-- The `Function_Def` node of the input `def f(x) { return x }`. -/
def fundef_f : Token :=
  (parsed [leaf "def" TokenType.Identifier 0, leaf "f" TokenType.Identifier 4,
    leaf "(" TokenType.Parens_Open 5, leaf "x" TokenType.Identifier 6,
    leaf ")" TokenType.Parens_Close 7, leaf "\x7b" TokenType.Curly_Open 9,
    leaf "return" TokenType.Identifier 11, leaf "x" TokenType.Identifier 18,
    leaf "\x7d" TokenType.Curly_Close 20]).descend [0]

/-- The state left by `def f(x) { return x }` evaluated in the empty system. -/
def system_def_f : BoxedCPP_System := (eval_token 1 empty_system fundef_f).2

/-- The `Fun_Call` node of the input `f(1)`. -/
def call_f_1 : Token := (parsed tokens_call_f_1).descend [0, 0, 0, 0, 0, 0, 0]

/-- The `While_Block` node of the input `while (x) { x = false }`. -/
def while_x : Token :=
  (parsed [leaf "while" TokenType.Identifier 0, leaf "(" TokenType.Parens_Open 6,
    leaf "x" TokenType.Identifier 7, leaf ")" TokenType.Parens_Close 8,
    leaf "\x7b" TokenType.Curly_Open 10, leaf "x" TokenType.Identifier 12,
    leaf "=" TokenType.Operator 14, leaf "false" TokenType.Identifier 16,
    leaf "\x7d" TokenType.Curly_Close 22]).descend [0]

/-- A system with the host `=` in which `x` is bound to a box holding `true`. -/
def system_x_true : BoxedCPP_System :=
  ⟨[Payload.bool true], [[("x", ⟨0⟩)]], [("=", native_assign)]⟩

/-- The `For_Block` node of the input `for (x = true; x; x = false) { }`. -/
def for_x : Token :=
  (parsed [leaf "for" TokenType.Identifier 0, leaf "(" TokenType.Parens_Open 4,
    leaf "x" TokenType.Identifier 5, leaf "=" TokenType.Operator 7,
    leaf "true" TokenType.Identifier 9, leaf ";" TokenType.Semicolon 13,
    leaf "x" TokenType.Identifier 15, leaf ";" TokenType.Semicolon 16,
    leaf "x" TokenType.Identifier 18, leaf "=" TokenType.Operator 20,
    leaf "false" TokenType.Identifier 22, leaf ")" TokenType.Parens_Close 27,
    leaf "\x7b" TokenType.Curly_Open 29, leaf "\x7d" TokenType.Curly_Close 31]).descend [0]

/-- The `Fun_Call` node of the input `foo(1)`. -/
def call_foo_1 : Token :=
  (parsed [leaf "foo" TokenType.Identifier 0, leaf "(" TokenType.Parens_Open 3,
    leaf "1" TokenType.Integer 4, leaf ")" TokenType.Parens_Close 5]).descend
      [0, 0, 0, 0, 0, 0, 0]

/-- The `Negate` node of the input `-1`. -/
def negate_1 : Token :=
  (parsed [leaf "-" TokenType.Operator 0, leaf "1" TokenType.Integer 1]).descend
    [0, 0, 0, 0, 0, 0, 0]

/-- A system in which `x` is bound to a box holding 1 and the host `+` is registered under
the name `add`. -/
def system_add : BoxedCPP_System := ⟨[Payload.int 1], [[("x", ⟨0⟩)]], [("add", native_plus)]⟩

/-- The `Method_Call` node of the input `x.add(2).add(3)`. -/
def method_chain : Token :=
  (parsed [leaf "x" TokenType.Identifier 0, leaf "." TokenType.Operator 1,
    leaf "add" TokenType.Identifier 2, leaf "(" TokenType.Parens_Open 5,
    leaf "2" TokenType.Integer 6, leaf ")" TokenType.Parens_Close 7,
    leaf "." TokenType.Operator 8, leaf "add" TokenType.Identifier 9,
    leaf "(" TokenType.Parens_Open 12, leaf "3" TokenType.Integer 13,
    leaf ")" TokenType.Parens_Close 14]).descend [0, 0, 0, 0, 0, 0, 0]

/-- The token of the input `break`. -/
def tokens_break : List Token := [leaf "break" TokenType.Identifier 0]

/-- The tokens of the input `f()`. -/
def tokens_call_f_0 : List Token :=
  [leaf "f" TokenType.Identifier 0, leaf "(" TokenType.Parens_Open 1,
   leaf ")" TokenType.Parens_Close 2]

/-- A host function for the examples: unary `-` on a boxed integer, with a fresh box for
the result. -/
def native_negate : Proxy_Function :=
  Proxy_Function.native 1 fun plist store =>
    match plist with
    | [a] =>
      match store[a.cell]? with
      | some (Payload.int x) => some (⟨store.length⟩, store ++ [Payload.int (-x)])
      | _ => none
    | _ => none

/-- A system whose functions are the host `+` and the host unary `-`. -/
def system_arith : BoxedCPP_System := ⟨[], [[]], [("+", native_plus), ("-", native_negate)]⟩

/-- The tokens of the input `-1 + 2`. -/
def tokens_negate_sum : List Token :=
  [leaf "-" TokenType.Operator 0, leaf "1" TokenType.Integer 1, leaf "+" TokenType.Operator 3,
   leaf "2" TokenType.Integer 5]

/-- The `If_Block` node of the input `if (false) { 1 } elseif (false) { 2 }`. -/
def if_false_twice : Token :=
  (parsed [leaf "if" TokenType.Identifier 0, leaf "(" TokenType.Parens_Open 3,
    leaf "false" TokenType.Identifier 4, leaf ")" TokenType.Parens_Close 9,
    leaf "\x7b" TokenType.Curly_Open 11, leaf "1" TokenType.Integer 13,
    leaf "\x7d" TokenType.Curly_Close 15, leaf "elseif" TokenType.Identifier 17,
    leaf "(" TokenType.Parens_Open 24, leaf "false" TokenType.Identifier 25,
    leaf ")" TokenType.Parens_Close 30, leaf "\x7b" TokenType.Curly_Open 32,
    leaf "2" TokenType.Integer 34, leaf "\x7d" TokenType.Curly_Close 36]).descend [0]

/-- The expression node of the input `1 + 2 - 3`. -/
def expression_sum_minus : Token :=
  (parsed [leaf "1" TokenType.Integer 0, leaf "+" TokenType.Operator 2,
    leaf "2" TokenType.Integer 4, leaf "-" TokenType.Operator 6,
    leaf "3" TokenType.Integer 8]).descend [0, 0, 0, 0]

/-! ## The parser entry point: theorems -/

/-- C3: `parse` returns a tree exactly when the top rule matched and left no token, and the
tree is then the root of kind `File` with text `Root` whose children are the nodes the top
rule contributed; in particular no tree is returned when only a proper prefix matched. -/
theorem parse_returns_iff_all_consumed (fuel : Nat) (rule : Rule) (tokens : List Token)
    (filename : String) (tree : Token) :
    parse fuel rule tokens filename = Except.ok tree ↔
      ∃ contributed, run_rule rule fuel rule.top tokens = Match.matched [] contributed ∧
        tree = Token.mk "Root" TokenType.File filename ⟨0, 0⟩ ⟨0, 0⟩ contributed := by
  unfold parse
  constructor
  · intro h
    split at h
    · rename_i contributed hrun
      refine ⟨contributed, hrun, ?_⟩
      injection h with h
      rw [← h]
      simp [Token.addChildren, Token.text, Token.identifier, Token.filename, Token.start,
        Token.stop, Token.children]
    · cases h
    · split at h <;> cases h
    · cases h
  · rintro ⟨contributed, hrun, rfl⟩
    simp [hrun, Token.addChildren, Token.text, Token.identifier, Token.filename, Token.start,
      Token.stop, Token.children]

/-- Witness of C3 on the input `42`: the grammar consumes the whole vector and the root has
one child. -/
theorem parse_returns_iff_all_consumed_witness :
    ∃ contributed,
      run_rule build_parser_rules 200 build_parser_rules.top tokens_42
        = Match.matched [] contributed ∧
      Token.mk "Root" TokenType.File "test.chai" ⟨0, 0⟩ ⟨0, 0⟩
          [fresh_node TokenType.Equation tokens_42 []
            [fresh_node TokenType.Boolean tokens_42 []
              [fresh_node TokenType.Comparison tokens_42 []
                [fresh_node TokenType.Expression tokens_42 []
                  [fresh_node TokenType.Term tokens_42 []
                    [fresh_node TokenType.Factor tokens_42 [] tokens_42]]]]]]
        = Token.mk "Root" TokenType.File "test.chai" ⟨0, 0⟩ ⟨0, 0⟩ contributed :=
  (parse_returns_iff_all_consumed 200 build_parser_rules tokens_42 "test.chai" _).mp rfl

/-- C4, as amended: when the top rule matched a proper prefix, `parse` throws
`ParserError("Parse failed to complete")` located at the first token after that prefix; when
the top rule did not match and the vector is not empty, the error is located at the first
token of the vector, the iterator having been restored. -/
theorem parse_error_location (fuel : Nat) (rule : Rule) (tokens : List Token)
    (filename : String) :
    (∀ t rest contributed,
      run_rule rule fuel rule.top tokens = Match.matched (t :: rest) contributed →
      parse fuel rule tokens filename
        = Except.error (Thrown.ParserError "Parse failed to complete" t)) ∧
    (∀ t rest, tokens = t :: rest → run_rule rule fuel rule.top tokens = Match.failed →
      parse fuel rule tokens filename
        = Except.error (Thrown.ParserError "Parse failed to complete" t)) := by
  constructor
  · intro t rest contributed hrun
    simp [parse, hrun]
  · intro t rest htok hrun
    subst htok
    simp [parse, hrun]

/-- Witness of C4 as amended: `1 )` fails at the closing parenthesis, the first token after
the matched prefix, and `{ var x = 1` fails at the opening brace, the first token. -/
theorem parse_error_location_witness :
    parse 200 build_parser_rules tokens_1_paren "test.chai"
        = Except.error (Thrown.ParserError "Parse failed to complete"
            (leaf ")" TokenType.Parens_Close 2)) ∧
    parse 200 build_parser_rules tokens_unmatched_brace "test.chai"
        = Except.error (Thrown.ParserError "Parse failed to complete"
            (leaf "\x7b" TokenType.Curly_Open 0)) :=
  ⟨(parse_error_location 200 build_parser_rules tokens_1_paren "test.chai").1
      (leaf ")" TokenType.Parens_Close 2) [] _ rfl,
   (parse_error_location 200 build_parser_rules tokens_unmatched_brace "test.chai").2
      (leaf "\x7b" TokenType.Curly_Open 0) _ rfl rfl⟩

/-- C4 as stated fails: for `{ var x = 1` the error is located at the opening brace, the
first token of the input, which spans columns 0 to 1; the input ends with the token `1` in
columns 10 to 11, so the location is not the end of the input. -/
theorem parse_unmatched_brace_not_at_end :
    parse 200 build_parser_rules tokens_unmatched_brace "test.chai"
      = Except.error (Thrown.ParserError "Parse failed to complete"
          (leaf "\x7b" TokenType.Curly_Open 0)) ∧
    tokens_unmatched_brace.head? = some (leaf "\x7b" TokenType.Curly_Open 0) ∧
    (leaf "\x7b" TokenType.Curly_Open 0).stop = ⟨0, 1⟩ ∧
    tokens_unmatched_brace.getLast? = some (leaf "1" TokenType.Integer 10) ∧
    (leaf "1" TokenType.Integer 10).stop = ⟨0, 11⟩ ∧
    ¬ (leaf "1" TokenType.Integer 10).start.column
        ≤ (leaf "\x7b" TokenType.Curly_Open 0).start.column :=
  ⟨rfl, rfl, rfl, rfl, rfl, by decide⟩

/-! ## Scopes and string literals: the code at the failing inputs -/

/-- C1 at the failing input `{ foo }`: the tree is evaluated with one scope frame, the block
pushes a second one, the read of `foo` throws `EvalError`, `pop_scope` is skipped, and
`evaluate_string` returns with two frames on the scope stack.  The same happens without any
error on `while (true) { break }`: the loop catches the `BreakLoop` raised inside the block
and `evaluate_string` returns normally with two frames. -/
theorem evaluate_string_error_leaves_scope :
    empty_system.scopes.length = 1 ∧
    (∃ tree ss1,
      parse 200 build_parser_rules tokens_block_foo "test.chai" = Except.ok tree ∧
      eval_token 200 (empty_system.box Payload.void).2 tree
        = (Except.error (Thrown.EvalError "Can not find object: foo"
            (some (leaf "foo" TokenType.Identifier 2))), ss1) ∧
      ss1.scopes.length = 2) ∧
    (evaluate_string 200 (lexer_of tokens_block_foo) build_parser_rules empty_system
      "\x7b foo \x7d" "test.chai").2.scopes.length = 2 ∧
    (∃ v ss1,
      evaluate_string 200 (lexer_of tokens_while_break) build_parser_rules empty_system
        "while (true) \x7b break \x7d" "test.chai" = (Except.ok v, ss1) ∧
      ss1.scopes.length = 2) :=
  ⟨rfl, ⟨_, _, rfl, rfl, rfl⟩, rfl, ⟨_, _, rfl, rfl⟩⟩

/-- C2 at the failing inputs: after `var x; def f(x) { }` the global frame binds `x` to an
empty box; the call `f(1)` returns, and afterwards the same frame binds `x` to the box of the
argument `1`.  After `def g(x) { }; def f(x) { g(2); x }` the call `f(1)` evaluates to a box
holding 2: the inner call `g(2)` has bound its parameter `x` in the frame of the body of
`f`. -/
theorem function_call_overwrites_caller_variable :
    system_var_x_def_f.scopes = [[("x", ⟨2⟩)]] ∧
    system_var_x_def_f.payload ⟨2⟩ = some Payload.void ∧
    (∃ v ss2,
      evaluate_string 200 (lexer_of tokens_call_f_1) build_parser_rules system_var_x_def_f
        "f(1)" "test.chai" = (Except.ok v, ss2) ∧
      ss2.scopes = [[("x", ⟨6⟩)]] ∧ ss2.payload ⟨6⟩ = some (Payload.int 1)) ∧
    (∃ v ss2,
      evaluate_string 200 (lexer_of tokens_call_f_1) build_parser_rules system_def_g_def_f
        "f(1)" "test.chai" = (Except.ok v, ss2) ∧
      ss2.payload v = some (Payload.int 2)) :=
  ⟨rfl, rfl, ⟨_, _, rfl, rfl, rfl⟩, ⟨_, _, rfl, rfl⟩⟩

/-- C5 at the failing input `"break"`: the quotes are stripped, the token text `break` is
matched by the rule `break_statement`, and evaluation ends with a `BreakLoop` signal instead
of a boxed string. -/
theorem evaluate_string_quoted_break :
    strip_quotes tokens_quoted_break
      = some [Token.mk "break" TokenType.Quoted_String "test.chai" ⟨0, 0⟩ ⟨0, 7⟩ []] ∧
    ∃ location,
      (evaluate_string 200 (lexer_of tokens_quoted_break) build_parser_rules empty_system
        "\"break\"" "test.chai").1 = Except.error (Thrown.BreakLoop location) ∧
      location.identifier = TokenType.Break :=
  ⟨rfl, _, rfl, rfl⟩

/-! ## Sequencing lemmas -/

theorem andThen_ok {α β : Type} (v : α) (ss : BoxedCPP_System)
    (k : α → BoxedCPP_System → Outcome β) : andThen (Except.ok v, ss) k = k v ss := rfl

theorem andThen_error {α β : Type} (e : Thrown) (ss : BoxedCPP_System)
    (k : α → BoxedCPP_System → Outcome β) :
    andThen (Except.error e, ss) k = (Except.error e, ss) := rfl

theorem andThen_pure {α : Type} (r : Outcome α) :
    andThen r (fun v ss => (Except.ok v, ss)) = r := by
  rcases r with ⟨_ | _, _⟩ <;> rfl

theorem with_child_some {α : Type} (cs : List Token) (i : Nat) (ss : BoxedCPP_System)
    (k : Token → Outcome α) (c : Token) (h : cs[i]? = some c) : with_child cs i ss k = k c := by
  simp [with_child, h]

theorem getElem?_append_zero {α : Type} (pre : List α) (a : α) (rest : List α) :
    (pre ++ a :: rest)[pre.length]? = some a := by
  induction pre with
  | nil => simp
  | cons x xs ih => simpa using ih

theorem getElem?_append_one {α : Type} (pre : List α) (a b : α) (rest : List α) :
    (pre ++ a :: b :: rest)[pre.length + 1]? = some b := by
  induction pre with
  | nil => simp
  | cons x xs ih => simpa using ih

theorem getElem?_append_two {α : Type} (pre : List α) (a b c : α) (rest : List α) :
    (pre ++ a :: b :: c :: rest)[pre.length + 2]? = some c := by
  induction pre with
  | nil => simp
  | cons x xs ih => simpa using ih

theorem getLast?_append_single {α : Type} (xs : List α) (a : α) :
    (xs ++ [a]).getLast? = some a := by
  simp

theorem interleave_length (pairs : List (Token × Token)) :
    (interleave pairs).length = 2 * pairs.length := by
  induction pairs with
  | nil => rfl
  | cons p rest ih => obtain ⟨a, b⟩ := p; simp [interleave, ih]; omega

theorem interleave_append (ps qs : List (Token × Token)) :
    interleave (ps ++ qs) = interleave ps ++ interleave qs := by
  induction ps with
  | nil => rfl
  | cons p rest ih => obtain ⟨a, b⟩ := p; simp [interleave, ih]

/-! ## The operator fold -/

theorem Binary_loop_eq_left_fold (ev : BoxedCPP_System → Token → Result)
    (disp : String → List Boxed_Value → BoxedCPP_System → Result) :
    ∀ (pairs : List (Token × Token)) (pre : List Token) (k : Nat) (r : Boxed_Value)
      (ss : BoxedCPP_System), pairs.length < k →
      Binary_loop ev disp (pre ++ interleave pairs) k pre.length r ss
        = left_fold ev disp pairs r ss := by
  intro pairs
  induction pairs with
  | nil =>
    intro pre k r ss hk
    obtain ⟨k, rfl⟩ : ∃ j, k = j + 1 := ⟨k - 1, by simp at hk; omega⟩
    simp [Binary_loop, interleave, left_fold]
  | cons p rest ih =>
    intro pre k r ss hk
    obtain ⟨op, rhs⟩ := p
    obtain ⟨k, rfl⟩ : ∃ j, k = j + 1 := ⟨k - 1, by simp at hk; omega⟩
    have hk1 : rest.length < k := by simpa using hk
    have h1 : (pre ++ interleave ((op, rhs) :: rest))[pre.length + 1]? = some rhs :=
      getElem?_append_one pre op rhs _
    have h0 : (pre ++ interleave ((op, rhs) :: rest))[pre.length]? = some op :=
      getElem?_append_zero pre op _
    have hlt : pre.length < (pre ++ interleave ((op, rhs) :: rest)).length := by
      simp [interleave]
    have hrec : ∀ v s, Binary_loop ev disp (pre ++ interleave ((op, rhs) :: rest)) k
        (pre.length + 2) v s = left_fold ev disp rest v s := by
      intro v s
      have := ih (pre ++ [op, rhs]) k v s hk1
      simpa [interleave] using this
    rw [Binary_loop, if_pos hlt, with_child_some _ _ _ _ _ h1]
    simp only [with_child_some _ _ _ _ _ h0, hrec, left_fold]

/-- C7: a `Factor`, `Expression`, `Term`, `Boolean` or `Comparison` node with children
`[v0, op1, v1, ..., opn, vn]` evaluates to the left fold: `v0` is evaluated first, then for
each pair in order `v_i` is evaluated once and the text of `op_i` is dispatched on the result
so far and the value of `v_i`; with a single child the result is that child's value and
nothing is dispatched. -/
theorem binary_node_is_left_fold (n : Nat) (ss : BoxedCPP_System) (node v0 : Token)
    (pairs : List (Token × Token))
    (hkind : node.identifier = TokenType.Factor ∨ node.identifier = TokenType.Expression ∨
      node.identifier = TokenType.Term ∨ node.identifier = TokenType.Boolean ∨
      node.identifier = TokenType.Comparison)
    (hchildren : node.children = v0 :: interleave pairs) :
    eval_token (n + 1) ss node
        = andThen (eval_token n ss v0) (fun r0 ss1 =>
            left_fold (eval_token n) (dispatch_name (eval_token n) n) pairs r0 ss1) ∧
    (pairs = [] → eval_token (n + 1) ss node = eval_token n ss v0) := by
  have hB : eval_token (n + 1) ss node
      = Binary (eval_token n) (dispatch_name (eval_token n) n) ss node := by
    rcases hkind with h | h | h | h | h <;> simp [eval_token, h]
  have main : eval_token (n + 1) ss node
        = andThen (eval_token n ss v0) (fun r0 ss1 =>
            left_fold (eval_token n) (dispatch_name (eval_token n) n) pairs r0 ss1) := by
    rw [hB, Binary, hchildren, with_child_some _ 0 _ _ v0 (by simp)]
    congr 1
    funext r0 ss1
    cases pairs with
    | nil => simp [interleave, left_fold]
    | cons p rest =>
      have hlen : (v0 :: interleave (p :: rest)).length > 1 := by
        obtain ⟨a, b⟩ := p; simp [interleave]
      rw [if_pos hlen]
      have := Binary_loop_eq_left_fold (eval_token n) (dispatch_name (eval_token n) n)
        (p :: rest) [v0] ((v0 :: interleave (p :: rest)).length + 1) r0 ss1
        (by simp [interleave_length]; omega)
      simpa using this
  refine ⟨main, ?_⟩
  intro hp
  subst hp
  rw [main]
  simp only [left_fold]
  exact andThen_pure _

/-! ## The assignment fold -/

theorem Equation_step_eq (ev : BoxedCPP_System → Token → Result)
    (disp : String → List Boxed_Value → BoxedCPP_System → Result) (pre : List Token)
    (lhs op : Token) (suffix : List Token) (current : Boxed_Value) (ss : BoxedCPP_System) :
    Equation_step ev disp (pre ++ lhs :: op :: suffix) pre.length current ss
      = andThen (ev ss lhs) (fun l ss1 => dispatch_op disp op [l, current] ss1) := by
  rw [Equation_step, with_child_some _ _ _ _ _ (getElem?_append_zero pre lhs _)]
  simp only [with_child_some _ _ _ _ _ (getElem?_append_one pre lhs op _)]

theorem andThen_assoc_pure {α β : Type} (r : Outcome α)
    (k : α → BoxedCPP_System → Outcome β) :
    andThen r (fun a s => andThen (k a s) (fun b s1 => (Except.ok b, s1))) = andThen r k := by
  congr 1
  funext a s
  exact andThen_pure _

theorem andThen_assoc {α β γ : Type} (r : Outcome α) (k : α → BoxedCPP_System → Outcome β)
    (j : β → BoxedCPP_System → Outcome γ) :
    andThen (andThen r k) j = andThen r (fun a s => andThen (k a s) j) := by
  rcases r with ⟨_ | _, _⟩ <;> rfl

theorem Equation_loop_eq_assign_fold (ev : BoxedCPP_System → Token → Result)
    (disp : String → List Boxed_Value → BoxedCPP_System → Result) :
    ∀ (pairs : List (Token × Token)) (lhs op : Token) (suffix : List Token)
      (current : Boxed_Value) (ss : BoxedCPP_System),
      Equation_loop ev disp (interleave pairs ++ lhs :: op :: suffix) (2 * pairs.length)
          current ss
        = assign_fold ev disp ((lhs, op) :: pairs.reverse) current ss := by
  intro pairs
  induction pairs using List.reverseRecOn with
  | nil =>
    intro lhs op suffix current ss
    have := Equation_step_eq ev disp [] lhs op suffix current ss
    simp only [List.length_nil, List.nil_append] at this
    simp only [interleave, List.nil_append, List.length_nil, Nat.mul_zero, Equation_loop, this,
      List.reverse_nil, assign_fold]
    exact (andThen_assoc_pure _ _).symm
  | append_singleton qs q ih =>
    intro lhs op suffix current ss
    obtain ⟨l1, op1⟩ := q
    have hidx : 2 * (qs ++ [(l1, op1)]).length = 2 * qs.length + 2 := by simp; omega
    have hstep := Equation_step_eq ev disp (interleave (qs ++ [(l1, op1)])) lhs op suffix
      current ss
    rw [interleave_length, hidx] at hstep
    have hch : interleave (qs ++ [(l1, op1)]) ++ lhs :: op :: suffix
        = interleave qs ++ l1 :: op1 :: (lhs :: op :: suffix) := by
      simp [interleave_append, interleave]
    rw [hidx, Equation_loop, hstep, hch]
    simp only [ih, List.reverse_append, List.reverse_cons, List.reverse_nil, List.nil_append,
      List.singleton_append, assign_fold]
    rw [andThen_assoc]

/-- C8: an `Equation` node with children `[l1, op1, ..., ln, opn, r]` evaluates `r` first and
then, for `i = n` down to `1`, evaluates `l_i` and dispatches the text of `op_i` on
`(value of l_i, current result)`; with a single child the result is that child's value and
nothing is dispatched. -/
theorem equation_node_is_right_fold (n : Nat) (ss : BoxedCPP_System) (node r : Token)
    (pairs : List (Token × Token))
    (hkind : node.identifier = TokenType.Equation)
    (hchildren : node.children = interleave pairs ++ [r]) :
    eval_token (n + 1) ss node
        = andThen (eval_token n ss r) (fun current ss1 =>
            assign_fold (eval_token n) (dispatch_name (eval_token n) n) pairs.reverse
              current ss1) ∧
    (pairs = [] → eval_token (n + 1) ss node = eval_token n ss r) := by
  have main : eval_token (n + 1) ss node
        = andThen (eval_token n ss r) (fun current ss1 =>
            assign_fold (eval_token n) (dispatch_name (eval_token n) n) pairs.reverse
              current ss1) := by
    have hE : eval_token (n + 1) ss node
        = Equation (eval_token n) (dispatch_name (eval_token n) n) ss node := by
      simp [eval_token, hkind]
    rw [hE, Equation, hchildren]
    rw [getLast?_append_single]
    show andThen _ _ = _
    congr 1
    funext current ss1
    induction pairs using List.reverseRecOn with
    | nil => simp [interleave, assign_fold]
    | append_singleton qs q _ =>
      obtain ⟨l1, op1⟩ := q
      have hlen : (interleave (qs ++ [(l1, op1)]) ++ [r]).length = 2 * qs.length + 3 := by
        simp [interleave_length]; omega
      have h1 : 2 * qs.length + 3 > 1 := by omega
      have h2 : ¬ 2 * qs.length + 3 < 3 := by omega
      have hch : interleave (qs ++ [(l1, op1)]) ++ [r]
          = interleave qs ++ l1 :: op1 :: [r] := by
        simp [interleave_append, interleave]
      rw [hlen, if_pos h1, if_neg h2, hch]
      have := Equation_loop_eq_assign_fold (eval_token n) (dispatch_name (eval_token n) n)
        qs l1 op1 [r] current ss1
      simpa using this
  refine ⟨main, ?_⟩
  intro hp
  subst hp
  rw [main]
  simp only [List.reverse_nil, assign_fold]
  exact andThen_pure _

/-! ## Arm selection of `If_Block` -/

theorem If_Block_loop_eq_elseif_arms (ev : BoxedCPP_System → Token → Result)
    (els : Option (Token × Token)) (hels : ∀ e, els = some e → e.1.text = "else") :
    ∀ (arms : List (Token × Token × Token)), (∀ a ∈ arms, a.1.text = "elseif") →
      ∀ (pre : List Token) (k : Nat) (last : Boxed_Value) (ss : BoxedCPP_System),
      arms.length + 1 < k →
      If_Block_loop ev (pre ++ (elseif_children arms ++ else_children els)) k pre.length last ss
        = elseif_arms ev arms els last ss := by
  intro arms
  induction arms with
  | nil =>
    intro _ pre k last ss hk
    obtain ⟨k, rfl⟩ : ∃ j, k = j + 1 := ⟨k - 1, by simp at hk; omega⟩
    cases els with
    | none => simp [If_Block_loop, elseif_children, else_children, elseif_arms]
    | some e =>
      obtain ⟨kw, blk⟩ := e
      have hkw : kw.text = "else" := hels (kw, blk) rfl
      have hlt : pre.length < (pre ++ (elseif_children [] ++ else_children (some (kw, blk)))).length := by
        simp [elseif_children, else_children]
      rw [If_Block_loop, if_pos hlt]
      simp only [elseif_children, else_children, List.nil_append]
      rw [with_child_some _ _ _ _ _ (getElem?_append_zero pre kw _), if_pos hkw,
        with_child_some _ _ _ _ _ (getElem?_append_one pre kw blk _)]
      rfl
  | cons a rest ih =>
    intro harms pre k last ss hk
    obtain ⟨kw, c, blk⟩ := a
    obtain ⟨k, rfl⟩ : ∃ j, k = j + 1 := ⟨k - 1, by simp at hk; omega⟩
    have hk1 : rest.length + 1 < k := by simpa using hk
    have hkw : kw.text = "elseif" := harms (kw, c, blk) (List.mem_cons_self _ _)
    have hne : ¬ kw.text = "else" := by rw [hkw]; decide
    have hrest : ∀ a ∈ rest, a.1.text = "elseif" :=
      fun a ha => harms a (List.mem_cons_of_mem _ ha)
    have hch : pre ++ (elseif_children ((kw, c, blk) :: rest) ++ else_children els)
        = pre ++ kw :: c :: blk :: (elseif_children rest ++ else_children els) := by
      simp [elseif_children]
    have hlt : pre.length
        < (pre ++ kw :: c :: blk :: (elseif_children rest ++ else_children els)).length := by
      simp
    have hrec : ∀ v s, If_Block_loop ev
        (pre ++ kw :: c :: blk :: (elseif_children rest ++ else_children els)) k
        (pre.length + 3) v s = elseif_arms ev rest els v s := by
      intro v s
      have := ih hrest (pre ++ [kw, c, blk]) k v s hk1
      simpa using this
    rw [hch, If_Block_loop, if_pos hlt,
      with_child_some _ _ _ _ _ (getElem?_append_zero pre kw _), if_neg hne, if_pos hkw,
      with_child_some _ _ _ _ _ (getElem?_append_one pre kw c _)]
    simp only [with_child_some _ _ _ _ _ (getElem?_append_two pre kw c blk _), hrec,
      elseif_arms]

/-- C9: an `If_Block` with children `[cond, block, (elseif, cond_i, block_i)*, (else,
block_e)?]` evaluates the conditions in order up to the first true one and then exactly the
block of that arm; when no condition is true it evaluates the `else` block if there is one
and no block otherwise; nothing after the selected arm is evaluated. -/
theorem if_block_selects_first_true_arm (n : Nat) (ss : BoxedCPP_System)
    (node cond blk : Token) (arms : List (Token × Token × Token))
    (els : Option (Token × Token))
    (hkind : node.identifier = TokenType.If_Block)
    (hchildren : node.children
      = cond :: blk :: (elseif_children arms ++ else_children els))
    (harms : ∀ a ∈ arms, a.1.text = "elseif")
    (hels : ∀ e, els = some e → e.1.text = "else") :
    eval_token (n + 1) ss node = if_arms (eval_token n) cond blk arms els ss := by
  have hI : eval_token (n + 1) ss node = If_Block (eval_token n) ss node := by
    simp [eval_token, hkind]
  rw [hI, If_Block, hchildren, with_child_some _ 0 _ _ cond (by simp), if_arms]
  congr 1
  funext v ss1
  cases hcast : ss1.cast_bool v with
  | none => rfl
  | some b =>
    cases b with
    | true =>
      show with_child _ 1 ss1 _ = _
      rw [with_child_some _ 1 _ _ blk (by simp)]
    | false =>
      show (if _ then _ else _) = _
      by_cases hlen : (cond :: blk :: (elseif_children arms ++ else_children els)).length > 2
      · rw [if_pos hlen]
        have := If_Block_loop_eq_elseif_arms (eval_token n) els hels arms harms [cond, blk]
          ((cond :: blk :: (elseif_children arms ++ else_children els)).length + 1) v ss1
          (by
            have : (elseif_children arms).length = 3 * arms.length := by
              clear harms hchildren hlen
              induction arms with
              | nil => rfl
              | cons a rest ih => obtain ⟨x, y, z⟩ := a; simp [elseif_children, ih]; omega
            simp [this]; omega)
        simpa using this
      · rw [if_neg hlen]
        have hnil : elseif_children arms ++ else_children els = [] := by
          cases h : elseif_children arms ++ else_children els with
          | nil => rfl
          | cons x xs => rw [h] at hlen; simp at hlen
        have harms_nil : arms = [] := by
          cases arms with
          | nil => rfl
          | cons a rest => obtain ⟨x, y, z⟩ := a; simp [elseif_children] at hnil
        have hels_nil : els = none := by
          cases els with
          | none => rfl
          | some e => obtain ⟨x, y⟩ := e; subst harms_nil; simp [elseif_children, else_children] at hnil
        subst harms_nil
        subst hels_nil
        rfl

/-- C10: when the condition of an `If_Block` evaluates to a value that is not a boolean, the
evaluation throws `EvalError("If condition not boolean")` located at the condition node, in
the state the condition left: no block and no further condition is evaluated. -/
theorem if_block_condition_not_boolean (n : Nat) (ss ss1 : BoxedCPP_System)
    (node cond : Token) (rest : List Token) (v : Boxed_Value)
    (hkind : node.identifier = TokenType.If_Block)
    (hchildren : node.children = cond :: rest)
    (hcond : eval_token n ss cond = (Except.ok v, ss1))
    (hcast : ss1.cast_bool v = none) :
    eval_token (n + 1) ss node
      = (Except.error (Thrown.EvalError "If condition not boolean" (some cond)), ss1) := by
  have hI : eval_token (n + 1) ss node = If_Block (eval_token n) ss node := by
    simp [eval_token, hkind]
  rw [hI, If_Block, hchildren, with_child_some _ 0 _ _ cond (by simp), hcond, andThen_ok]
  simp [hcast]

/-! ## Calls of script-defined functions -/

theorem bind_params_eq_bind_all :
    ∀ (names : List String) (i : Nat) (vals : List Boxed_Value) (ss : BoxedCPP_System),
      names.length + i ≤ vals.length →
      bind_params names i vals ss = (Except.ok (), bind_all ss names (vals.drop i)) := by
  intro names
  induction names with
  | nil => intro i vals ss _; simp [bind_params, bind_all]
  | cons p ps ih =>
    intro i vals ss h
    have hi : i < vals.length := by simp at h; omega
    have hget : vals[i]? = some vals[i] := by simp [hi]
    have hdrop : vals.drop i = vals[i] :: vals.drop (i + 1) := by
      simp [hi]
    rw [bind_params, hget]
    simp only
    rw [ih (i + 1) vals (ss.add_object p vals[i]) (by simp at h; omega), hdrop]
    simp only [bind_all, List.zip_cons_cons, List.foldl_cons]

theorem frame_get_frame_set_same (name : String) (v : Boxed_Value) :
    ∀ f : List (String × Boxed_Value),
      BoxedCPP_System.frame_get name (BoxedCPP_System.frame_set name v f) = some v := by
  intro f
  induction f with
  | nil => simp [BoxedCPP_System.frame_set, BoxedCPP_System.frame_get]
  | cons e rest ih =>
    obtain ⟨k, w⟩ := e
    by_cases hk : k = name
    · simp [BoxedCPP_System.frame_set, BoxedCPP_System.frame_get, hk]
    · simp [BoxedCPP_System.frame_set, BoxedCPP_System.frame_get, hk, ih]

theorem frame_get_frame_set_other (name other : String) (v : Boxed_Value)
    (h : other ≠ name) :
    ∀ f : List (String × Boxed_Value),
      BoxedCPP_System.frame_get name (BoxedCPP_System.frame_set other v f)
        = BoxedCPP_System.frame_get name f := by
  intro f
  induction f with
  | nil => simp [BoxedCPP_System.frame_set, BoxedCPP_System.frame_get, h]
  | cons e rest ih =>
    obtain ⟨k, w⟩ := e
    by_cases hk : k = other
    · subst hk
      simp [BoxedCPP_System.frame_set, BoxedCPP_System.frame_get, h]
    · by_cases hn : k = name
      · subst hn
        simp [BoxedCPP_System.frame_set, BoxedCPP_System.frame_get, hk]
      · simp [BoxedCPP_System.frame_set, BoxedCPP_System.frame_get, hk, hn, ih]

theorem get_object_add_object_same (ss : BoxedCPP_System) (name : String) (v : Boxed_Value) :
    (ss.add_object name v).get_object name = some v := by
  unfold BoxedCPP_System.add_object BoxedCPP_System.set_object BoxedCPP_System.get_object
  cases h : ss.scopes with
  | nil => simp [List.findSome?, BoxedCPP_System.frame_set, BoxedCPP_System.frame_get]
  | cons f fs => simp [List.findSome?, frame_get_frame_set_same]

theorem get_object_add_object_other (ss : BoxedCPP_System) (name other : String)
    (v : Boxed_Value) (h : other ≠ name) :
    (ss.add_object other v).get_object name = ss.get_object name := by
  unfold BoxedCPP_System.add_object BoxedCPP_System.set_object BoxedCPP_System.get_object
  cases hs : ss.scopes with
  | nil => simp [List.findSome?, BoxedCPP_System.frame_set, BoxedCPP_System.frame_get, h]
  | cons f fs => simp [List.findSome?, frame_get_frame_set_other name other v h]

theorem get_object_bind_all_other (name : String) :
    ∀ (names : List String) (vals : List Boxed_Value) (ss : BoxedCPP_System),
      name ∉ names → (bind_all ss names vals).get_object name = ss.get_object name := by
  intro names
  induction names with
  | nil => intro vals ss _; simp [bind_all]
  | cons p ps ih =>
    intro vals ss hmem
    cases vals with
    | nil => simp [bind_all]
    | cons v vs =>
      have hp : p ≠ name := fun h => hmem (by simp [h])
      have hps : name ∉ ps := fun h => hmem (by simp [h])
      have := ih vs (ss.add_object p v) hps
      simp only [bind_all, List.zip_cons_cons, List.foldl_cons] at this ⊢
      rw [this, get_object_add_object_other ss name p v hp]

theorem get_object_bind_all :
    ∀ (names : List String) (vals : List Boxed_Value) (ss : BoxedCPP_System),
      names.Nodup → names.length = vals.length →
      ∀ (i : Nat) (p : String), names[i]? = some p →
        (bind_all ss names vals).get_object p = vals[i]? := by
  intro names
  induction names with
  | nil => intro vals ss _ _ i p h; simp at h
  | cons q qs ih =>
    intro vals ss hnd hlen i p h
    cases vals with
    | nil => simp at hlen
    | cons v vs =>
      have hq : q ∉ qs := (List.nodup_cons.mp hnd).1
      have hqs : qs.Nodup := (List.nodup_cons.mp hnd).2
      cases i with
      | zero =>
        simp at h
        subst h
        have := get_object_bind_all_other q qs vs (ss.add_object q v) hq
        simp only [bind_all, List.zip_cons_cons, List.foldl_cons] at this ⊢
        rw [this, get_object_add_object_same]
        simp
      | succ j =>
        simp at h
        have := ih vs (ss.add_object q v) hqs (by simpa using hlen) j p h
        simp only [bind_all, List.zip_cons_cons, List.foldl_cons] at this ⊢
        rw [this]
        simp

theorem eval_children_append (ev : BoxedCPP_System → Token → Result) (c : Token) :
    ∀ (cs : List Token) (r : Boxed_Value) (ss : BoxedCPP_System),
      eval_children ev (cs ++ [c]) r ss
        = andThen (eval_children ev cs r ss) (fun _ s => ev s c) := by
  intro cs
  induction cs with
  | nil => intro r ss; simp [eval_children, andThen_pure, andThen_ok]
  | cons x xs ih =>
    intro r ss
    rw [List.cons_append, eval_children, eval_children, andThen_assoc]
    congr 1
    funext v s
    exact ih v s

theorem pop_scope_new_scope (ss : BoxedCPP_System) : ss.new_scope.pop_scope = ss := by
  cases ss; rfl

theorem reaches_call_eq_call_site (n : Nat) (ss : BoxedCPP_System) (node callee : Token)
    (vals : List Boxed_Value) (ss1 : BoxedCPP_System)
    (h : reaches_call n ss node callee vals ss1) :
    ∃ where_, eval_token (n + 1) ss node
      = call_site (dispatch_name (eval_token n) n) callee.text where_ vals ss1 := by
  rcases h with ⟨hkind, arg_nodes, hch, hargs⟩ | ⟨hkind, recv, seg, arg_nodes, rv, ss0, hch,
    hseg, hrecv, hargs⟩
  · refine ⟨callee, ?_⟩
    have hF : eval_token (n + 1) ss node
        = Fun_Call (eval_token n) (dispatch_name (eval_token n) n) ss node := by
      simp [eval_token, hkind]
    rw [hF, Fun_Call, hch]
    simp only [List.drop_succ_cons, List.drop_zero, hargs, andThen_ok]
    rw [with_child_some _ 0 _ _ callee (by simp)]
  · refine ⟨recv, ?_⟩
    have hM : eval_token (n + 1) ss node
        = Method_Call (eval_token n) (dispatch_name (eval_token n) n) ss node := by
      simp [eval_token, hkind]
    rw [hM, Method_Call, hch, with_child_some _ 0 _ _ recv (by simp), hrecv, andThen_ok]
    simp only [List.drop_succ_cons, List.drop_zero, Method_Call_loop, hseg, hargs, andThen_ok]
    rw [with_child_some _ 0 _ _ callee (by simp)]
    exact andThen_pure _

theorem dispatch_skip_declining
    (call : Dynamic → List Boxed_Value → BoxedCPP_System → Result)
    (plist : List Boxed_Value) (ss : BoxedCPP_System) (rest : List Proxy_Function) :
    ∀ earlier : List Proxy_Function, (∀ f ∈ earlier, declines f plist ss) →
      dispatch call (earlier ++ rest) plist ss = dispatch call rest plist ss := by
  intro earlier
  induction earlier with
  | nil => intro _; rfl
  | cons f fs ih =>
    intro h
    have hf := h f (List.mem_cons_self _ _)
    have hfs := ih (fun g hg => h g (List.mem_cons_of_mem _ hg))
    cases f with
    | native arity c =>
      rw [List.cons_append, dispatch]
      rcases hf with hf | hf
      · rw [if_neg hf]; exact hfs
      · by_cases ha : arity = plist.length
        · rw [if_pos ha, hf]; exact hfs
        · rw [if_neg ha]; exact hfs
    | dynamic d arity =>
      have hne : ¬ (arity = none ∨ arity = some plist.length) := fun h =>
        h.elim hf.1 hf.2
      rw [List.cons_append, dispatch, if_neg hne]; exact hfs

theorem dispatch_name_script (ev : BoxedCPP_System → Token → Result) (m : Nat)
    (name : String) (vals : List Boxed_Value) (ss1 : BoxedCPP_System) (body : Token)
    (names : List String) (earlier others : List Proxy_Function)
    (hfun : ss1.get_function name
      = earlier ++ Proxy_Function.dynamic (Dynamic.eval_function body names) none :: others)
    (hearlier : ∀ f ∈ earlier, declines f vals ss1)
    (hlen : names.length = vals.length) :
    dispatch_name ev (m + 1) name vals ss1 = ev (bind_all ss1 names vals) body := by
  rw [dispatch_name, hfun, dispatch_skip_declining _ _ _ _ earlier hearlier, dispatch]
  simp only [true_or, if_true, call_dynamic, eval_function]
  rw [bind_params_eq_bind_all names 0 vals ss1 (by omega)]
  simp [andThen_ok]

/-- C6: a call that dispatch routes to a script-defined function with `k` parameters and `k`
arguments runs the body in the state `bind_all`, i.e. after `add_object(parameter i,
argument i)` for `i = 0 .. k-1` in order (so a lookup of a parameter gives its argument when
the names are distinct; a repeated name keeps its last binding); its value is the value
carried by the `Return` signal when the body raises one and the value of the body otherwise,
and no `Return` signal leaves the call; the value of a body block is the value of its last
statement, and the empty box when the block has no statement. -/
theorem script_function_call_result (n : Nat) (ss ss1 : BoxedCPP_System)
    (node callee body : Token) (vals : List Boxed_Value) (names : List String)
    (earlier others : List Proxy_Function)
    (hcall : reaches_call (n + 1) ss node callee vals ss1)
    (hfun : ss1.get_function callee.text
      = earlier ++ Proxy_Function.dynamic (Dynamic.eval_function body names) none :: others)
    (hearlier : ∀ f ∈ earlier, declines f vals ss1)
    (hlen : names.length = vals.length) :
    (names.Nodup → ∀ (i : Nat) (p : String), names[i]? = some p →
      (bind_all ss1 names vals).get_object p = vals[i]?) ∧
    (∀ v s, eval_token (n + 1) (bind_all ss1 names vals) body = (Except.ok v, s) →
      eval_token (n + 2) ss node = (Except.ok v, s)) ∧
    (∀ v location s,
      eval_token (n + 1) (bind_all ss1 names vals) body
        = (Except.error (Thrown.ReturnValue v location), s) →
      eval_token (n + 2) ss node = (Except.ok v, s)) ∧
    (∀ v location, (eval_token (n + 2) ss node).1
      ≠ Except.error (Thrown.ReturnValue v location)) ∧
    (body.identifier = TokenType.Scoped_Block → body.children = [] →
      ∀ s0 : BoxedCPP_System, ∃ v s, eval_token (n + 1) s0 body = (Except.ok v, s) ∧
        s.payload v = some Payload.void ∧ s.scopes = s0.scopes) ∧
    (body.identifier = TokenType.Scoped_Block →
      ∀ (statements : List Token) (last : Token) (s0 s1 s2 : BoxedCPP_System)
        (r v : Boxed_Value),
        body.children = statements ++ [last] →
        eval_children (eval_token n) statements (s0.box Payload.void).1
          (s0.box Payload.void).2.new_scope = (Except.ok r, s1) →
        eval_token n s1 last = (Except.ok v, s2) →
        eval_token (n + 1) s0 body = (Except.ok v, s2.pop_scope)) := by
  obtain ⟨where_, hsite⟩ := reaches_call_eq_call_site (n + 1) ss node callee vals ss1 hcall
  have hdisp := dispatch_name_script (eval_token (n + 1)) n callee.text vals ss1 body names
    earlier others hfun hearlier hlen
  refine ⟨fun hnd i p hp => get_object_bind_all names vals ss1 hnd hlen i p hp, ?_, ?_, ?_, ?_,
    ?_⟩
  · intro v s hbody
    rw [hsite, call_site, hdisp, hbody]
  · intro v location s hbody
    rw [hsite, call_site, hdisp, hbody]
  · intro v location
    rw [hsite, call_site, hdisp]
    rcases hb : eval_token (n + 1) (bind_all ss1 names vals) body with ⟨r, s⟩
    cases r with
    | ok w => simp
    | error e => cases e <;> simp
  · intro hkind hch s0
    refine ⟨(s0.box Payload.void).1, (s0.box Payload.void).2, ?_, ?_, ?_⟩
    · simp [eval_token, hkind, Scoped_Block, hch, eval_children, andThen_ok,
        pop_scope_new_scope]
    · simp [BoxedCPP_System.box, BoxedCPP_System.payload]
    · simp [BoxedCPP_System.box]
  · intro hkind statements last s0 s1 s2 r v hch hstmts hlast
    have hS : eval_token (n + 1) s0 body = Scoped_Block (eval_token n) s0 body := by
      simp [eval_token, hkind]
    rw [hS, Scoped_Block]
    simp only [hch, eval_children_append, hstmts, andThen_ok, hlast]

/-! ## The general theorems at concrete inputs -/

/-- Witness of C7: `1 + 2 + 3` with the host `+` evaluates, as the left fold, to a box
holding 6. -/
theorem binary_node_is_left_fold_witness :
    ∃ v ss1, eval_token 4 system_plus expression_sum = (Except.ok v, ss1) ∧
      ss1.payload v = some (Payload.int 6) :=
  ⟨_, _,
    (binary_node_is_left_fold 3 system_plus expression_sum (expression_sum.descend [0])
      [(expression_sum.descend [1], expression_sum.descend [2]),
       (expression_sum.descend [3], expression_sum.descend [4])]
      (Or.inr (Or.inl rfl)) rfl).1.trans rfl,
    rfl⟩

/-- Witness of C8: `x = y = 1` with the host `=` evaluates, as the right fold, `y = 1` first
and then `x = (y = 1)`: both cells hold 1 and the result is the box of `x`. -/
theorem equation_node_is_right_fold_witness :
    ∃ ss1, eval_token 7 system_assign equation_chain = (Except.ok ⟨0⟩, ss1) ∧
      ss1.payload ⟨0⟩ = some (Payload.int 1) ∧ ss1.payload ⟨1⟩ = some (Payload.int 1) :=
  ⟨_,
    (equation_node_is_right_fold 6 system_assign equation_chain (equation_chain.descend [4])
      [(equation_chain.descend [0], equation_chain.descend [1]),
       (equation_chain.descend [2], equation_chain.descend [3])]
      rfl rfl).1.trans rfl,
    rfl, rfl⟩

/-- Witness of C9: in `if (false) { 1 } elseif (true) { 2 } else { 3 }` the arm of the
`elseif` is the one evaluated: the result is a box holding 2. -/
theorem if_block_selects_first_true_arm_witness :
    ∃ v ss1, eval_token 21 empty_system if_chain = (Except.ok v, ss1) ∧
      ss1.payload v = some (Payload.int 2) :=
  ⟨_, _,
    (if_block_selects_first_true_arm 20 empty_system if_chain (if_chain.descend [0])
      (if_chain.descend [1])
      [(if_chain.descend [2], if_chain.descend [3], if_chain.descend [4])]
      (some (if_chain.descend [5], if_chain.descend [6])) rfl rfl
      (fun a ha => by rw [List.mem_singleton.mp ha]; rfl)
      (fun e he => by cases he; rfl)).trans rfl,
    rfl⟩

/-- Witness of C10: `if (1) { }` throws `EvalError("If condition not boolean")` at the
condition node, in the state that holds the box of `1` and nothing else. -/
theorem if_block_condition_not_boolean_witness :
    eval_token 13 empty_system if_one
      = (Except.error (Thrown.EvalError "If condition not boolean"
          (some (if_one.descend [0]))), ⟨[Payload.int 1], [[]], []⟩) :=
  if_block_condition_not_boolean 12 empty_system ⟨[Payload.int 1], [[]], []⟩ if_one
    (if_one.descend [0]) [if_one.descend [1]] ⟨0⟩ rfl rfl rfl rfl

/-- Witness of C6: after `def f(x) { return x }`, the call `f(1)` evaluates to the box of the
argument, which is the value carried by the `Return` signal of the body. -/
theorem script_function_call_result_witness :
    ∃ v s, eval_token 17 system_def_f call_f_1 = (Except.ok v, s) ∧
      s.payload v = some (Payload.int 1) :=
  ⟨_, _,
    (script_function_call_result 15 system_def_f
      (eval_args (eval_token 16) [call_f_1.descend [1]] [] system_def_f).2
      call_f_1 (call_f_1.descend [0]) (fundef_f.descend [2]) [⟨1⟩] ["x"] [] []
      (Or.inl ⟨rfl, [call_f_1.descend [1]], rfl, rfl⟩) rfl
      (fun f hf => absurd hf (List.not_mem_nil f)) rfl).2.2.1 ⟨1⟩
      ((fundef_f.descend [2]).descend [0, 0, 0, 0, 0, 0, 0]) _ rfl,
    rfl⟩

/-! ## Loops -/

theorem catch_std_andThen {α β : Type} (r : Outcome α) (k : α → BoxedCPP_System → Outcome β)
    (e : Thrown) :
    catch_std (andThen r k) e
      = andThen (catch_std r e) (fun v s => catch_std (k v s) e) := by
  rcases r with ⟨x | v, s⟩
  · cases x <;> rfl
  · rfl

theorem loop_rounds_of_code (test : BoxedCPP_System → Outcome Bool)
    (round : BoxedCPP_System → Result) (try_block : BoxedCPP_System → Outcome Bool)
    (code_loop : Nat → Bool → BoxedCPP_System → Result)
    (hfalse : ∀ k s, code_loop k false s = empty_result s)
    (hzero : ∀ s, code_loop 0 true s = (Except.error Thrown.out_of_fuel, s))
    (hbreak : ∀ k s location s1, try_block s = (Except.error (Thrown.BreakLoop location), s1) →
      code_loop (k + 1) true s = empty_result s1)
    (hok : ∀ k s c s1, try_block s = (Except.ok c, s1) →
      code_loop (k + 1) true s = code_loop k c s1)
    (herr : ∀ k s e s1, try_block s = (Except.error e, s1) →
      (∀ location, e ≠ Thrown.BreakLoop location) →
      code_loop (k + 1) true s = (Except.error e, s1))
    (htry : ∀ s, try_block s = andThen (round s) (fun _ s1 => test s1)) :
    ∀ (k : Nat) (entered : Bool) (s : BoxedCPP_System),
      loop_rounds test round k entered s
        = match test s with
          | (Except.ok c, s1) => code_loop k c s1
          | (Except.error (Thrown.BreakLoop location), s1) =>
            if entered then empty_result s1 else (Except.error (Thrown.BreakLoop location), s1)
          | (Except.error e, s1) => (Except.error e, s1) := by
  intro k
  induction k with
  | zero =>
    intro entered s
    rw [loop_rounds]
    rcases test s with ⟨e | c, s1⟩
    · cases e <;> rfl
    · cases c
      · exact (hfalse 0 s1).symm
      · exact (hzero s1).symm
  | succ k ih =>
    intro entered s
    rw [loop_rounds]
    rcases test s with ⟨e | c, s1⟩
    · cases e <;> rfl
    · cases c
      · exact (hfalse (k + 1) s1).symm
      · show (match round s1 with
          | (Except.ok _, s2) => loop_rounds test round k true s2
          | (Except.error (Thrown.BreakLoop _), s2) => empty_result s2
          | (Except.error e, s2) => (Except.error e, s2)) = code_loop (k + 1) true s1
        have ht := htry s1
        rcases hr : round s1 with ⟨e | v, s2⟩
        · rw [hr, andThen_error] at ht
          cases e with
          | BreakLoop location => exact (hbreak k s1 location s2 ht).symm
          | ParserError r l => exact (herr k s1 _ s2 ht (fun _ h => by cases h)).symm
          | EvalError r l => exact (herr k s1 _ s2 ht (fun _ h => by cases h)).symm
          | ReturnValue r l => exact (herr k s1 _ s2 ht (fun _ h => by cases h)).symm
          | std_exception w => exact (herr k s1 _ s2 ht (fun _ h => by cases h)).symm
          | child_out_of_range => exact (herr k s1 _ s2 ht (fun _ h => by cases h)).symm
          | undefined_behaviour => exact (herr k s1 _ s2 ht (fun _ h => by cases h)).symm
          | out_of_fuel => exact (herr k s1 _ s2 ht (fun _ h => by cases h)).symm
        · rw [hr, andThen_ok] at ht
          show loop_rounds test round k true s2 = _
          rw [ih true s2]
          rcases hts : test s2 with ⟨e | c, s3⟩
          · rw [hts] at ht
            cases e with
            | BreakLoop location => exact (hbreak k s1 location s3 ht).symm
            | ParserError r l => exact (herr k s1 _ s3 ht (fun _ h => by cases h)).symm
            | EvalError r l => exact (herr k s1 _ s3 ht (fun _ h => by cases h)).symm
            | ReturnValue r l => exact (herr k s1 _ s3 ht (fun _ h => by cases h)).symm
            | std_exception w => exact (herr k s1 _ s3 ht (fun _ h => by cases h)).symm
            | child_out_of_range => exact (herr k s1 _ s3 ht (fun _ h => by cases h)).symm
            | undefined_behaviour => exact (herr k s1 _ s3 ht (fun _ h => by cases h)).symm
            | out_of_fuel => exact (herr k s1 _ s3 ht (fun _ h => by cases h)).symm
          · rw [hts] at ht
            exact (hok k s1 c s3 ht).symm

theorem loop_rounds_not_entered (test : BoxedCPP_System → Outcome Bool)
    (round : BoxedCPP_System → Result) (try_block : BoxedCPP_System → Outcome Bool)
    (code_loop : Nat → Bool → BoxedCPP_System → Result)
    (hfalse : ∀ k s, code_loop k false s = empty_result s)
    (hzero : ∀ s, code_loop 0 true s = (Except.error Thrown.out_of_fuel, s))
    (hbreak : ∀ k s location s1, try_block s = (Except.error (Thrown.BreakLoop location), s1) →
      code_loop (k + 1) true s = empty_result s1)
    (hok : ∀ k s c s1, try_block s = (Except.ok c, s1) →
      code_loop (k + 1) true s = code_loop k c s1)
    (herr : ∀ k s e s1, try_block s = (Except.error e, s1) →
      (∀ location, e ≠ Thrown.BreakLoop location) →
      code_loop (k + 1) true s = (Except.error e, s1))
    (htry : ∀ s, try_block s = andThen (round s) (fun _ s1 => test s1))
    (k : Nat) (s : BoxedCPP_System) :
    andThen (test s) (fun c s1 => code_loop k c s1) = loop_rounds test round k false s := by
  rw [loop_rounds_of_code test round try_block code_loop hfalse hzero hbreak hok herr htry
    k false s]
  rcases test s with ⟨e | c, s1⟩
  · cases e <;> rfl
  · rfl

theorem payload_empty_result (s s1 : BoxedCPP_System) (v : Boxed_Value)
    (h : empty_result s = (Except.ok v, s1)) : s1.payload v = some Payload.void := by
  simp only [empty_result, BoxedCPP_System.box, Prod.mk.injEq, Except.ok.injEq] at h
  obtain ⟨hv, hs⟩ := h
  subst hv
  subst hs
  exact getElem?_append_zero s.store Payload.void []

theorem loop_rounds_result_empty (test : BoxedCPP_System → Outcome Bool)
    (round : BoxedCPP_System → Result) :
    ∀ (k : Nat) (entered : Bool) (s s1 : BoxedCPP_System) (v : Boxed_Value),
      loop_rounds test round k entered s = (Except.ok v, s1) →
      s1.payload v = some Payload.void := by
  intro k
  induction k with
  | zero =>
    intro entered s s1 v
    rw [loop_rounds]
    rcases test s with ⟨e | c, s2⟩
    · cases e with
      | BreakLoop location =>
        cases entered
        · intro h; cases h
        · intro h; exact payload_empty_result s2 s1 v h
      | _ => intro h; cases h
    · cases c
      · intro h; exact payload_empty_result s2 s1 v h
      · intro h; cases h
  | succ k ih =>
    intro entered s s1 v
    rw [loop_rounds]
    rcases test s with ⟨e | c, s2⟩
    · cases e with
      | BreakLoop location =>
        cases entered
        · intro h; cases h
        · intro h; exact payload_empty_result s2 s1 v h
      | _ => intro h; cases h
    · cases c
      · intro h; exact payload_empty_result s2 s1 v h
      · show (match round s2 with
          | (Except.ok _, s3) => loop_rounds test round k true s3
          | (Except.error (Thrown.BreakLoop _), s3) => empty_result s3
          | (Except.error e, s3) => (Except.error e, s3)) = _ → _
        rcases round s2 with ⟨e | w, s3⟩
        · cases e with
          | BreakLoop location => intro h; exact payload_empty_result s3 s1 v h
          | _ => intro h; cases h
        · intro h; exact ih true s3 s1 v h

theorem While_Block_loop_false (ev : BoxedCPP_System → Token → Result) (node : Token)
    (k : Nat) (s : BoxedCPP_System) : While_Block_loop ev node k false s = empty_result s := by
  cases k <;> rfl

theorem For_Block_loop_false (ev : BoxedCPP_System → Token → Result) (node : Token)
    (k : Nat) (s : BoxedCPP_System) : For_Block_loop ev node k false s = empty_result s := by
  cases k <;> rfl

/-- C12: a `While_Block` with children `[cond, body, ...]` tests the condition, exits with
the empty value when it is false, and otherwise evaluates the body once and tests again; a
`Break` signal raised by the body ends the loop and does not leave the `While_Block`; whenever
the `While_Block` yields a value it is an empty box, whatever the body evaluated to. -/
theorem while_block_is_loop (n : Nat) (ss : BoxedCPP_System) (node c body : Token)
    (rest : List Token)
    (hkind : node.identifier = TokenType.While_Block)
    (hchildren : node.children = c :: body :: rest) :
    eval_token (n + 1) ss node
        = loop_rounds (while_test (eval_token n) c) (fun s => eval_token n s body) n false ss ∧
    (∀ s s1 location, while_test (eval_token n) c ss = (Except.ok true, s) →
      eval_token n s body = (Except.error (Thrown.BreakLoop location), s1) →
      0 < n → eval_token (n + 1) ss node = empty_result s1) ∧
    (∀ v s1, eval_token (n + 1) ss node = (Except.ok v, s1) →
      s1.payload v = some Payload.void) := by
  have hW : eval_token (n + 1) ss node = While_Block (eval_token n) n ss node := by
    simp [eval_token, hkind]
  have htry : ∀ s, While_Block_try (eval_token n) s node
      = andThen (eval_token n s body) (fun _ s1 => while_test (eval_token n) c s1) := by
    intro s
    rw [While_Block_try, hchildren, with_child_some _ 1 _ _ body (by simp)]
    rfl
  have main : eval_token (n + 1) ss node
      = loop_rounds (while_test (eval_token n) c) (fun s => eval_token n s body) n false
          ss := by
    rw [hW, While_Block, hchildren, with_child_some _ 0 _ _ c (by simp)]
    exact loop_rounds_not_entered (while_test (eval_token n) c)
      (fun s => eval_token n s body) (fun s => While_Block_try (eval_token n) s node)
      (While_Block_loop (eval_token n) node)
      (While_Block_loop_false (eval_token n) node)
      (fun s => rfl)
      (fun k s location s1 h => by
        simp only [While_Block_loop, h]
        rfl)
      (fun k s c s1 h => by simp only [While_Block_loop, h])
      (fun k s e s1 h hne => by
        cases e with
        | BreakLoop location => exact absurd rfl (hne location)
        | _ => simp only [While_Block_loop, h])
      htry n ss
  refine ⟨main, ?_, ?_⟩
  · intro s s1 location htest hbody hn
    obtain ⟨m, rfl⟩ : ∃ m, n = m + 1 := ⟨n - 1, by omega⟩
    rw [main, loop_rounds, htest]
    simp only [hbody]
  · intro v s1 h
    rw [main] at h
    exact loop_rounds_result_empty _ _ n false ss s1 v h

theorem For_Block_loop_result_empty (ev : BoxedCPP_System → Token → Result) (node : Token) :
    ∀ (k : Nat) (cond : Bool) (s s1 : BoxedCPP_System) (v : Boxed_Value),
      For_Block_loop ev node k cond s = (Except.ok v, s1) →
      s1.payload v = some Payload.void := by
  intro k
  induction k with
  | zero =>
    intro cond s s1 v h
    cases cond
    · exact payload_empty_result s s1 v h
    · cases h
  | succ k ih =>
    intro cond s s1 v
    cases cond
    · intro h; exact payload_empty_result s s1 v h
    · rw [For_Block_loop]
      rcases For_Block_try ev s node with ⟨e | c, s2⟩
      · cases e with
        | BreakLoop location =>
          intro h
          exact ih false s2 s1 v h
        | _ => intro h; cases h
      · intro h; exact ih c s2 s1 v h

theorem For_Block_try_eq (ev : BoxedCPP_System → Token → Result) (node c post body : Token)
    (s : BoxedCPP_System)
    (h : (∃ init, node.children = [init, c, post, body]) ∨ node.children = [c, post, body]) :
    For_Block_try ev s node
      = andThen (for_round ev node body post s) (fun _ s1 => for_test ev node c s1) := by
  have key : For_Block_try ev s node
      = catch_std (andThen (andThen (ev s body) (fun _ s1 => ev s1 post))
          (fun _ s2 => cond_of (ev s2 c) (Thrown.std_exception "bad_boxed_cast")))
          (for_error node) := by
    rcases h with ⟨init, h⟩ | h
    · rw [For_Block_try, h, andThen_assoc]
      rfl
    · rw [For_Block_try, h, andThen_assoc]
      rfl
  rw [key, catch_std_andThen]
  rfl

theorem For_Block_loop_eq_loop_rounds (ev : BoxedCPP_System → Token → Result)
    (node c post body : Token)
    (h : (∃ init, node.children = [init, c, post, body]) ∨ node.children = [c, post, body])
    (k : Nat) (s : BoxedCPP_System) :
    andThen (for_test ev node c s) (fun cond s1 => For_Block_loop ev node k cond s1)
      = loop_rounds (for_test ev node c) (for_round ev node body post) k false s :=
  loop_rounds_not_entered (for_test ev node c) (for_round ev node body post)
    (fun s => For_Block_try ev s node) (For_Block_loop ev node)
    (For_Block_loop_false ev node)
    (fun s => rfl)
    (fun k s location s1 h => by
      simp only [For_Block_loop, h]
      rfl)
    (fun k s c s1 h => by simp only [For_Block_loop, h])
    (fun k s e s1 h hne => by
      cases e with
      | BreakLoop location => exact absurd rfl (hne location)
      | _ => simp only [For_Block_loop, h])
    (fun s => For_Block_try_eq ev node c post body s h) k s

/-- C11: a `For_Block` with the four children `(init, cond, post, body)` evaluates `init`
once and then repeats (test `cond`; exit with the empty value if false; evaluate `body`;
evaluate `post`); with the three children `(cond, post, body)` it does the same without
`init`.  A `Break` signal raised by the body exits the loop in the state the body left, so
neither `post` nor `cond` is evaluated again.  Whenever a `For_Block` yields a value it is an
empty box. -/
theorem for_block_is_loop (n : Nat) (ss : BoxedCPP_System) (node init c post body : Token)
    (hkind : node.identifier = TokenType.For_Block) :
    (node.children = [init, c, post, body] →
      eval_token (n + 1) ss node
        = andThen (catch_std (eval_token n ss init) (for_error node)) (fun _ s =>
            loop_rounds (for_test (eval_token n) node c)
              (for_round (eval_token n) node body post) n false s)) ∧
    (node.children = [c, post, body] →
      eval_token (n + 1) ss node
        = loop_rounds (for_test (eval_token n) node c)
            (for_round (eval_token n) node body post) n false ss) ∧
    (node.children = [c, post, body] →
      ∀ s s1 location, for_test (eval_token n) node c ss = (Except.ok true, s) →
        eval_token n s body = (Except.error (Thrown.BreakLoop location), s1) →
        0 < n → eval_token (n + 1) ss node = empty_result s1) ∧
    (∀ v s1, eval_token (n + 1) ss node = (Except.ok v, s1) →
      s1.payload v = some Payload.void) := by
  have hF : eval_token (n + 1) ss node = For_Block (eval_token n) n ss node := by
    simp [eval_token, hkind]
  have h3 : node.children = [c, post, body] →
      eval_token (n + 1) ss node
        = loop_rounds (for_test (eval_token n) node c)
            (for_round (eval_token n) node body post) n false ss := by
    intro hch
    rw [hF, For_Block, ← For_Block_loop_eq_loop_rounds (eval_token n) node c post body
      (Or.inr hch) n ss]
    congr 1
    rw [For_Block_init, hch]
    rfl
  refine ⟨?_, h3, ?_, ?_⟩
  · intro hch
    have hinit : For_Block_init (eval_token n) ss node
        = andThen (catch_std (eval_token n ss init) (for_error node))
            (fun _ s => for_test (eval_token n) node c s) := by
      rw [For_Block_init, hch]
      exact catch_std_andThen _ _ _
    rw [hF, For_Block, hinit, andThen_assoc]
    congr 1
    funext _ s
    exact For_Block_loop_eq_loop_rounds (eval_token n) node c post body
      (Or.inl ⟨init, hch⟩) n s
  · intro hch s s1 location htest hbody hn
    obtain ⟨m, rfl⟩ : ∃ m, n = m + 1 := ⟨n - 1, by omega⟩
    rw [h3 hch, loop_rounds, htest]
    simp only [for_round, hbody, andThen_error, catch_std]
  · intro v s1 h
    rw [hF, For_Block] at h
    rcases hi : For_Block_init (eval_token n) ss node with ⟨e | cond, s2⟩
    · rw [hi] at h; cases h
    · rw [hi] at h
      exact For_Block_loop_result_empty (eval_token n) node n cond s2 s1 v h

/-- Witness of C12: `while (x) { x = false }` with `x` true runs the body once and ends with
an empty box, `x` being false afterwards. -/
theorem while_block_is_loop_witness :
    ∃ v s1, eval_token 21 system_x_true while_x = (Except.ok v, s1) ∧
      s1.payload v = some Payload.void ∧ s1.payload ⟨0⟩ = some (Payload.bool false) :=
  ⟨_, _,
    (while_block_is_loop 20 system_x_true while_x (while_x.descend [0])
      (while_x.descend [1]) [] rfl rfl).1.trans rfl,
    rfl, rfl⟩

/-- Witness of C11: `for (x = true; x; x = false) { }` evaluates the initialiser, runs one
round and ends with an empty box, `x` being false afterwards. -/
theorem for_block_is_loop_witness :
    ∃ v s1, eval_token 21 system_assign for_x = (Except.ok v, s1) ∧
      s1.payload v = some Payload.void ∧ s1.payload ⟨0⟩ = some (Payload.bool false) :=
  ⟨_, _,
    ((for_block_is_loop 20 system_assign for_x (for_x.descend [0]) (for_x.descend [1])
      (for_x.descend [2]) (for_x.descend [3]) rfl).1 rfl).trans rfl,
    rfl, rfl⟩

/-! ## Dispatch failures -/

theorem dispatch_name_no_match (ev : BoxedCPP_System → Token → Result) (n : Nat)
    (name : String) (plist : List Boxed_Value) (ss : BoxedCPP_System)
    (h : no_match ss name plist) :
    dispatch_name ev n name plist ss
      = (Except.error (Thrown.std_exception "No matching function to dispatch to"), ss) := by
  have := dispatch_skip_declining (call_dynamic ev n) plist ss [] (ss.get_function name) h
  rw [List.append_nil] at this
  rw [dispatch_name, this]
  rfl

theorem Fun_Call_no_match (ev : BoxedCPP_System → Token → Result) (n : Nat)
    (ss ss1 : BoxedCPP_System) (node callee : Token) (arg_nodes : List Token)
    (plb : List Boxed_Value)
    (hchildren : node.children = callee :: arg_nodes)
    (hargs : eval_args ev arg_nodes [] ss = (Except.ok plb, ss1))
    (hnone : no_match ss1 callee.text plb) :
    Fun_Call ev (dispatch_name ev n) ss node
      = (Except.error (Thrown.EvalError ("Can not find appropriate '" ++ callee.text ++ "'")
          (some callee)), ss1) := by
  rw [Fun_Call, hchildren]
  simp only [List.drop_succ_cons, List.drop_zero, hargs, andThen_ok]
  rw [with_child_some _ 0 _ _ callee (by simp), call_site,
    dispatch_name_no_match ev n callee.text plb ss1 hnone]

/-- C14: a `Fun_Call` whose callee name has no matching entry in the registry evaluates its
arguments and then throws `EvalError("Can not find appropriate '<name>'")` located at the
callee token, the first child of the node. -/
theorem fun_call_without_match (n : Nat) (ss ss1 : BoxedCPP_System) (node callee : Token)
    (arg_nodes : List Token) (plb : List Boxed_Value)
    (hkind : node.identifier = TokenType.Fun_Call)
    (hchildren : node.children = callee :: arg_nodes)
    (hargs : eval_args (eval_token n) arg_nodes [] ss = (Except.ok plb, ss1))
    (hnone : no_match ss1 callee.text plb) :
    eval_token (n + 1) ss node
      = (Except.error (Thrown.EvalError ("Can not find appropriate '" ++ callee.text ++ "'")
          (some callee)), ss1) ∧
    node.children[0]? = some callee := by
  have hF : eval_token (n + 1) ss node
      = Fun_Call (eval_token n) (dispatch_name (eval_token n) n) ss node := by
    simp [eval_token, hkind]
  refine ⟨?_, by simp [hchildren]⟩
  rw [hF]
  exact Fun_Call_no_match (eval_token n) n ss ss1 node callee arg_nodes plb hchildren hargs
    hnone

/-- Witness of C14: `foo(1)` with `foo` unbound evaluates the argument `1` and throws the
error that names `foo`, located at the token `foo`. -/
theorem fun_call_without_match_witness :
    eval_token 8 empty_system call_foo_1
      = (Except.error (Thrown.EvalError "Can not find appropriate 'foo'"
          (some (leaf "foo" TokenType.Identifier 0))), ⟨[Payload.int 1], [[]], []⟩) :=
  (fun_call_without_match 7 empty_system ⟨[Payload.int 1], [[]], []⟩ call_foo_1
    (leaf "foo" TokenType.Identifier 0) [call_foo_1.descend [1]] [⟨0⟩] rfl rfl rfl
    (fun f hf => absurd hf (List.not_mem_nil f))).1

theorem Equation_loop_step (ev : BoxedCPP_System → Token → Result)
    (disp : String → List Boxed_Value → BoxedCPP_System → Result) (children : List Token)
    (i : Nat) (current : Boxed_Value) (ss s1 : BoxedCPP_System) (e : Thrown)
    (h : Equation_step ev disp children i current ss = (Except.error e, s1)) :
    Equation_loop ev disp children i current ss = (Except.error e, s1) := by
  match i with
  | 0 => rw [Equation_loop, h]
  | 1 => rw [Equation_loop, h]
  | i + 2 => rw [Equation_loop, h, andThen_error]

theorem Negate_no_match (ev : BoxedCPP_System → Token → Result) (n : Nat)
    (ss s1 : BoxedCPP_System) (node operand : Token) (rest : List Token) (v : Boxed_Value)
    (hchildren : node.children = operand :: rest)
    (h0 : ev ss operand = (Except.ok v, s1))
    (hnone : no_match s1 "-" [v]) :
    Negate ev (dispatch_name ev n) ss node
      = (Except.error (Thrown.EvalError "Can not find appropriate negation" (some operand)),
          s1) := by
  rw [Negate, hchildren, with_child_some _ 0 _ _ operand (by simp), h0, andThen_ok,
    dispatch_name_no_match ev n "-" [v] s1 hnone]
  rfl

theorem Prefix_no_match (ev : BoxedCPP_System → Token → Result) (n : Nat)
    (ss s1 : BoxedCPP_System) (node op operand : Token) (rest : List Token) (v : Boxed_Value)
    (hchildren : node.children = op :: operand :: rest)
    (h0 : ev ss operand = (Except.ok v, s1))
    (hnone : no_match s1 op.text [v]) :
    Prefix ev (dispatch_name ev n) ss node
      = (Except.error (Thrown.EvalError "Can not find appropriate prefix" (some op)), s1) := by
  rw [Prefix, hchildren, with_child_some _ 1 _ _ operand (by simp), h0, andThen_ok,
    with_child_some _ 0 _ _ op (by simp),
    dispatch_name_no_match ev n op.text [v] s1 hnone]
  rfl

theorem Array_Init_no_Vector (ev : BoxedCPP_System → Token → Result) (n : Nat)
    (ss : BoxedCPP_System) (node : Token)
    (hnone : no_match ss "Vector" []) :
    Array_Init ev (dispatch_name ev n) ss node
      = (Except.error (Thrown.EvalError "Can not find appropriate 'Vector()'" (some node)),
          ss) := by
  rw [Array_Init, dispatch_name_no_match ev n "Vector" [] ss hnone]
  rfl

theorem Binary_loop_skip (ev : BoxedCPP_System → Token → Result)
    (disp : String → List Boxed_Value → BoxedCPP_System → Result) :
    ∀ (pre : List (Token × Token)) (front tail : List Token) (k : Nat) (r : Boxed_Value)
      (ss : BoxedCPP_System),
      Binary_loop ev disp (front ++ (interleave pre ++ tail)) (pre.length + k) front.length r ss
        = andThen (left_fold ev disp pre r ss) (fun r1 s1 =>
            Binary_loop ev disp (front ++ (interleave pre ++ tail)) k
              (front.length + 2 * pre.length) r1 s1) := by
  intro pre
  induction pre with
  | nil =>
    intro front tail k r ss
    simp only [List.length_nil, Nat.zero_add, Nat.mul_zero, Nat.add_zero, left_fold, andThen_ok]
  | cons p rest ih =>
    intro front tail k r ss
    obtain ⟨op, rhs⟩ := p
    have hk : (((op, rhs) :: rest).length + k) = (rest.length + k) + 1 := by
      simp only [List.length_cons]; omega
    have hlt : front.length < (front ++ (interleave ((op, rhs) :: rest) ++ tail)).length := by
      simp [interleave]
    have hch : front ++ (interleave ((op, rhs) :: rest) ++ tail)
        = (front ++ [op, rhs]) ++ (interleave rest ++ tail) := by
      simp [interleave]
    have h0 : (front ++ (interleave ((op, rhs) :: rest) ++ tail))[front.length]? = some op :=
      getElem?_append_zero front op _
    have h1 : (front ++ (interleave ((op, rhs) :: rest) ++ tail))[front.length + 1]?
        = some rhs :=
      getElem?_append_one front op rhs _
    rw [hk, Binary_loop, if_pos hlt, with_child_some _ _ _ _ rhs h1, left_fold]
    rw [andThen_assoc]
    congr 1
    funext x s1
    rw [with_child_some _ _ _ _ op h0, andThen_assoc]
    congr 1
    funext v s2
    have := ih (front ++ [op, rhs]) tail k v s2
    rw [hch]
    simp only [List.length_append, List.length_cons, List.length_nil] at this ⊢
    rw [this]
    congr 1
    funext r1 s3
    congr 1
    omega

theorem Binary_no_match_at (ev : BoxedCPP_System → Token → Result) (n : Nat)
    (ss s0 s1 s2 : BoxedCPP_System) (node v0 op v1 : Token) (pre : List (Token × Token))
    (rest : List Token) (r0 a b : Boxed_Value)
    (hchildren : node.children = v0 :: (interleave pre ++ op :: v1 :: rest))
    (h0 : ev ss v0 = (Except.ok r0, s0))
    (hpre : left_fold ev (dispatch_name ev n) pre r0 s0 = (Except.ok a, s1))
    (h1 : ev s1 v1 = (Except.ok b, s2))
    (hnone : no_match s2 op.text [a, b]) :
    Binary ev (dispatch_name ev n) ss node
      = (Except.error (Thrown.EvalError ("Can not find appropriate '" ++ op.text ++ "'")
          (some op)), s2) := by
  have hlen : (v0 :: (interleave pre ++ op :: v1 :: rest)).length > 1 := by simp
  have hfuel : (v0 :: (interleave pre ++ op :: v1 :: rest)).length + 1
      = pre.length + (pre.length + rest.length + 3 + 1) := by
    simp [interleave_length]; omega
  have hskip := Binary_loop_skip ev (dispatch_name ev n) pre [v0] (op :: v1 :: rest)
    (pre.length + rest.length + 3 + 1) r0 s0
  have hlt : 1 + 2 * pre.length < (v0 :: (interleave pre ++ op :: v1 :: rest)).length := by
    simp [interleave_length]; omega
  have hop : (v0 :: (interleave pre ++ op :: v1 :: rest))[1 + 2 * pre.length]? = some op := by
    have := getElem?_append_zero (v0 :: interleave pre) op (v1 :: rest)
    have hl : (v0 :: interleave pre).length = 1 + 2 * pre.length := by
      simp [interleave_length]; omega
    rw [hl] at this
    exact this
  have hv1 : (v0 :: (interleave pre ++ op :: v1 :: rest))[1 + 2 * pre.length + 1]?
      = some v1 := by
    have := getElem?_append_one (v0 :: interleave pre) op v1 rest
    have hl : (v0 :: interleave pre).length = 1 + 2 * pre.length := by
      simp [interleave_length]; omega
    rw [hl] at this
    exact this
  rw [Binary, hchildren, with_child_some _ 0 _ _ v0 (by simp), h0, andThen_ok, if_pos hlen,
    hfuel]
  simp only [List.singleton_append, List.length_singleton] at hskip
  rw [hskip, hpre, andThen_ok, Binary_loop, if_pos hlt, with_child_some _ _ _ _ v1 hv1, h1,
    andThen_ok, with_child_some _ _ _ _ op hop, dispatch_op,
    dispatch_name_no_match ev n op.text [a, b] s2 hnone]
  rfl

theorem Equation_loop_skip (ev : BoxedCPP_System → Token → Result)
    (disp : String → List Boxed_Value → BoxedCPP_System → Result) (front : List Token)
    (lhs op : Token) :
    ∀ (back : List (Token × Token)) (suffix : List Token) (current : Boxed_Value)
      (ss : BoxedCPP_System),
      Equation_loop ev disp (front ++ lhs :: op :: (interleave back ++ suffix))
          (front.length + 2 * back.length) current ss
        = andThen (assign_fold ev disp back.reverse current ss) (fun c1 s1 =>
            Equation_loop ev disp (front ++ lhs :: op :: (interleave back ++ suffix))
              front.length c1 s1) := by
  intro back
  induction back using List.reverseRecOn with
  | nil =>
    intro suffix current ss
    simp only [List.length_nil, Nat.mul_zero, Nat.add_zero, List.reverse_nil, assign_fold,
      andThen_ok]
  | append_singleton qs q ih =>
    intro suffix current ss
    obtain ⟨l1, o1⟩ := q
    have hch : front ++ lhs :: op :: (interleave (qs ++ [(l1, o1)]) ++ suffix)
        = front ++ lhs :: op :: (interleave qs ++ l1 :: o1 :: suffix) := by
      simp [interleave_append, interleave]
    have hch2 : front ++ lhs :: op :: (interleave qs ++ l1 :: o1 :: suffix)
        = (front ++ lhs :: op :: interleave qs) ++ l1 :: o1 :: suffix := by
      simp
    have hidx : front.length + 2 * (qs ++ [(l1, o1)]).length
        = (front.length + 2 * qs.length) + 2 := by
      simp only [List.length_append, List.length_singleton]; omega
    have hlen : (front ++ lhs :: op :: interleave qs).length
        = front.length + 2 * qs.length + 2 := by
      simp [interleave_length]; omega
    have hstep := Equation_step_eq ev disp (front ++ lhs :: op :: interleave qs) l1 o1 suffix
      current ss
    rw [hlen, ← hch2] at hstep
    rw [hch, hidx, Equation_loop, hstep, List.reverse_append, List.reverse_singleton,
      List.singleton_append, assign_fold, andThen_assoc, andThen_assoc]
    congr 1
    funext l s1
    rw [andThen_assoc]
    congr 1
    funext r s2
    exact ih (l1 :: o1 :: suffix) r s2

theorem Equation_no_match_at (ev : BoxedCPP_System → Token → Result) (n : Nat)
    (ss s0 s1 s2 : BoxedCPP_System) (node lhs op last : Token) (front : List Token)
    (back : List (Token × Token)) (c0 c l : Boxed_Value)
    (hchildren : node.children = front ++ lhs :: op :: (interleave back ++ [last]))
    (h0 : ev ss last = (Except.ok c0, s0))
    (hback : assign_fold ev (dispatch_name ev n) back.reverse c0 s0 = (Except.ok c, s1))
    (h1 : ev s1 lhs = (Except.ok l, s2))
    (hnone : no_match s2 op.text [l, c]) :
    Equation ev (dispatch_name ev n) ss node
      = (Except.error (Thrown.EvalError ("Can not find appropriate '" ++ op.text ++ "'")
          (some op)), s2) := by
  have hlast : (front ++ lhs :: op :: (interleave back ++ [last])).getLast? = some last := by
    have : front ++ lhs :: op :: (interleave back ++ [last])
        = (front ++ lhs :: op :: interleave back) ++ [last] := by simp
    rw [this]
    exact getLast?_append_single _ last
  have hlen : (front ++ lhs :: op :: (interleave back ++ [last])).length
      = front.length + 2 * back.length + 3 := by
    simp [interleave_length]; omega
  have hgt : front.length + 2 * back.length + 3 > 1 := by omega
  have hnlt : ¬ front.length + 2 * back.length + 3 < 3 := by omega
  rw [Equation, hchildren, hlast]
  simp only [h0, andThen_ok, hlen, if_pos hgt, if_neg hnlt, Nat.add_sub_cancel]
  rw [Equation_loop_skip ev (dispatch_name ev n) front lhs op back [last] c0 s0, hback,
    andThen_ok]
  apply Equation_loop_step
  rw [Equation_step_eq ev (dispatch_name ev n) front lhs op (interleave back ++ [last]) c s1,
    h1, andThen_ok, dispatch_op, dispatch_name_no_match ev n op.text [l, c] s2 hnone]
  rfl

theorem Array_Call_loop_append (ev : BoxedCPP_System → Token → Result)
    (disp : String → List Boxed_Value → BoxedCPP_System → Result) :
    ∀ (pre post : List Token) (r : Boxed_Value) (ss : BoxedCPP_System),
      Array_Call_loop ev disp (pre ++ post) r ss
        = andThen (Array_Call_loop ev disp pre r ss)
            (fun r1 s1 => Array_Call_loop ev disp post r1 s1) := by
  intro pre
  induction pre with
  | nil => intro post r ss; rfl
  | cons c cs ih =>
    intro post r ss
    rw [List.cons_append, Array_Call_loop, Array_Call_loop, andThen_assoc]
    congr 1
    funext idx s1
    rw [andThen_assoc]
    congr 1
    funext v s2
    exact ih post v s2

theorem Array_Call_no_match_at (ev : BoxedCPP_System → Token → Result) (n : Nat)
    (ss s0 s1 s2 : BoxedCPP_System) (node base idx : Token) (pre rest : List Token)
    (r0 a i : Boxed_Value)
    (hchildren : node.children = base :: (pre ++ idx :: rest))
    (h0 : ev ss base = (Except.ok r0, s0))
    (hpre : Array_Call_loop ev (dispatch_name ev n) pre r0 s0 = (Except.ok a, s1))
    (h1 : ev s1 idx = (Except.ok i, s2))
    (hnone : no_match s2 "[]" [a, i]) :
    Array_Call ev (dispatch_name ev n) ss node
      = (Except.error (Thrown.EvalError "Can not find appropriate array lookup '[]'"
          (some idx)), s2) := by
  rw [Array_Call, hchildren, with_child_some _ 0 _ _ base (by simp), h0, andThen_ok]
  simp only [List.drop_succ_cons, List.drop_zero]
  rw [Array_Call_loop_append, hpre, andThen_ok, Array_Call_loop, h1, andThen_ok,
    dispatch_name_no_match ev n "[]" [a, i] s2 hnone]
  rfl

theorem Array_Init_loop_append (ev : BoxedCPP_System → Token → Result)
    (disp : String → List Boxed_Value → BoxedCPP_System → Result) (retval : Boxed_Value) :
    ∀ (pre post : List Token) (ss : BoxedCPP_System),
      Array_Init_loop ev disp retval (pre ++ post) ss
        = andThen (Array_Init_loop ev disp retval pre ss)
            (fun _ s1 => Array_Init_loop ev disp retval post s1) := by
  intro pre
  induction pre with
  | nil => intro post ss; rfl
  | cons c cs ih =>
    intro post ss
    rw [List.cons_append, Array_Init_loop, Array_Init_loop, andThen_assoc]
    congr 1
    funext x s2
    exact ih post s2

theorem Array_Init_no_push_back_at (ev : BoxedCPP_System → Token → Result) (n : Nat)
    (ss s0 s1 s2 : BoxedCPP_System) (node c : Token) (pre rest : List Token)
    (vec x tmp : Boxed_Value)
    (hchildren : node.children = pre ++ c :: rest)
    (hvec : dispatch_name ev n "Vector" [] ss = (Except.ok vec, s0))
    (hpre : Array_Init_loop ev (dispatch_name ev n) vec pre s0 = (Except.ok x, s1))
    (h0 : ev s1 c = (Except.ok tmp, s2))
    (hnone : no_match s2 "push_back" [vec, tmp]) :
    Array_Init ev (dispatch_name ev n) ss node
      = (Except.error (Thrown.EvalError "Can not find appropriate 'push_back'" (some c)),
          s2) := by
  rw [Array_Init, hvec, andThen_ok, hchildren, Array_Init_loop_append, hpre, andThen_ok,
    Array_Init_loop, h0, andThen_ok,
    dispatch_name_no_match ev n "push_back" [vec, tmp] s2 hnone]
  rfl

theorem Method_Call_loop_append (ev : BoxedCPP_System → Token → Result)
    (disp : String → List Boxed_Value → BoxedCPP_System → Result) (first : Token) :
    ∀ (pre post : List Token) (r : Boxed_Value) (ss : BoxedCPP_System),
      Method_Call_loop ev disp first (pre ++ post) r ss
        = andThen (Method_Call_loop ev disp first pre r ss)
            (fun r1 s1 => Method_Call_loop ev disp first post r1 s1) := by
  intro pre
  induction pre with
  | nil => intro post r ss; rfl
  | cons seg segs ih =>
    intro post r ss
    rw [List.cons_append, Method_Call_loop, Method_Call_loop, andThen_assoc]
    congr 1
    funext plb s1
    unfold with_child
    cases seg.children[0]? with
    | none => rfl
    | some callee =>
      dsimp only
      rw [andThen_assoc]
      congr 1
      funext v s2
      exact ih post v s2

theorem Method_Call_no_match_at (ev : BoxedCPP_System → Token → Result) (n : Nat)
    (ss s0 s1 s2 : BoxedCPP_System) (node recv seg callee : Token)
    (pre rest arg_nodes : List Token) (r0 r : Boxed_Value) (plb : List Boxed_Value)
    (hchildren : node.children = recv :: (pre ++ seg :: rest))
    (hseg : seg.children = callee :: arg_nodes)
    (h0 : ev ss recv = (Except.ok r0, s0))
    (hpre : Method_Call_loop ev (dispatch_name ev n) recv pre r0 s0 = (Except.ok r, s1))
    (hargs : eval_args ev arg_nodes [r] s1 = (Except.ok plb, s2))
    (hnone : no_match s2 callee.text plb) :
    Method_Call ev (dispatch_name ev n) ss node
      = (Except.error (Thrown.EvalError ("Can not find appropriate '" ++ callee.text ++ "'")
          (some recv)), s2) := by
  rw [Method_Call, hchildren, with_child_some _ 0 _ _ recv (by simp), h0, andThen_ok]
  simp only [List.drop_succ_cons, List.drop_zero]
  rw [Method_Call_loop_append, hpre, andThen_ok]
  simp only [Method_Call_loop, hseg, List.drop_succ_cons, List.drop_zero, hargs, andThen_ok]
  rw [with_child_some _ 0 _ _ callee (by simp), call_site,
    dispatch_name_no_match ev n callee.text plb s2 hnone]
  rfl

/-- C15, as amended: when a dispatch finds no matching entry for the dispatched name `N`,
whichever dispatch of the node it is (the operands and dispatches before it having returned
a value), the evaluator throws an `EvalError` whose reason is `Can not find appropriate 'N'`
for the binary operators, the assignment operators, `push_back`, function calls and method
calls, and is a text of its own for the other kinds:
`Can not find appropriate array lookup '[]'` for array indexing,
`Can not find appropriate negation` for unary minus, `Can not find appropriate prefix` for
`++` and `--`, and `Can not find appropriate 'Vector()'` for `Vector`. -/
theorem dispatch_failure_reasons (n : Nat) (ss : BoxedCPP_System) (node : Token) :
    (∀ v0 pre op v1 rest r0 a b s0 s1 s2,
      (node.identifier = TokenType.Factor ∨ node.identifier = TokenType.Expression ∨
        node.identifier = TokenType.Term ∨ node.identifier = TokenType.Boolean ∨
        node.identifier = TokenType.Comparison) →
      node.children = v0 :: (interleave pre ++ op :: v1 :: rest) →
      eval_token n ss v0 = (Except.ok r0, s0) →
      left_fold (eval_token n) (dispatch_name (eval_token n) n) pre r0 s0
        = (Except.ok a, s1) →
      eval_token n s1 v1 = (Except.ok b, s2) →
      no_match s2 op.text [a, b] →
      eval_token (n + 1) ss node
        = (Except.error (Thrown.EvalError ("Can not find appropriate '" ++ op.text ++ "'")
            (some op)), s2)) ∧
    (∀ front lhs op back last c0 c l s0 s1 s2,
      node.identifier = TokenType.Equation →
      node.children = front ++ lhs :: op :: (interleave back ++ [last]) →
      eval_token n ss last = (Except.ok c0, s0) →
      assign_fold (eval_token n) (dispatch_name (eval_token n) n) back.reverse c0 s0
        = (Except.ok c, s1) →
      eval_token n s1 lhs = (Except.ok l, s2) →
      no_match s2 op.text [l, c] →
      eval_token (n + 1) ss node
        = (Except.error (Thrown.EvalError ("Can not find appropriate '" ++ op.text ++ "'")
            (some op)), s2)) ∧
    (∀ base pre idx rest r0 a i s0 s1 s2,
      node.identifier = TokenType.Array_Call →
      node.children = base :: (pre ++ idx :: rest) →
      eval_token n ss base = (Except.ok r0, s0) →
      Array_Call_loop (eval_token n) (dispatch_name (eval_token n) n) pre r0 s0
        = (Except.ok a, s1) →
      eval_token n s1 idx = (Except.ok i, s2) →
      no_match s2 "[]" [a, i] →
      eval_token (n + 1) ss node
        = (Except.error (Thrown.EvalError "Can not find appropriate array lookup '[]'"
            (some idx)), s2)) ∧
    (∀ operand rest v s1,
      node.identifier = TokenType.Negate →
      node.children = operand :: rest →
      eval_token n ss operand = (Except.ok v, s1) →
      no_match s1 "-" [v] →
      eval_token (n + 1) ss node
        = (Except.error (Thrown.EvalError "Can not find appropriate negation"
            (some operand)), s1)) ∧
    (∀ op operand rest v s1,
      node.identifier = TokenType.Prefix →
      node.children = op :: operand :: rest →
      eval_token n ss operand = (Except.ok v, s1) →
      no_match s1 op.text [v] →
      eval_token (n + 1) ss node
        = (Except.error (Thrown.EvalError "Can not find appropriate prefix" (some op)),
            s1)) ∧
    (node.identifier = TokenType.Array_Init →
      no_match ss "Vector" [] →
      eval_token (n + 1) ss node
        = (Except.error (Thrown.EvalError "Can not find appropriate 'Vector()'" (some node)),
            ss)) ∧
    (∀ pre c rest vec x tmp s0 s1 s2,
      node.identifier = TokenType.Array_Init →
      node.children = pre ++ c :: rest →
      dispatch_name (eval_token n) n "Vector" [] ss = (Except.ok vec, s0) →
      Array_Init_loop (eval_token n) (dispatch_name (eval_token n) n) vec pre s0
        = (Except.ok x, s1) →
      eval_token n s1 c = (Except.ok tmp, s2) →
      no_match s2 "push_back" [vec, tmp] →
      eval_token (n + 1) ss node
        = (Except.error (Thrown.EvalError "Can not find appropriate 'push_back'" (some c)),
            s2)) ∧
    (∀ callee arg_nodes plb s1,
      node.identifier = TokenType.Fun_Call →
      node.children = callee :: arg_nodes →
      eval_args (eval_token n) arg_nodes [] ss = (Except.ok plb, s1) →
      no_match s1 callee.text plb →
      eval_token (n + 1) ss node
        = (Except.error (Thrown.EvalError
            ("Can not find appropriate '" ++ callee.text ++ "'") (some callee)), s1)) ∧
    (∀ recv pre seg rest callee arg_nodes r0 r plb s0 s1 s2,
      node.identifier = TokenType.Method_Call →
      node.children = recv :: (pre ++ seg :: rest) →
      seg.children = callee :: arg_nodes →
      eval_token n ss recv = (Except.ok r0, s0) →
      Method_Call_loop (eval_token n) (dispatch_name (eval_token n) n) recv pre r0 s0
        = (Except.ok r, s1) →
      eval_args (eval_token n) arg_nodes [r] s1 = (Except.ok plb, s2) →
      no_match s2 callee.text plb →
      eval_token (n + 1) ss node
        = (Except.error (Thrown.EvalError
            ("Can not find appropriate '" ++ callee.text ++ "'") (some recv)), s2)) := by
  refine ⟨?_, ?_, ?_, ?_, ?_, ?_, ?_, ?_, ?_⟩
  · intro v0 pre op v1 rest r0 a b s0 s1 s2 hkind hch h0 hpre h1 hnone
    have hB : eval_token (n + 1) ss node
        = Binary (eval_token n) (dispatch_name (eval_token n) n) ss node := by
      rcases hkind with h | h | h | h | h <;> simp [eval_token, h]
    rw [hB]
    exact Binary_no_match_at (eval_token n) n ss s0 s1 s2 node v0 op v1 pre rest r0 a b hch
      h0 hpre h1 hnone
  · intro front lhs op back last c0 c l s0 s1 s2 hkind hch h0 hback h1 hnone
    have hE : eval_token (n + 1) ss node
        = Equation (eval_token n) (dispatch_name (eval_token n) n) ss node := by
      simp [eval_token, hkind]
    rw [hE]
    exact Equation_no_match_at (eval_token n) n ss s0 s1 s2 node lhs op last front back c0 c
      l hch h0 hback h1 hnone
  · intro base pre idx rest r0 a i s0 s1 s2 hkind hch h0 hpre h1 hnone
    have hA : eval_token (n + 1) ss node
        = Array_Call (eval_token n) (dispatch_name (eval_token n) n) ss node := by
      simp [eval_token, hkind]
    rw [hA]
    exact Array_Call_no_match_at (eval_token n) n ss s0 s1 s2 node base idx pre rest r0 a i
      hch h0 hpre h1 hnone
  · intro operand rest v s1 hkind hch h0 hnone
    have hN : eval_token (n + 1) ss node
        = Negate (eval_token n) (dispatch_name (eval_token n) n) ss node := by
      simp [eval_token, hkind]
    rw [hN]
    exact Negate_no_match (eval_token n) n ss s1 node operand rest v hch h0 hnone
  · intro op operand rest v s1 hkind hch h0 hnone
    have hP : eval_token (n + 1) ss node
        = Prefix (eval_token n) (dispatch_name (eval_token n) n) ss node := by
      simp [eval_token, hkind]
    rw [hP]
    exact Prefix_no_match (eval_token n) n ss s1 node op operand rest v hch h0 hnone
  · intro hkind hnone
    have hA : eval_token (n + 1) ss node
        = Array_Init (eval_token n) (dispatch_name (eval_token n) n) ss node := by
      simp [eval_token, hkind]
    rw [hA]
    exact Array_Init_no_Vector (eval_token n) n ss node hnone
  · intro pre c rest vec x tmp s0 s1 s2 hkind hch hvec hpre h0 hnone
    have hA : eval_token (n + 1) ss node
        = Array_Init (eval_token n) (dispatch_name (eval_token n) n) ss node := by
      simp [eval_token, hkind]
    rw [hA]
    exact Array_Init_no_push_back_at (eval_token n) n ss s0 s1 s2 node c pre rest vec x tmp
      hch hvec hpre h0 hnone
  · intro callee arg_nodes plb s1 hkind hch hargs hnone
    have hF : eval_token (n + 1) ss node
        = Fun_Call (eval_token n) (dispatch_name (eval_token n) n) ss node := by
      simp [eval_token, hkind]
    rw [hF]
    exact Fun_Call_no_match (eval_token n) n ss s1 node callee arg_nodes plb hch hargs hnone
  · intro recv pre seg rest callee arg_nodes r0 r plb s0 s1 s2 hkind hch hseg h0 hpre hargs
      hnone
    have hM : eval_token (n + 1) ss node
        = Method_Call (eval_token n) (dispatch_name (eval_token n) n) ss node := by
      simp [eval_token, hkind]
    rw [hM]
    exact Method_Call_no_match_at (eval_token n) n ss s0 s1 s2 node recv seg callee pre rest
      arg_nodes r0 r plb hch hseg h0 hpre hargs hnone

/-- Witness of C15 as amended: in `1 + 2 - 3` with `+` registered and `-` not, the first
dispatch returns and the second one throws `EvalError("Can not find appropriate '-'")` at the
token `-`; `-1` without a registered `-` throws
`EvalError("Can not find appropriate negation")` at the operand; and `foo(1)` without `foo`
throws `EvalError("Can not find appropriate 'foo'")`. -/
theorem dispatch_failure_reasons_witness :
    eval_token 8 system_plus expression_sum_minus
        = (Except.error (Thrown.EvalError "Can not find appropriate '-'"
            (some (leaf "-" TokenType.Operator 6))),
          ⟨[Payload.int 1, Payload.int 2, Payload.int 3, Payload.int 3], [[]],
            [("+", native_plus)]⟩) ∧
    eval_token 8 empty_system negate_1
        = (Except.error (Thrown.EvalError "Can not find appropriate negation"
            (some (negate_1.descend [0]))), ⟨[Payload.int 1], [[]], []⟩) ∧
    eval_token 8 empty_system call_foo_1
        = (Except.error (Thrown.EvalError "Can not find appropriate 'foo'"
            (some (leaf "foo" TokenType.Identifier 0))), ⟨[Payload.int 1], [[]], []⟩) :=
  ⟨(dispatch_failure_reasons 7 system_plus expression_sum_minus).1
      (expression_sum_minus.descend [0])
      [(leaf "+" TokenType.Operator 2, expression_sum_minus.descend [2])]
      (leaf "-" TokenType.Operator 6) (expression_sum_minus.descend [4]) []
      ⟨0⟩ ⟨2⟩ ⟨3⟩ ⟨[Payload.int 1], [[]], [("+", native_plus)]⟩
      ⟨[Payload.int 1, Payload.int 2, Payload.int 3], [[]], [("+", native_plus)]⟩
      ⟨[Payload.int 1, Payload.int 2, Payload.int 3, Payload.int 3], [[]],
        [("+", native_plus)]⟩
      (Or.inr (Or.inl rfl)) rfl rfl rfl rfl
      (fun f hf => absurd hf (List.not_mem_nil f)),
   (dispatch_failure_reasons 7 empty_system negate_1).2.2.2.1 (negate_1.descend [0]) []
      ⟨0⟩ ⟨[Payload.int 1], [[]], []⟩ rfl rfl rfl
      (fun f hf => absurd hf (List.not_mem_nil f)),
   (dispatch_failure_reasons 7 empty_system call_foo_1).2.2.2.2.2.2.2.1
      (leaf "foo" TokenType.Identifier 0) [call_foo_1.descend [1]] [⟨0⟩]
      ⟨[Payload.int 1], [[]], []⟩ rfl rfl rfl
      (fun f hf => absurd hf (List.not_mem_nil f))⟩

/-- C15 as stated fails: for `-1` in a system without any function the dispatched name is
`-`, no entry matches, and the reason of the `EvalError` is
`Can not find appropriate negation`, which is not `Can not find appropriate '-'`. -/
theorem negate_failure_reason_differs :
    negate_1.identifier = TokenType.Negate ∧
    empty_system.get_function "-" = [] ∧
    eval_token 8 empty_system negate_1
        = (Except.error (Thrown.EvalError "Can not find appropriate negation"
            (some (negate_1.descend [0]))), ⟨[Payload.int 1], [[]], []⟩) ∧
    "Can not find appropriate negation" ≠ "Can not find appropriate '" ++ "-" ++ "'" :=
  ⟨rfl, rfl, rfl, by decide⟩

/-! ## Method calls -/

theorem eval_args_acc (ev : BoxedCPP_System → Token → Result) :
    ∀ (cs : List Token) (pre : List Boxed_Value) (ss : BoxedCPP_System),
      eval_args ev cs pre ss
        = andThen (eval_args ev cs [] ss) (fun vals s => (Except.ok (pre ++ vals), s)) := by
  intro cs
  induction cs with
  | nil => intro pre ss; simp [eval_args, andThen_ok]
  | cons c cs ih =>
    intro pre ss
    rw [eval_args, eval_args, andThen_assoc]
    congr 1
    funext v s
    rw [ih (pre ++ [v]) s, ih ([] ++ [v]) s, andThen_assoc]
    congr 1
    funext vals s1
    simp [andThen_ok]

theorem Method_Call_loop_eq_method_fold (ev : BoxedCPP_System → Token → Result)
    (disp : String → List Boxed_Value → BoxedCPP_System → Result) (first : Token) :
    ∀ (segs : List Token) (calls : List (Token × List Token)),
      List.Forall₂ (fun seg call => seg.children = call.1 :: call.2) segs calls →
      ∀ (r : Boxed_Value) (ss : BoxedCPP_System),
        Method_Call_loop ev disp first segs r ss = method_fold ev disp first calls r ss := by
  intro segs calls h
  induction h with
  | nil => intro r ss; rfl
  | @cons seg call segs calls hseg _ ih =>
    intro r ss
    obtain ⟨name, args⟩ := call
    simp only at hseg
    rw [Method_Call_loop, method_fold, hseg]
    simp only [List.drop_succ_cons, List.drop_zero]
    rw [eval_args_acc ev args [r] ss, andThen_assoc]
    congr 1
    funext vals s1
    rw [andThen_ok, with_child_some _ 0 _ _ name (by simp)]
    congr 1
    funext r1 s2
    exact ih r1 s2

/-- C13: a `Method_Call` node `[recv, call_1, ..., call_n]` with `call_i = [name_i,
args_i...]` evaluates the receiver and then, segment by segment from left to right, the
arguments of the segment and dispatches `name_i` on the previous result followed by the
evaluated arguments.  In particular `a.f(x...)` and the function call `f(a, x...)` both
evaluate `a, x...` in this order and dispatch the same name on the same argument vector. -/
theorem method_call_is_fold (n : Nat) (ss : BoxedCPP_System) (node recv : Token)
    (segs : List Token) (calls : List (Token × List Token))
    (hkind : node.identifier = TokenType.Method_Call)
    (hchildren : node.children = recv :: segs)
    (hsegs : List.Forall₂ (fun seg call => seg.children = call.1 :: call.2) segs calls) :
    eval_token (n + 1) ss node
        = andThen (eval_token n ss recv) (fun r0 ss1 =>
            method_fold (eval_token n) (dispatch_name (eval_token n) n) recv calls r0 ss1) ∧
    (∀ name args fnode, calls = [(name, args)] →
      fnode.identifier = TokenType.Fun_Call → fnode.children = name :: recv :: args →
      eval_token (n + 1) ss node
          = andThen (eval_args (eval_token n) (recv :: args) [] ss) (fun plb ss1 =>
              call_site (dispatch_name (eval_token n) n) name.text recv plb ss1) ∧
      eval_token (n + 1) ss fnode
          = andThen (eval_args (eval_token n) (recv :: args) [] ss) (fun plb ss1 =>
              call_site (dispatch_name (eval_token n) n) name.text name plb ss1)) := by
  have hM : eval_token (n + 1) ss node
      = Method_Call (eval_token n) (dispatch_name (eval_token n) n) ss node := by
    simp [eval_token, hkind]
  have main : eval_token (n + 1) ss node
        = andThen (eval_token n ss recv) (fun r0 ss1 =>
            method_fold (eval_token n) (dispatch_name (eval_token n) n) recv calls r0
              ss1) := by
    rw [hM, Method_Call, hchildren, with_child_some _ 0 _ _ recv (by simp)]
    congr 1
    funext r0 ss1
    simp only [List.drop_succ_cons, List.drop_zero]
    exact Method_Call_loop_eq_method_fold (eval_token n) (dispatch_name (eval_token n) n)
      recv segs calls hsegs r0 ss1
  refine ⟨main, ?_⟩
  intro name args fnode hcalls hfkind hfch
  subst hcalls
  constructor
  · rw [main, eval_args, andThen_assoc]
    congr 1
    funext r0 ss1
    rw [method_fold, eval_args_acc (eval_token n) args ([] ++ [r0]) ss1, andThen_assoc]
    congr 1
    funext vals s1
    simp only [method_fold, andThen_ok, List.nil_append, List.singleton_append]
    exact andThen_pure _
  · have hF : eval_token (n + 1) ss fnode
        = Fun_Call (eval_token n) (dispatch_name (eval_token n) n) ss fnode := by
      simp [eval_token, hfkind]
    rw [hF, Fun_Call, hfch]
    simp only [List.drop_succ_cons, List.drop_zero]
    rfl

/-- Witness of C13: `x.add(2).add(3)` with `x` holding 1 and `add` the host addition
dispatches `add(x, 2)` and then `add` on that result and 3: the value is a box holding 6. -/
theorem method_call_is_fold_witness :
    ∃ v s1, eval_token 9 system_add method_chain = (Except.ok v, s1) ∧
      s1.payload v = some (Payload.int 6) :=
  ⟨_, _,
    (method_call_is_fold 8 system_add method_chain (method_chain.descend [0])
      [method_chain.descend [1], method_chain.descend [2]]
      [((method_chain.descend [1]).descend [0], [(method_chain.descend [1]).descend [1]]),
       ((method_chain.descend [2]).descend [0], [(method_chain.descend [2]).descend [1]])]
      rfl rfl
      (List.Forall₂.cons rfl (List.Forall₂.cons rfl List.Forall₂.nil))).1.trans rfl,
    rfl⟩

/-! ## The top-level boundary `evaluate_string` -/

/-- C17, as amended: a `Break` node raises a `BreakLoop` signal located at the node, and
`evaluate_string` has no handler for it: whenever the evaluation of a top-level form ends
with a `BreakLoop` signal, the signal leaves `evaluate_string`; no `EvalError` is reported and
no value is returned. -/
theorem evaluate_string_break_escapes (fuel : Nat) (lexer : Lexer) (parser : Rule)
    (ss : BoxedCPP_System) (input filename : String) (tokens : List Token) :
    (∀ n s node, node.identifier = TokenType.Break →
      eval_token (n + 1) s node = (Except.error (Thrown.BreakLoop node), s)) ∧
    (∀ tree location s1,
      strip_quotes (lexer.lex input filename) = some tokens →
      parse fuel parser tokens filename = Except.ok tree →
      eval_token fuel (ss.box Payload.void).2 tree
        = (Except.error (Thrown.BreakLoop location), s1) →
      evaluate_string fuel lexer parser ss input filename
        = (Except.error (Thrown.BreakLoop location), s1)) := by
  constructor
  · intro n s node hkind
    simp [eval_token, hkind]
  · intro tree location s1 hstrip hparse heval
    simp only [evaluate_string, evaluate_string_with, hstrip, hparse, heval]

/-- Witness of C17 as amended: the input `break` parses, its evaluation ends with a
`BreakLoop` signal, and the signal leaves `evaluate_string`. -/
theorem evaluate_string_break_escapes_witness :
    evaluate_string 200 (lexer_of tokens_break) build_parser_rules empty_system
        "break" "test.chai"
      = (Except.error (Thrown.BreakLoop ((parsed tokens_break).descend [0, 0, 0, 0, 0, 0, 0])),
          ⟨[Payload.void, Payload.void], [[]], []⟩) :=
  (evaluate_string_break_escapes 200 (lexer_of tokens_break) build_parser_rules empty_system
    "break" "test.chai" tokens_break).2 (parsed tokens_break)
    ((parsed tokens_break).descend [0, 0, 0, 0, 0, 0, 0])
    ⟨[Payload.void, Payload.void], [[]], []⟩ rfl rfl rfl

/-- C17 as stated fails: on the input `break`, with no enclosing loop, `evaluate_string` does
not return the empty value and reports no `EvalError`: it ends with the `BreakLoop` signal
raised at the `Break` node. -/
theorem evaluate_string_break_not_eval_error :
    ((parsed tokens_break).descend [0, 0, 0, 0, 0, 0, 0]).identifier = TokenType.Break ∧
    evaluate_string 200 (lexer_of tokens_break) build_parser_rules empty_system
        "break" "test.chai"
      = (Except.error (Thrown.BreakLoop ((parsed tokens_break).descend [0, 0, 0, 0, 0, 0, 0])),
          ⟨[Payload.void, Payload.void], [[]], []⟩) :=
  ⟨rfl, rfl⟩

/-- C20 at the failing input: after `var x; def f(x) { }` the entry of `f` is a dynamic proxy
without a declared arity, so `dispatch` routes the call `f()` with an empty argument vector
to it, and `eval_function` reads `vals[0]` past the end of the vector. -/
theorem function_call_reads_past_arguments :
    (∃ body, system_var_x_def_f.get_function "f"
      = [Proxy_Function.dynamic (Dynamic.eval_function body ["x"]) none]) ∧
    (∀ s, (bind_params ["x"] 0 [] s).1 = Except.error Thrown.undefined_behaviour) ∧
    (evaluate_string 200 (lexer_of tokens_call_f_0) build_parser_rules system_var_x_def_f
      "f()" "test.chai").1 = Except.error Thrown.undefined_behaviour :=
  ⟨⟨_, rfl⟩, fun _ => rfl, rfl⟩

/-! ## Integer literals -/

/-- What `atoi` needs to know of a decimal digit character. -/
theorem digit_char_facts (c : Char) (h : is_digit_char c) :
    c.isDigit = true ∧ c ≠ '-' ∧ c ≠ '+' ∧ c ≠ ' ' ∧ c ≠ '\t' ∧ c ≠ '\n' ∧ c ≠ '\r' ∧
      c.toNat ≠ 11 ∧ c.toNat ≠ 12 ∧ 48 ≤ c.toNat ∧ c.toNat - 48 < 10 := by
  obtain ⟨d, hd, rfl⟩ := h
  interval_cases d <;> decide

/-- Taking while a predicate holds keeps a list on which it holds everywhere. -/
theorem takeWhile_all {α : Type} (p : α → Bool) : ∀ l : List α, (∀ x ∈ l, p x = true) → l.takeWhile p = l := by
  intro l
  induction l with
  | nil => intro _; rfl
  | cons a t ih =>
    intro h
    rw [List.takeWhile_cons, h a (List.mem_cons_self _ _), ih (fun x hx => h x (List.mem_cons_of_mem _ hx))]
    rfl

/-- On a non-empty text of decimal digits `atoi` reads all of it. -/
theorem atoi_digits (c : Char) (t : List Char) (hc : is_digit_char c)
    (ht : ∀ x ∈ t, is_digit_char x) :
    atoi (String.mk (c :: t))
      = (((c :: t).foldl (fun acc x => 10 * acc + (x.toNat - 48)) 0 : Nat) : Int) := by
  obtain ⟨h1, h2, h3, h4, h5, h6, h7, h8, h9, _, _⟩ := digit_char_facts c hc
  have hall : ∀ x ∈ c :: t, x.isDigit = true := by
    intro x hx
    rcases List.mem_cons.mp hx with rfl | hx
    · exact h1
    · exact (digit_char_facts x (ht x hx)).1
  unfold atoi
  simp only [List.dropWhile_cons, h4, h5, h6, h7, h8, h9, decide_False, Bool.or_false, Bool.false_eq_true, if_false, takeWhile_all _ _ hall]
  split
  · rename_i heq; simp at heq; exact absurd heq.1 h2
  · rename_i heq; simp at heq; exact absurd heq.1 h3
  · rfl

/-- The digits `Nat.toDigitsCore` puts in front of `ds` are decimal digits, at least one, and
denote `n`. -/
theorem toDigitsCore_spec :
    ∀ (fuel n : Nat) (ds : List Char), n < fuel →
      ∃ pre, Nat.toDigitsCore 10 fuel n ds = pre ++ ds ∧ pre ≠ [] ∧
        (∀ c ∈ pre, is_digit_char c) ∧
        ∀ a, digits_value pre a = a * 10 ^ pre.length + n := by
  intro fuel
  induction fuel with
  | zero => intro n ds h; omega
  | succ fuel ih =>
    intro n ds h
    have hmod : n % 10 < 10 := Nat.mod_lt n (by decide)
    have hd : is_digit_char (Nat.digitChar (n % 10)) := ⟨n % 10, hmod, rfl⟩
    have hval : (Nat.digitChar (n % 10)).toNat - 48 = n % 10 := by
      generalize n % 10 = d at hmod
      interval_cases d <;> rfl
    by_cases h0 : n / 10 = 0
    · refine ⟨[Nat.digitChar (n % 10)], ?_, by simp, ?_, ?_⟩
      · simp [Nat.toDigitsCore, h0]
      · intro c hc
        rw [List.mem_singleton.mp hc]; exact hd
      · intro a
        have hn : n % 10 = n := Nat.mod_eq_of_lt (by omega)
        simp only [digits_value, List.foldl_cons, List.foldl_nil, hval, List.length_singleton,
          pow_one]
        omega
    · have hlt : n / 10 < fuel := by omega
      obtain ⟨pre, hpre, _, hdig, hv⟩ := ih (n / 10) (Nat.digitChar (n % 10) :: ds) hlt
      refine ⟨pre ++ [Nat.digitChar (n % 10)], ?_, by simp, ?_, ?_⟩
      · simp [Nat.toDigitsCore, h0, hpre]
      · intro c hc
        rcases List.mem_append.mp hc with hc | hc
        · exact hdig c hc
        · rw [List.mem_singleton.mp hc]; exact hd
      · intro a
        have := hv a
        simp only [digits_value] at this
        simp only [digits_value, List.foldl_append, List.foldl_cons, List.foldl_nil, this, hval,
          List.length_append, List.length_singleton, pow_succ]
        have := Nat.div_add_mod n 10
        ring_nf
        ring_nf at this
        omega

/-- Leading zeros denote zero. -/
theorem digits_value_zeros (k : Nat) : digits_value (List.replicate k '0') 0 = 0 := by
  induction k with
  | zero => rfl
  | succ k ih =>
    rw [List.replicate_succ', digits_value, List.foldl_append]
    simp only [digits_value] at ih
    rw [ih]
    rfl

/-- The function `atoi` reads every decimal spelling of `n` as `n`. -/
theorem atoi_decimal_spelling (zeros n : Nat) : atoi (decimal_spelling zeros n) = (n : Int) := by
  obtain ⟨pre, hpre, hne, hdig, hv⟩ := toDigitsCore_spec (n + 1) n [] (Nat.lt_succ_self n)
  rw [List.append_nil] at hpre
  have hall : ∀ x ∈ List.replicate zeros '0' ++ pre, is_digit_char x := by
    intro x hx
    rcases List.mem_append.mp hx with hx | hx
    · rw [(List.mem_replicate.mp hx).2]; exact ⟨0, by decide, rfl⟩
    · exact hdig x hx
  have hval : digits_value (List.replicate zeros '0' ++ pre) 0 = n := by
    rw [digits_value, List.foldl_append]
    have h0 := digits_value_zeros zeros
    rw [digits_value] at h0
    rw [h0]
    have := hv 0
    rw [digits_value] at this
    rw [this]
    simp
  have htext : decimal_spelling zeros n = String.mk (List.replicate zeros '0' ++ pre) := by
    rw [decimal_spelling, Nat.toDigits, hpre]
  rw [htext]
  cases hl : List.replicate zeros '0' ++ pre with
  | nil =>
    have := congrArg List.length hl
    simp at this
    exact absurd this.2 hne
  | cons c t =>
    rw [hl] at hall hval
    rw [atoi_digits c t (hall c (List.mem_cons_self _ _))
      (fun x hx => hall x (List.mem_cons_of_mem _ hx))]
    rw [digits_value] at hval
    rw [hval]

/-- C18: for every natural number `n` below `2^31` and every decimal spelling of `n`, leading
zeros allowed, evaluating an `Integer` token with that text returns a new box holding the host
integer `n`; the scope stack, the registry and the cells that existed before are unchanged. -/
theorem integer_literal_round_trip (k : Nat) (ss : BoxedCPP_System) (node : Token)
    (zeros n : Nat) (hkind : node.identifier = TokenType.Integer)
    (htext : node.text = decimal_spelling zeros n) (hn : n < 2 ^ 31) :
    eval_token (k + 1) ss node
        = (Except.ok ⟨ss.store.length⟩, { ss with store := ss.store ++ [Payload.int n] }) ∧
    ∃ v s1, eval_token (k + 1) ss node = (Except.ok v, s1) ∧
      s1.payload v = some (Payload.int n) ∧ s1.scopes = ss.scopes ∧
      s1.functions = ss.functions := by
  have hlo : ¬ ((n : Int) < -2147483648 ∨ 2147483647 < (n : Int)) := by
    have : n < 2147483648 := by simpa using hn
    omega
  have h : eval_token (k + 1) ss node
      = (Except.ok ⟨ss.store.length⟩, { ss with store := ss.store ++ [Payload.int n] }) := by
    simp only [eval_token, hkind, htext, atoi_decimal_spelling, if_neg hlo, BoxedCPP_System.box]
  refine ⟨h, _, _, h, ?_, rfl, rfl⟩
  simp [BoxedCPP_System.payload]

/-- Witness of C18: the token `42` evaluates to a box holding the integer 42, and so does the
spelling `042`. -/
theorem integer_literal_round_trip_witness :
    (leaf "42" TokenType.Integer 0).text = decimal_spelling 0 42 ∧
    eval_token 1 empty_system (leaf "42" TokenType.Integer 0)
      = (Except.ok ⟨0⟩, ⟨[Payload.int 42], [[]], []⟩) :=
  ⟨rfl, (integer_literal_round_trip 0 empty_system (leaf "42" TokenType.Integer 0) 0 42 rfl rfl
    (by decide)).1⟩

/-! ## Unary minus -/

theorem run_rule_Seq (g : Rule) (n : Nat) (a b : RuleBody) (ts : List Token) :
    run_rule g (n + 1) (RuleBody.Seq a b) ts
      = match run_rule g n a ts with
        | Match.matched rest cs =>
          match run_rule g n b rest with
          | Match.matched rest2 cs2 => Match.matched rest2 (cs ++ cs2)
          | other => other
        | other => other := rfl

theorem run_rule_Alt (g : Rule) (n : Nat) (a b : RuleBody) (ts : List Token) :
    run_rule g (n + 1) (RuleBody.Alt a b) ts
      = match run_rule g n a ts with
        | Match.failed => run_rule g n b ts
        | other => other := rfl

theorem run_rule_Star (g : Rule) (n : Nat) (a : RuleBody) (ts : List Token) :
    run_rule g (n + 1) (RuleBody.Star a) ts
      = star_loop (run_rule g n a) (ts.length + 1) ts [] := rfl

theorem run_rule_Plus (g : Rule) (n : Nat) (a : RuleBody) (ts : List Token) :
    run_rule g (n + 1) (RuleBody.Plus a) ts
      = match run_rule g n a ts with
        | Match.matched rest cs => star_loop (run_rule g n a) (rest.length + 1) rest cs
        | other => other := rfl

theorem run_rule_Opt (g : Rule) (n : Nat) (a : RuleBody) (ts : List Token) :
    run_rule g (n + 1) (RuleBody.Opt a) ts
      = match run_rule g n a ts with
        | Match.failed => Match.matched ts []
        | other => other := rfl

theorem run_rule_Ign (g : Rule) (n : Nat) (a : RuleBody) (ts : List Token) :
    run_rule g (n + 1) (RuleBody.Ign a) ts
      = match run_rule g n a ts with
        | Match.matched rest _ => Match.matched rest []
        | other => other := rfl

theorem run_rule_Wrap (g : Rule) (n : Nat) (a : RuleBody) (ts : List Token) :
    run_rule g (n + 1) (RuleBody.Wrap a) ts = run_rule g n a ts := rfl

theorem run_rule_Id (g : Rule) (n : Nat) (k : TokenType) (ts : List Token) :
    run_rule g (n + 1) (RuleBody.Id k) ts
      = match ts with
        | t :: rest => if t.identifier = k then Match.matched rest [t] else Match.failed
        | [] => Match.failed := rfl

theorem run_rule_Str (g : Rule) (n : Nat) (s : String) (ts : List Token) :
    run_rule g (n + 1) (RuleBody.Str s) ts
      = match ts with
        | t :: rest => if t.text = s then Match.matched rest [t] else Match.failed
        | [] => Match.failed := rfl

theorem run_rule_Ref (g : Rule) (n : Nat) (name : RuleName) (ts : List Token) :
    run_rule g (n + 1) (RuleBody.Ref name) ts
      = match g.body name with
        | none => Match.failed
        | some b =>
          match g.kind name with
          | none => run_rule g n b ts
          | some k =>
            match run_rule g n b ts with
            | Match.matched rest cs => Match.matched rest [fresh_node k ts rest cs]
            | other => other := rfl

/-- A repetition whose body gives the same results with more fuel gives the same result. -/
theorem star_loop_mono (f f1 : List Token → Match)
    (h : ∀ ts res, f ts = res → res ≠ Match.out_of_fuel → f1 ts = res) :
    ∀ k ts acc res, star_loop f k ts acc = res → res ≠ Match.out_of_fuel →
      star_loop f1 k ts acc = res := by
  intro k
  induction k with
  | zero => intro ts acc res hr hne; rw [star_loop] at hr; exact absurd hr.symm hne
  | succ k ih =>
    intro ts acc res hr hne
    rw [star_loop] at hr ⊢
    cases hf : f ts with
    | matched rest cs =>
      rw [hf] at hr
      rw [h ts _ hf (by simp)]
      exact ih _ _ _ hr hne
    | failed =>
      rw [hf] at hr
      rw [h ts _ hf (by simp)]
      exact hr
    | out_of_fuel =>
      rw [hf] at hr
      exact absurd hr.symm hne

/-- More fuel does not change a result that was reached. -/
theorem run_rule_mono (g : Rule) :
    ∀ n r ts res, run_rule g n r ts = res → res ≠ Match.out_of_fuel →
      run_rule g (n + 1) r ts = res := by
  intro n
  induction n with
  | zero => intro r ts res hr hne; rw [run_rule] at hr; exact absurd hr.symm hne
  | succ n ih =>
    intro r ts res hr hne
    cases r with
    | Seq a b =>
      rw [run_rule_Seq] at hr ⊢
      cases ha : run_rule g n a ts with
      | matched rest cs =>
        rw [ha] at hr
        rw [ih a ts _ ha (by simp)]
        dsimp only at hr ⊢
        cases hb : run_rule g n b rest with
        | matched rest2 cs2 =>
          rw [hb] at hr
          rw [ih b rest _ hb (by simp)]
          exact hr
        | failed =>
          rw [hb] at hr
          rw [ih b rest _ hb (by simp)]
          exact hr
        | out_of_fuel =>
          rw [hb] at hr
          exact absurd hr.symm hne
      | failed =>
        rw [ha] at hr
        rw [ih a ts _ ha (by simp)]
        exact hr
      | out_of_fuel =>
        rw [ha] at hr
        exact absurd hr.symm hne
    | Alt a b =>
      rw [run_rule_Alt] at hr ⊢
      cases ha : run_rule g n a ts with
      | matched rest cs =>
        rw [ha] at hr
        rw [ih a ts _ ha (by simp)]
        exact hr
      | failed =>
        rw [ha] at hr
        rw [ih a ts _ ha (by simp)]
        exact ih b ts _ hr hne
      | out_of_fuel =>
        rw [ha] at hr
        exact absurd hr.symm hne
    | Star a =>
      rw [run_rule_Star] at hr ⊢
      exact star_loop_mono _ _ (ih a) _ _ _ _ hr hne
    | Plus a =>
      rw [run_rule_Plus] at hr ⊢
      cases ha : run_rule g n a ts with
      | matched rest cs =>
        rw [ha] at hr
        rw [ih a ts _ ha (by simp)]
        exact star_loop_mono _ _ (ih a) _ _ _ _ hr hne
      | failed =>
        rw [ha] at hr
        rw [ih a ts _ ha (by simp)]
        exact hr
      | out_of_fuel =>
        rw [ha] at hr
        exact absurd hr.symm hne
    | Opt a =>
      rw [run_rule_Opt] at hr ⊢
      cases ha : run_rule g n a ts with
      | matched rest cs =>
        rw [ha] at hr
        rw [ih a ts _ ha (by simp)]
        exact hr
      | failed =>
        rw [ha] at hr
        rw [ih a ts _ ha (by simp)]
        exact hr
      | out_of_fuel =>
        rw [ha] at hr
        exact absurd hr.symm hne
    | Ign a =>
      rw [run_rule_Ign] at hr ⊢
      cases ha : run_rule g n a ts with
      | matched rest cs =>
        rw [ha] at hr
        rw [ih a ts _ ha (by simp)]
        exact hr
      | failed =>
        rw [ha] at hr
        rw [ih a ts _ ha (by simp)]
        exact hr
      | out_of_fuel =>
        rw [ha] at hr
        exact absurd hr.symm hne
    | Wrap a =>
      rw [run_rule_Wrap] at hr ⊢
      exact ih a ts _ hr hne
    | Id k =>
      rw [run_rule_Id] at hr ⊢
      exact hr
    | Str s =>
      rw [run_rule_Str] at hr ⊢
      exact hr
    | Ref name =>
      rw [run_rule_Ref] at hr ⊢
      cases hb : g.body name with
      | none => rw [hb] at hr; exact hr
      | some b =>
        rw [hb] at hr
        dsimp only at hr ⊢
        cases hk : g.kind name with
        | none =>
          rw [hk] at hr
          exact ih b ts _ hr hne
        | some k =>
          rw [hk] at hr
          dsimp only at hr ⊢
          cases ha : run_rule g n b ts with
          | matched rest cs =>
            rw [ha] at hr
            rw [ih b ts _ ha (by simp)]
            exact hr
          | failed =>
            rw [ha] at hr
            rw [ih b ts _ ha (by simp)]
            exact hr
          | out_of_fuel =>
            rw [ha] at hr
            exact absurd hr.symm hne

theorem run_rule_mono_add (g : Rule) (k n : Nat) (r : RuleBody) (ts : List Token) (res : Match)
    (hr : run_rule g n r ts = res) (hne : res ≠ Match.out_of_fuel) :
    run_rule g (n + k) r ts = res := by
  induction k with
  | zero => exact hr
  | succ k ih => exact run_rule_mono g (n + k) r ts res ih hne

theorem build_parser_rules_body_eq : build_parser_rules.body = build_parser_rules_body := rfl

theorem build_parser_rules_kind_eq : build_parser_rules.kind = build_parser_rules_kind := rfl

theorem value_fails_on_minus (m : Nat) (minus : Token) (rest : List Token)
    (htext : minus.text = "-") (hkind : minus.identifier = TokenType.Operator) :
    run_rule build_parser_rules (m + 20) (RuleBody.Ref RuleName.value) (minus :: rest)
      = Match.failed := by
  simp [run_rule_Seq, run_rule_Alt, run_rule_Star, run_rule_Plus, run_rule_Opt, run_rule_Ign,
    run_rule_Wrap, run_rule_Id, run_rule_Str, run_rule_Ref, build_parser_rules,
    build_parser_rules_body, build_parser_rules_kind, seqs, alts, star_loop, htext, hkind]

theorem methodcall_fails_on_minus (m : Nat) (minus : Token) (rest : List Token)
    (htext : minus.text = "-") (hkind : minus.identifier = TokenType.Operator) :
    run_rule build_parser_rules (m + 22) (RuleBody.Ref RuleName.methodcall) (minus :: rest)
      = Match.failed := by
  rw [run_rule_Ref]
  simp only [build_parser_rules_body_eq, build_parser_rules_kind_eq, build_parser_rules_body,
    build_parser_rules_kind, seqs,
    List.foldl, run_rule_Seq]
  rw [value_fails_on_minus m minus rest htext hkind]

theorem arraycall_fails_on_minus (m : Nat) (minus : Token) (rest : List Token)
    (htext : minus.text = "-") (hkind : minus.identifier = TokenType.Operator) :
    run_rule build_parser_rules (m + 22) (RuleBody.Ref RuleName.arraycall) (minus :: rest)
      = Match.failed := by
  rw [run_rule_Ref]
  simp only [build_parser_rules_body_eq, build_parser_rules_kind_eq, build_parser_rules_body,
    build_parser_rules_kind, seqs,
    List.foldl, run_rule_Seq]
  rw [value_fails_on_minus m minus rest htext hkind]

theorem negate_of_minus (n : Nat) (minus : Token) (rest r bs : List Token)
    (htext : minus.text = "-")
    (hb : run_rule build_parser_rules (n + 2) (RuleBody.Ref RuleName.boolean) rest
      = Match.matched r bs) :
    run_rule build_parser_rules (n + 4) (RuleBody.Ref RuleName.negate) (minus :: rest)
      = Match.matched r [fresh_node TokenType.Negate (minus :: rest) r bs] := by
  rw [run_rule_Ref]
  simp only [build_parser_rules_body_eq, build_parser_rules_kind_eq, build_parser_rules_body,
    build_parser_rules_kind, seqs,
    List.foldl, run_rule_Seq, run_rule_Ign, run_rule_Str, htext, if_true]
  rw [hb]
  rfl

/-- On a `-` token followed by a suffix that `boolean` matches, `factor` takes its fourth
alternative, `negate`, and the Negate node has the nodes of `boolean` as children. -/
theorem factor_of_minus (n : Nat) (minus : Token) (rest r bs : List Token)
    (htext : minus.text = "-") (hkind : minus.identifier = TokenType.Operator)
    (hb : run_rule build_parser_rules n (RuleBody.Ref RuleName.boolean) rest
      = Match.matched r bs) :
    run_rule build_parser_rules (n + 30) (RuleBody.Ref RuleName.factor) (minus :: rest)
      = Match.matched r [fresh_node TokenType.Factor (minus :: rest) r
          [fresh_node TokenType.Negate (minus :: rest) r bs]] := by
  have hb1 := run_rule_mono_add build_parser_rules 24 n _ _ _ hb (by simp)
  have h1 := methodcall_fails_on_minus (n + 2) minus rest htext hkind
  have h2 := arraycall_fails_on_minus (n + 2) minus rest htext hkind
  have h3 := value_fails_on_minus (n + 5) minus rest htext hkind
  have h4 := negate_of_minus (n + 22) minus rest r bs htext hb1
  rw [run_rule_Ref]
  simp only [build_parser_rules_body_eq, build_parser_rules_kind_eq, build_parser_rules_body,
    build_parser_rules_kind, alts,
    List.foldl, run_rule_Alt]
  rw [h1, h2, h3, h4]

theorem parses_from (g : Rule) (r : RuleBody) (ts : List Token) (res : Match)
    (h : parses g r ts res) : ∃ n, ∀ fuel, n ≤ fuel → run_rule g fuel r ts = res := by
  obtain ⟨hne, n, hn⟩ := h
  refine ⟨n, fun fuel hle => ?_⟩
  obtain ⟨k, rfl⟩ := Nat.exists_eq_add_of_le hle
  exact run_rule_mono_add g k n r ts res hn hne

theorem parses_two (g : Rule) (a b : RuleBody) (ta tb : List Token) (ra rb : Match)
    (ha : parses g a ta ra) (hb : parses g b tb rb) :
    ∃ n, run_rule g n a ta = ra ∧ run_rule g n b tb = rb := by
  obtain ⟨na, ha⟩ := parses_from g a ta ra ha
  obtain ⟨nb, hb⟩ := parses_from g b tb rb hb
  exact ⟨na + nb, ha _ (by omega), hb _ (by omega)⟩

theorem parses_Seq (g : Rule) (a b : RuleBody) (ts rest cs rest2 cs2 : List Token)
    (ha : parses g a ts (Match.matched rest cs)) (hb : parses g b rest (Match.matched rest2 cs2)) :
    parses g (RuleBody.Seq a b) ts (Match.matched rest2 (cs ++ cs2)) := by
  obtain ⟨n, h1, h2⟩ := parses_two g a b ts rest _ _ ha hb
  exact ⟨by simp, n + 1, by rw [run_rule_Seq, h1]; dsimp only; rw [h2]⟩

theorem parses_Seq_fail1 (g : Rule) (a b : RuleBody) (ts : List Token)
    (ha : parses g a ts Match.failed) : parses g (RuleBody.Seq a b) ts Match.failed := by
  obtain ⟨_, n, h1⟩ := ha
  exact ⟨by simp, n + 1, by rw [run_rule_Seq, h1]⟩

theorem parses_Seq_fail2 (g : Rule) (a b : RuleBody) (ts rest cs : List Token)
    (ha : parses g a ts (Match.matched rest cs)) (hb : parses g b rest Match.failed) :
    parses g (RuleBody.Seq a b) ts Match.failed := by
  obtain ⟨n, h1, h2⟩ := parses_two g a b ts rest _ _ ha hb
  exact ⟨by simp, n + 1, by rw [run_rule_Seq, h1]; dsimp only; rw [h2]⟩

theorem parses_Alt_left (g : Rule) (a b : RuleBody) (ts rest cs : List Token)
    (ha : parses g a ts (Match.matched rest cs)) :
    parses g (RuleBody.Alt a b) ts (Match.matched rest cs) := by
  obtain ⟨_, n, h1⟩ := ha
  exact ⟨by simp, n + 1, by rw [run_rule_Alt, h1]⟩

theorem parses_Alt_right (g : Rule) (a b : RuleBody) (ts : List Token) (res : Match)
    (ha : parses g a ts Match.failed) (hb : parses g b ts res) :
    parses g (RuleBody.Alt a b) ts res := by
  obtain ⟨n, h1, h2⟩ := parses_two g a b ts ts _ _ ha hb
  exact ⟨hb.1, n + 1, by rw [run_rule_Alt, h1]; exact h2⟩

theorem parses_Star_none (g : Rule) (a : RuleBody) (ts : List Token)
    (ha : parses g a ts Match.failed) : parses g (RuleBody.Star a) ts (Match.matched ts []) := by
  obtain ⟨_, n, h1⟩ := ha
  exact ⟨by simp, n + 1, by rw [run_rule_Star, star_loop, h1]⟩

theorem parses_Star_one (g : Rule) (a : RuleBody) (t : Token) (ts rest cs : List Token)
    (ha : parses g a (t :: ts) (Match.matched rest cs)) (hb : parses g a rest Match.failed) :
    parses g (RuleBody.Star a) (t :: ts) (Match.matched rest cs) := by
  obtain ⟨n, h1, h2⟩ := parses_two g a a (t :: ts) rest _ _ ha hb
  refine ⟨by simp, n + 1, ?_⟩
  rw [run_rule_Star, List.length_cons, star_loop, h1]
  dsimp only
  rw [star_loop, h2]
  rfl

theorem parses_Plus_fail (g : Rule) (a : RuleBody) (ts : List Token)
    (ha : parses g a ts Match.failed) : parses g (RuleBody.Plus a) ts Match.failed := by
  obtain ⟨_, n, h1⟩ := ha
  exact ⟨by simp, n + 1, by rw [run_rule_Plus, h1]⟩

theorem parses_Ign_fail (g : Rule) (a : RuleBody) (ts : List Token)
    (ha : parses g a ts Match.failed) : parses g (RuleBody.Ign a) ts Match.failed := by
  obtain ⟨_, n, h1⟩ := ha
  exact ⟨by simp, n + 1, by rw [run_rule_Ign, h1]⟩

theorem parses_Str (g : Rule) (s : String) (t : Token) (rest : List Token) (h : t.text = s) :
    parses g (RuleBody.Str s) (t :: rest) (Match.matched rest [t]) :=
  ⟨by simp, 1, by rw [run_rule_Str]; exact if_pos h⟩

theorem parses_Str_fail (g : Rule) (s : String) (t : Token) (rest : List Token)
    (h : t.text ≠ s) : parses g (RuleBody.Str s) (t :: rest) Match.failed :=
  ⟨by simp, 1, by rw [run_rule_Str]; exact if_neg h⟩

theorem parses_Str_nil (g : Rule) (s : String) : parses g (RuleBody.Str s) [] Match.failed :=
  ⟨by simp, 1, rfl⟩

theorem parses_Id_fail (g : Rule) (k : TokenType) (t : Token) (rest : List Token)
    (h : t.identifier ≠ k) : parses g (RuleBody.Id k) (t :: rest) Match.failed :=
  ⟨by simp, 1, by rw [run_rule_Id]; exact if_neg h⟩

theorem parses_Id_nil (g : Rule) (k : TokenType) : parses g (RuleBody.Id k) [] Match.failed :=
  ⟨by simp, 1, rfl⟩

theorem parses_Ref (g : Rule) (name : RuleName) (b : RuleBody) (k : TokenType)
    (ts rest cs : List Token) (hbody : g.body name = some b) (hkind : g.kind name = some k)
    (hb : parses g b ts (Match.matched rest cs)) :
    parses g (RuleBody.Ref name) ts (Match.matched rest [fresh_node k ts rest cs]) := by
  obtain ⟨_, n, h1⟩ := hb
  exact ⟨by simp, n + 1, by rw [run_rule_Ref, hbody]; dsimp only; rw [hkind]; dsimp only; rw [h1]⟩

theorem parses_Ref_fail (g : Rule) (name : RuleName) (b : RuleBody)
    (ts : List Token) (hbody : g.body name = some b)
    (hb : parses g b ts Match.failed) :
    parses g (RuleBody.Ref name) ts Match.failed := by
  obtain ⟨_, n, h1⟩ := hb
  refine ⟨by simp, n + 1, ?_⟩
  rw [run_rule_Ref, hbody]
  dsimp only
  cases g.kind name with
  | none => exact h1
  | some k => dsimp only; rw [h1]

theorem foldl_Alt_matched (g : Rule) (ts rest cs : List Token) :
    ∀ (rs : List RuleBody) (r : RuleBody), parses g r ts (Match.matched rest cs) →
      parses g (rs.foldl RuleBody.Alt r) ts (Match.matched rest cs) := by
  intro rs
  induction rs with
  | nil => intro r h; exact h
  | cons x rs ih => intro r h; exact ih _ (parses_Alt_left g r x ts rest cs h)

theorem foldl_Alt_failed (g : Rule) (ts : List Token) :
    ∀ (rs : List RuleBody) (r : RuleBody), parses g r ts Match.failed →
      (∀ x ∈ rs, parses g x ts Match.failed) →
      parses g (rs.foldl RuleBody.Alt r) ts Match.failed := by
  intro rs
  induction rs with
  | nil => intro r h _; exact h
  | cons x rs ih =>
    intro r h hall
    exact ih _ (parses_Alt_right g r x ts _ h (hall x (List.mem_cons_self _ _)))
      (fun y hy => hall y (List.mem_cons_of_mem _ hy))

theorem foldl_Alt_first (g : Rule) (ts rest cs : List Token) :
    ∀ (rs : List RuleBody) (r : RuleBody), parses g r ts Match.failed →
      (∀ x ∈ rs, parses g x ts Match.failed ∨ parses g x ts (Match.matched rest cs)) →
      (∃ x ∈ rs, parses g x ts (Match.matched rest cs)) →
      parses g (rs.foldl RuleBody.Alt r) ts (Match.matched rest cs) := by
  intro rs
  induction rs with
  | nil => intro r _ _ hex; obtain ⟨x, hx, _⟩ := hex; cases hx
  | cons x rs ih =>
    intro r h hall hex
    rcases hall x (List.mem_cons_self _ _) with hx | hx
    · refine ih _ (parses_Alt_right g r x ts _ h hx)
        (fun y hy => hall y (List.mem_cons_of_mem _ hy)) ?_
      obtain ⟨y, hy, hym⟩ := hex
      rcases List.mem_cons.mp hy with rfl | hy
      · obtain ⟨_, n1, h1⟩ := hx
        obtain ⟨_, n2, h2⟩ := hym
        have e1 := run_rule_mono_add g n2 n1 _ _ _ h1 (by simp)
        have e2 := run_rule_mono_add g n1 n2 _ _ _ h2 (by simp)
        rw [Nat.add_comm] at e2
        rw [e1] at e2
        cases e2
      · exact ⟨y, hy, hym⟩
    · exact foldl_Alt_matched g ts rest cs rs _ (parses_Alt_right g r x ts _ h hx)

theorem operator_alternative (g : Rule) (sub : RuleName) (o : String) (op : Token)
    (bs r cs : List Token) (hsub : parses g (RuleBody.Ref sub) bs (Match.matched r cs)) :
    (op.text ≠ o ∧
      parses g (seqs [RuleBody.Str o, RuleBody.Ref sub]) (op :: bs) Match.failed) ∨
    (op.text = o ∧
      parses g (seqs [RuleBody.Str o, RuleBody.Ref sub]) (op :: bs)
        (Match.matched r (op :: cs))) := by
  by_cases h : op.text = o
  · exact Or.inr ⟨h, parses_Seq g _ _ _ _ _ _ _ (parses_Str g o op bs h) hsub⟩
  · exact Or.inl ⟨h, parses_Seq_fail1 g _ _ _ (parses_Str_fail g o op bs h)⟩

theorem operators_fail_nil (g : Rule) (sub : RuleName) (o : String) (ops : List String) :
    parses g (alts ((o :: ops).map fun o => seqs [RuleBody.Str o, RuleBody.Ref sub])) []
      Match.failed := by
  refine foldl_Alt_failed g [] _ _ (parses_Seq_fail1 g _ _ _ (parses_Str_nil g o)) ?_
  intro x hx
  obtain ⟨o1, _, rfl⟩ := List.mem_map.mp hx
  exact parses_Seq_fail1 g _ _ _ (parses_Str_nil g o1)

theorem operators_fail (g : Rule) (sub : RuleName) (o : String) (ops : List String)
    (op : Token) (bs : List Token) (hop : op.text ∉ o :: ops) :
    parses g (alts ((o :: ops).map fun o => seqs [RuleBody.Str o, RuleBody.Ref sub]))
      (op :: bs) Match.failed := by
  refine foldl_Alt_failed g _ _ _ (parses_Seq_fail1 g _ _ _
    (parses_Str_fail g o op bs (fun h => hop (h ▸ List.mem_cons_self _ _)))) ?_
  intro x hx
  obtain ⟨o1, ho1, rfl⟩ := List.mem_map.mp hx
  exact parses_Seq_fail1 g _ _ _
    (parses_Str_fail g o1 op bs (fun h => hop (h ▸ List.mem_cons_of_mem _ ho1)))

theorem operators_match (g : Rule) (sub : RuleName) (o : String) (ops : List String)
    (op : Token) (bs r cs : List Token) (hop : op.text ∈ o :: ops)
    (hsub : parses g (RuleBody.Ref sub) bs (Match.matched r cs)) :
    parses g (alts ((o :: ops).map fun o => seqs [RuleBody.Str o, RuleBody.Ref sub]))
      (op :: bs) (Match.matched r (op :: cs)) := by
  rcases operator_alternative g sub o op bs r cs hsub with ⟨hne, h⟩ | ⟨_, h⟩
  · refine foldl_Alt_first g _ _ _ _ _ h ?_ ?_
    · intro x hx
      obtain ⟨o1, _, rfl⟩ := List.mem_map.mp hx
      rcases operator_alternative g sub o1 op bs r cs hsub with ⟨_, h1⟩ | ⟨_, h1⟩
      · exact Or.inl h1
      · exact Or.inr h1
    · rcases List.mem_cons.mp hop with h0 | h0
      · exact absurd h0 hne
      · refine ⟨_, List.mem_map.mpr ⟨op.text, h0, rfl⟩, ?_⟩
        rcases operator_alternative g sub op.text op bs r cs hsub with ⟨h1, _⟩ | ⟨_, h1⟩
        · exact absurd rfl h1
        · exact h1
  · exact foldl_Alt_matched g _ _ _ _ _ h

theorem level_pass_nil (g : Rule) (name sub : RuleName) (o : String) (ops : List String)
    (k : TokenType) (ts cs : List Token)
    (hbody : g.body name = some (level_body sub (o :: ops))) (hkind : g.kind name = some k)
    (hsub : parses g (RuleBody.Ref sub) ts (Match.matched [] cs)) :
    parses g (RuleBody.Ref name) ts (Match.matched [] [fresh_node k ts [] cs]) := by
  have h := parses_Ref g name _ k ts [] _ hbody hkind
    (parses_Seq g _ _ _ _ _ _ _ hsub (parses_Star_none g _ _ (operators_fail_nil g sub o ops)))
  rw [List.append_nil] at h
  exact h

theorem level_pass_operator (g : Rule) (name sub : RuleName) (o : String) (ops : List String)
    (k : TokenType) (op : Token) (ts bs cs : List Token)
    (hbody : g.body name = some (level_body sub (o :: ops))) (hkind : g.kind name = some k)
    (hop : op.text ∉ o :: ops)
    (hsub : parses g (RuleBody.Ref sub) ts (Match.matched (op :: bs) cs)) :
    parses g (RuleBody.Ref name) ts
      (Match.matched (op :: bs) [fresh_node k ts (op :: bs) cs]) := by
  have h := parses_Ref g name _ k ts (op :: bs) _ hbody hkind
    (parses_Seq g _ _ _ _ _ _ _ hsub
      (parses_Star_none g _ _ (operators_fail g sub o ops op bs hop)))
  rw [List.append_nil] at h
  exact h

theorem level_operator (g : Rule) (name sub : RuleName) (o : String) (ops : List String)
    (k : TokenType) (op : Token) (ts bs cs cs2 : List Token)
    (hbody : g.body name = some (level_body sub (o :: ops))) (hkind : g.kind name = some k)
    (hop : op.text ∈ o :: ops)
    (hsub : parses g (RuleBody.Ref sub) ts (Match.matched (op :: bs) cs))
    (hsub2 : parses g (RuleBody.Ref sub) bs (Match.matched [] cs2)) :
    parses g (RuleBody.Ref name) ts
      (Match.matched [] [fresh_node k ts [] (cs ++ op :: cs2)]) :=
  parses_Ref g name _ k ts [] _ hbody hkind
    (parses_Seq g _ _ _ _ _ _ _ hsub
      (parses_Star_one g _ op bs [] _ (operators_match g sub o ops op bs [] cs2 hop hsub2)
        (operators_fail_nil g sub o ops)))

theorem factor_of_value (ts rest va : List Token)
    (hv : parses build_parser_rules (RuleBody.Ref RuleName.value) ts (Match.matched rest va))
    (hrest : ∀ op bs, rest = op :: bs → op.text ≠ "." ∧ op.identifier ≠ TokenType.Square_Open) :
    parses build_parser_rules (RuleBody.Ref RuleName.factor) ts
      (Match.matched rest [fresh_node TokenType.Factor ts rest va]) := by
  have hdot : parses build_parser_rules (RuleBody.Str ".") rest Match.failed := by
    cases rest with
    | nil => exact parses_Str_nil _ _
    | cons op bs => exact parses_Str_fail _ _ _ _ (hrest op bs rfl).1
  have hsq : parses build_parser_rules (RuleBody.Id TokenType.Square_Open) rest
      Match.failed := by
    cases rest with
    | nil => exact parses_Id_nil _ _
    | cons op bs => exact parses_Id_fail _ _ _ _ (hrest op bs rfl).2
  have hmc : parses build_parser_rules (RuleBody.Ref RuleName.methodcall) ts Match.failed :=
    parses_Ref_fail _ _ _ _ rfl (parses_Seq_fail2 _ _ _ _ _ _ hv
      (parses_Plus_fail _ _ _ (parses_Seq_fail1 _ _ _ _ (parses_Ign_fail _ _ _ hdot))))
  have hac : parses build_parser_rules (RuleBody.Ref RuleName.arraycall) ts Match.failed :=
    parses_Ref_fail _ _ _ _ rfl (parses_Seq_fail2 _ _ _ _ _ _ hv
      (parses_Plus_fail _ _ _ (parses_Seq_fail1 _ _ _ _ (parses_Seq_fail1 _ _ _ _
        (parses_Ign_fail _ _ _ hsq)))))
  exact parses_Ref _ _ _ _ _ _ _ rfl rfl
    (parses_Alt_left _ _ _ _ _ _ (parses_Alt_left _ _ _ _ _ _ (parses_Alt_left _ _ _ _ _ _
      (parses_Alt_right _ _ _ _ _ (parses_Alt_right _ _ _ _ _ hmc hac) hv))))

theorem parses_factor_of_minus (minus : Token) (rest r bs : List Token)
    (htext : minus.text = "-") (hkind : minus.identifier = TokenType.Operator)
    (hb : parses build_parser_rules (RuleBody.Ref RuleName.boolean) rest (Match.matched r bs)) :
    parses build_parser_rules (RuleBody.Ref RuleName.factor) (minus :: rest)
      (Match.matched r [fresh_node TokenType.Factor (minus :: rest) r
        [fresh_node TokenType.Negate (minus :: rest) r bs]]) := by
  obtain ⟨_, n, hn⟩ := hb
  exact ⟨by simp, n + 30, factor_of_minus n minus rest r bs htext hkind hn⟩

/-- The rule `boolean` matches all of `a op b` and builds the binary tree of the level of
`op`. -/
theorem boolean_of_binary (op : Token) (ts bs va vb : List Token) (level : Nat)
    (hop_kind : op.identifier = TokenType.Operator)
    (hop : operator_level op.text = some level)
    (ha : parses build_parser_rules (RuleBody.Ref RuleName.value) ts
      (Match.matched (op :: bs) va))
    (hb : parses build_parser_rules (RuleBody.Ref RuleName.value) bs (Match.matched [] vb)) :
    parses build_parser_rules (RuleBody.Ref RuleName.boolean) ts
      (Match.matched [] (binary_tree level ts op bs va vb)) := by
  have hdot : op.text ≠ "." := by
    intro h
    have hnone : operator_level "." = none := by decide
    rw [h, hnone] at hop
    cases hop
  have hfa := factor_of_value ts (op :: bs) va ha (by
    intro op1 bs1 h
    cases h
    exact ⟨hdot, by rw [hop_kind]; decide⟩)
  have hfb := factor_of_value bs [] vb hb (by intro op1 bs1 h; cases h)
  have htb := level_pass_nil build_parser_rules RuleName.term RuleName.factor "*" ["/"]
    TokenType.Term bs _ rfl rfl hfb
  have heb := level_pass_nil build_parser_rules RuleName.expression RuleName.term "+" ["-"]
    TokenType.Expression bs _ rfl rfl htb
  have hcb := level_pass_nil build_parser_rules RuleName.comparison RuleName.expression "=="
    ["!=", "<", "<=", ">", ">="] TokenType.Comparison bs _ rfl rfl heb
  unfold operator_level at hop
  split_ifs at hop with h0 h1 h2 h3
  · cases hop
    have ht := level_operator build_parser_rules RuleName.term RuleName.factor "*" ["/"]
      TokenType.Term op ts bs _ _ rfl rfl h0 hfa hfb
    have he := level_pass_nil build_parser_rules RuleName.expression RuleName.term "+" ["-"]
      TokenType.Expression ts _ rfl rfl ht
    have hc := level_pass_nil build_parser_rules RuleName.comparison RuleName.expression "=="
      ["!=", "<", "<=", ">", ">="] TokenType.Comparison ts _ rfl rfl he
    exact level_pass_nil build_parser_rules RuleName.boolean RuleName.comparison "&&" ["||"]
      TokenType.Boolean ts _ rfl rfl hc
  · cases hop
    have ht := level_pass_operator build_parser_rules RuleName.term RuleName.factor "*" ["/"]
      TokenType.Term op ts bs _ rfl rfl h0 hfa
    have he := level_operator build_parser_rules RuleName.expression RuleName.term "+" ["-"]
      TokenType.Expression op ts bs _ _ rfl rfl h1 ht htb
    have hc := level_pass_nil build_parser_rules RuleName.comparison RuleName.expression "=="
      ["!=", "<", "<=", ">", ">="] TokenType.Comparison ts _ rfl rfl he
    exact level_pass_nil build_parser_rules RuleName.boolean RuleName.comparison "&&" ["||"]
      TokenType.Boolean ts _ rfl rfl hc
  · cases hop
    have ht := level_pass_operator build_parser_rules RuleName.term RuleName.factor "*" ["/"]
      TokenType.Term op ts bs _ rfl rfl h0 hfa
    have he := level_pass_operator build_parser_rules RuleName.expression RuleName.term "+"
      ["-"] TokenType.Expression op ts bs _ rfl rfl h1 ht
    have hc := level_operator build_parser_rules RuleName.comparison RuleName.expression "=="
      ["!=", "<", "<=", ">", ">="] TokenType.Comparison op ts bs _ _ rfl rfl h2 he heb
    exact level_pass_nil build_parser_rules RuleName.boolean RuleName.comparison "&&" ["||"]
      TokenType.Boolean ts _ rfl rfl hc
  · cases hop
    have ht := level_pass_operator build_parser_rules RuleName.term RuleName.factor "*" ["/"]
      TokenType.Term op ts bs _ rfl rfl h0 hfa
    have he := level_pass_operator build_parser_rules RuleName.expression RuleName.term "+"
      ["-"] TokenType.Expression op ts bs _ rfl rfl h1 ht
    have hc := level_pass_operator build_parser_rules RuleName.comparison RuleName.expression
      "==" ["!=", "<", "<=", ">", ">="] TokenType.Comparison op ts bs _ rfl rfl h2 he
    exact level_operator build_parser_rules RuleName.boolean RuleName.comparison "&&" ["||"]
      TokenType.Boolean op ts bs _ _ rfl rfl h3 hc hcb

theorem parses_Ref_plain (g : Rule) (name : RuleName) (b : RuleBody)
    (ts : List Token) (res : Match) (hbody : g.body name = some b) (hkind : g.kind name = none)
    (hb : parses g b ts res) : parses g (RuleBody.Ref name) ts res := by
  obtain ⟨hne, n, h1⟩ := hb
  exact ⟨hne, n + 1, by rw [run_rule_Ref, hbody]; dsimp only; rw [hkind]; exact h1⟩

theorem statement_heads_fail_on_minus (m : Nat) (minus : Token) (rest : List Token)
    (htext : minus.text = "-") (hkind : minus.identifier = TokenType.Operator) :
    run_rule build_parser_rules (m + 30) (RuleBody.Ref RuleName.fundef) (minus :: rest)
      = Match.failed ∧
    run_rule build_parser_rules (m + 30) (RuleBody.Ref RuleName.if_block) (minus :: rest)
      = Match.failed ∧
    run_rule build_parser_rules (m + 30) (RuleBody.Ref RuleName.while_block) (minus :: rest)
      = Match.failed ∧
    run_rule build_parser_rules (m + 30) (RuleBody.Ref RuleName.for_block) (minus :: rest)
      = Match.failed ∧
    run_rule build_parser_rules (m + 30) assignment_targets (minus :: rest) = Match.failed ∧
    run_rule build_parser_rules (m + 30) (RuleBody.Ign (RuleBody.Id TokenType.Semicolon))
      (minus :: rest) = Match.failed := by
  simp [run_rule_Seq, run_rule_Alt, run_rule_Star, run_rule_Plus, run_rule_Opt, run_rule_Ign,
    run_rule_Wrap, run_rule_Id, run_rule_Str, run_rule_Ref, build_parser_rules,
    build_parser_rules_body, build_parser_rules_kind, seqs, alts, star_loop, htext, hkind,
    assignment_targets]

theorem semicolons_fail_nil (g : Rule) :
    parses g (RuleBody.Ign (RuleBody.Id TokenType.Semicolon)) [] Match.failed :=
  parses_Ign_fail g _ _ (parses_Id_nil g _)

/-- The function `parse` on a `-` token followed by a token sequence that `boolean` matches
wholly. -/
theorem parse_of_minus (minus : Token) (ts bs : List Token) (filename : String)
    (htext : minus.text = "-") (hkind : minus.identifier = TokenType.Operator)
    (hb : parses build_parser_rules (RuleBody.Ref RuleName.boolean) ts (Match.matched [] bs)) :
    ∃ fuel0, ∀ fuel, fuel0 ≤ fuel →
      parse fuel build_parser_rules (minus :: ts) filename
        = Except.ok ((Token.mk "Root" TokenType.File filename ⟨0, 0⟩ ⟨0, 0⟩ []).addChildren
            (wrap_levels [TokenType.Negate, TokenType.Factor, TokenType.Term,
              TokenType.Expression, TokenType.Comparison, TokenType.Boolean, TokenType.Equation]
              (minus :: ts) [] bs)) := by
  obtain ⟨h1, h2, h3, h4, h5, h6⟩ := statement_heads_fail_on_minus 0 minus ts htext hkind
  have hf := parses_factor_of_minus minus ts [] bs htext hkind hb
  have ht := level_pass_nil build_parser_rules RuleName.term RuleName.factor "*" ["/"]
    TokenType.Term _ _ rfl rfl hf
  have he := level_pass_nil build_parser_rules RuleName.expression RuleName.term "+" ["-"]
    TokenType.Expression _ _ rfl rfl ht
  have hc := level_pass_nil build_parser_rules RuleName.comparison RuleName.expression "=="
    ["!=", "<", "<=", ">", ">="] TokenType.Comparison _ _ rfl rfl he
  have hbo := level_pass_nil build_parser_rules RuleName.boolean RuleName.comparison "&&" ["||"]
    TokenType.Boolean _ _ rfl rfl hc
  have heq : parses build_parser_rules (RuleBody.Ref RuleName.equation) (minus :: ts) _ :=
    parses_Ref build_parser_rules RuleName.equation
      (RuleBody.Seq (RuleBody.Star assignment_targets) (RuleBody.Ref RuleName.boolean))
      TokenType.Equation _ _ _ rfl rfl
      (parses_Seq _ _ _ _ _ _ _ _ (parses_Star_none _ _ _ ⟨by simp, _, h5⟩) hbo)
  have hst : parses build_parser_rules (RuleBody.Ref RuleName.statement) (minus :: ts) _ :=
    parses_Ref_plain build_parser_rules RuleName.statement _ _ _ rfl rfl
      (parses_Alt_right _ _ _ _ _ (parses_Alt_right _ _ _ _ _ (parses_Alt_right _ _ _ _ _
        ⟨by simp, _, h2⟩ ⟨by simp, _, h3⟩) ⟨by simp, _, h4⟩) heq)
  have hse : parses build_parser_rules (RuleBody.Ref RuleName.source_elem) (minus :: ts) _ :=
    parses_Ref_plain build_parser_rules RuleName.source_elem _ _ _ rfl rfl
      (parses_Alt_right _ _ _ _ _ ⟨by simp, _, h1⟩ hst)
  have hses : parses build_parser_rules (RuleBody.Ref RuleName.source_elems) (minus :: ts) _ :=
    parses_Ref_plain build_parser_rules RuleName.source_elems _ _ _ rfl rfl
      (parses_Seq _ _ _ _ _ _ _ _ hse (parses_Star_none _ _ _
        (parses_Seq_fail1 _ _ _ _ (parses_Plus_fail _ _ _ (semicolons_fail_nil _)))))
  have hrule : parses build_parser_rules (RuleBody.Ref RuleName.rule) (minus :: ts) _ :=
    parses_Ref_plain build_parser_rules RuleName.rule _ _ _ rfl rfl
      (parses_Seq _ _ _ _ _ _ _ _
        (parses_Seq _ _ _ _ _ _ _ _ (parses_Star_none _ _ _ ⟨by simp, _, h6⟩) hses)
        (parses_Star_none _ _ _ (semicolons_fail_nil _)))
  obtain ⟨n, hn⟩ := parses_from _ _ _ _ hrule
  refine ⟨n, fun fuel hle => ?_⟩
  have := hn fuel hle
  unfold parse
  simp only [show build_parser_rules.top = RuleBody.Ref RuleName.rule from rfl]
  rw [this]
  rfl

theorem binary_tree_single (level : Nat) (ts : List Token) (op : Token) (bs va vb : List Token)
    (hop : operator_level op.text = some level) :
    ∃ b, binary_tree level ts op bs va vb = [b] ∧ b.identifier = TokenType.Boolean := by
  unfold operator_level at hop
  split_ifs at hop <;> cases hop <;> exact ⟨_, rfl, rfl⟩

/-- C19: in a token sequence `- a op b`, where `op` is a binary operator of the grammar and
the rule `value` matches `a` up to `op` and all of `b`, the rule `boolean` matches all of
`a op b` into one Boolean node, and `parse` returns the tree in which the Negate node has that
Boolean node as its single child; the evaluator evaluates the single child of a Negate node
and dispatches `-` on that one value. -/
theorem negate_takes_boolean_operand (minus op : Token) (as bs va vb : List Token)
    (level : Nat) (filename : String)
    (hminus : minus.text = "-") (hminus_kind : minus.identifier = TokenType.Operator)
    (hop_kind : op.identifier = TokenType.Operator)
    (hop : operator_level op.text = some level)
    (ha : parses build_parser_rules (RuleBody.Ref RuleName.value) (as ++ op :: bs)
      (Match.matched (op :: bs) va))
    (hb : parses build_parser_rules (RuleBody.Ref RuleName.value) bs (Match.matched [] vb)) :
    (∃ operand, binary_tree level (as ++ op :: bs) op bs va vb = [operand] ∧
      operand.identifier = TokenType.Boolean) ∧
    (∃ fuel0, ∀ fuel, fuel0 ≤ fuel →
      run_rule build_parser_rules fuel (RuleBody.Ref RuleName.boolean) (as ++ op :: bs)
        = Match.matched [] (binary_tree level (as ++ op :: bs) op bs va vb) ∧
      parse fuel build_parser_rules (minus :: (as ++ op :: bs)) filename
        = Except.ok ((Token.mk "Root" TokenType.File filename ⟨0, 0⟩ ⟨0, 0⟩ []).addChildren
            (wrap_levels [TokenType.Negate, TokenType.Factor, TokenType.Term,
              TokenType.Expression, TokenType.Comparison, TokenType.Boolean, TokenType.Equation]
              (minus :: (as ++ op :: bs)) []
              (binary_tree level (as ++ op :: bs) op bs va vb)))) ∧
    (∀ (n : Nat) (ss : BoxedCPP_System) (node operand : Token),
      node.identifier = TokenType.Negate → node.children = [operand] →
      eval_token (n + 1) ss node
        = andThen (eval_token n ss operand) (fun v s1 =>
            catch_std (dispatch_name (eval_token n) n "-" [v] s1)
              (Thrown.EvalError "Can not find appropriate negation" (some operand)))) := by
  have hbool := boolean_of_binary op (as ++ op :: bs) bs va vb level hop_kind hop ha hb
  refine ⟨binary_tree_single level _ op bs va vb hop, ?_, ?_⟩
  · obtain ⟨n1, h1⟩ := parses_from _ _ _ _ hbool
    obtain ⟨n2, h2⟩ := parse_of_minus minus (as ++ op :: bs) _ filename hminus hminus_kind hbool
    exact ⟨n1 + n2, fun fuel hle => ⟨h1 fuel (by omega), h2 fuel (by omega)⟩⟩
  · intro n ss node operand hkind hchildren
    rw [eval_token]
    simp only [hkind]
    rw [Negate, hchildren, with_child_some _ 0 _ _ operand rfl]

/-- Witness of C19: `-1 + 2` parses, the Negate node holds the Boolean node of `1 + 2`, and
with the host `+` and unary `-` the input evaluates to -3. -/
theorem negate_takes_boolean_operand_witness :
    (∃ fuel0, ∀ fuel, fuel0 ≤ fuel →
      parse fuel build_parser_rules tokens_negate_sum "test.chai"
        = Except.ok (parsed tokens_negate_sum)) ∧
    ((parsed tokens_negate_sum).descend [0, 0, 0, 0, 0, 0, 0]).identifier = TokenType.Negate ∧
    ((parsed tokens_negate_sum).descend [0, 0, 0, 0, 0, 0, 0]).children
      = binary_tree 1 (tokens_negate_sum.drop 1) (leaf "+" TokenType.Operator 3)
          [leaf "2" TokenType.Integer 5] [leaf "1" TokenType.Integer 1]
          [leaf "2" TokenType.Integer 5] ∧
    ∃ v s, eval_token 20 system_arith (parsed tokens_negate_sum) = (Except.ok v, s) ∧
      s.payload v = some (Payload.int (-3)) :=
  ⟨(negate_takes_boolean_operand (leaf "-" TokenType.Operator 0) (leaf "+" TokenType.Operator 3)
      [leaf "1" TokenType.Integer 1] [leaf "2" TokenType.Integer 5]
      [leaf "1" TokenType.Integer 1] [leaf "2" TokenType.Integer 5] 1 "test.chai" rfl rfl rfl
      rfl ⟨fun h => Match.noConfusion h, 30, rfl⟩
      ⟨fun h => Match.noConfusion h, 30, rfl⟩).2.1.imp
        (fun _ h fuel hle => (h fuel hle).2),
    rfl, rfl, _, _, rfl, rfl⟩

/-! ## The name table of the token kinds -/

/-- C25 at the failing input: for the kind `Real_Number` (index 33) `tokentype_to_string`
returns `Real Number`, which is not the name of the enumerator, `Real_Number`; for the other
39 kinds it returns the name of the enumerator, and the table has 40 entries without
repetition. -/
theorem tokentype_to_string_real_number :
    tokentype_to_string TokenType.Real_Number.toNat = some "Real Number" ∧
    TokenType.Real_Number.enumerator = "Real_Number" ∧
    tokentype_to_string TokenType.Real_Number.toNat ≠ some TokenType.Real_Number.enumerator ∧
    (∀ k : TokenType, tokentype_to_string k.toNat
      = some (if k = TokenType.Real_Number then "Real Number" else k.enumerator)) ∧
    token_types.length = 40 ∧ token_types.Nodup :=
  ⟨rfl, rfl, by decide, fun k => by cases k <;> rfl, rfl, by decide⟩

/-! ## An `If_Block` in which no arm is taken -/

theorem cast_bool_false_payload (s : BoxedCPP_System) (v : Boxed_Value)
    (h : s.cast_bool v = some false) : s.payload v = some (Payload.bool false) := by
  unfold BoxedCPP_System.cast_bool at h
  split at h
  · rename_i b hb
    cases h
    exact hb
  · cases h

theorem elseif_arms_all_false (ev : BoxedCPP_System → Token → Result) :
    ∀ (arms : List (Token × Token × Token)) (last v : Boxed_Value) (ss s : BoxedCPP_System),
      conditions_false ev (arms.map fun a => a.2.1) last ss = some (v, s) →
      elseif_arms ev arms none last ss = (Except.ok v, s) ∧
        (ss.cast_bool last = some false → s.cast_bool v = some false) := by
  intro arms
  induction arms with
  | nil =>
    intro last v ss s h
    simp only [List.map_nil, conditions_false, Option.some.injEq, Prod.mk.injEq] at h
    obtain ⟨rfl, rfl⟩ := h
    exact ⟨rfl, fun h => h⟩
  | cons a rest ih =>
    intro last v ss s h
    obtain ⟨kw, c, blk⟩ := a
    simp only [List.map_cons, conditions_false] at h
    rcases hev : ev ss c with ⟨r, s1⟩
    rw [hev] at h
    cases r with
    | error e => simp at h
    | ok v1 =>
      simp only at h
      by_cases hc : s1.cast_bool v1 = some false
      · rw [if_pos hc] at h
        obtain ⟨h1, h2⟩ := ih v1 v s1 s h
        refine ⟨?_, fun _ => h2 hc⟩
        rw [elseif_arms, hev, andThen_ok]
        simp only [hc]
        exact h1
      · rw [if_neg hc] at h
        cases h

/-- C24: in an `If_Block` with children `[cond, block, (elseif, cond_i, block_i)*]` and no
`else` pair, when the condition and every `elseif` condition evaluate to a boxed `false`, the
result of the node is the box produced by the last condition evaluated, in the state that
condition left; its payload is the boolean `false`, not the empty payload, and no block is
evaluated. -/
theorem if_block_no_arm_taken (n : Nat) (ss s0 s : BoxedCPP_System)
    (node cond blk : Token) (arms : List (Token × Token × Token)) (v0 v : Boxed_Value)
    (hkind : node.identifier = TokenType.If_Block)
    (hchildren : node.children = cond :: blk :: elseif_children arms)
    (harms : ∀ a ∈ arms, a.1.text = "elseif")
    (hcond : eval_token n ss cond = (Except.ok v0, s0))
    (hfalse : s0.cast_bool v0 = some false)
    (hrest : conditions_false (eval_token n) (arms.map fun a => a.2.1) v0 s0 = some (v, s)) :
    eval_token (n + 1) ss node = (Except.ok v, s) ∧
    s.payload v = some (Payload.bool false) ∧
    s.payload v ≠ some Payload.void ∧
    conditions_false (eval_token n) (cond :: arms.map fun a => a.2.1) v0 ss = some (v, s) := by
  obtain ⟨h1, h2⟩ := elseif_arms_all_false (eval_token n) arms v0 v s0 s hrest
  have hp := cast_bool_false_payload s v (h2 hfalse)
  refine ⟨?_, hp, by rw [hp]; simp, ?_⟩
  · have hI : eval_token (n + 1) ss node = If_Block (eval_token n) ss node := by
      simp [eval_token, hkind]
    rw [hI, If_Block, hchildren, with_child_some _ 0 _ _ cond (by simp), hcond, andThen_ok]
    simp only [hfalse]
    by_cases hlen : (cond :: blk :: elseif_children arms).length > 2
    · rw [if_pos hlen]
      have := If_Block_loop_eq_elseif_arms (eval_token n) none (fun e he => by cases he) arms
        harms [cond, blk] ((cond :: blk :: elseif_children arms).length + 1) v0 s0
        (by
          have : (elseif_children arms).length = 3 * arms.length := by
            clear harms hchildren hlen hrest h1 h2
            induction arms with
            | nil => rfl
            | cons a rest ih => obtain ⟨x, y, z⟩ := a; simp [elseif_children, ih]; omega
          simp [this]; omega)
      simp only [else_children, List.append_nil, List.length_cons, List.length_nil,
        List.cons_append, List.nil_append] at this
      rw [← h1]
      simpa using this
    · rw [if_neg hlen]
      have harms_nil : arms = [] := by
        cases arms with
        | nil => rfl
        | cons a rest => obtain ⟨x, y, z⟩ := a; simp [elseif_children] at hlen
      subst harms_nil
      simp only [List.map_nil, conditions_false, Option.some.injEq, Prod.mk.injEq] at hrest
      obtain ⟨rfl, rfl⟩ := hrest
      rfl
  · simp only [conditions_false, hcond, hfalse, if_true]
    exact hrest

/-- Witness of C24: `if (false) { 1 } elseif (false) { 2 }` evaluates to the box of the
second `false`. -/
theorem if_block_no_arm_taken_witness :
    eval_token 21 empty_system if_false_twice
      = (Except.ok ⟨1⟩, ⟨[Payload.bool false, Payload.bool false], [[]], []⟩) :=
  (if_block_no_arm_taken 20 empty_system ⟨[Payload.bool false], [[]], []⟩
    ⟨[Payload.bool false, Payload.bool false], [[]], []⟩ if_false_twice
    (if_false_twice.descend [0]) (if_false_twice.descend [1])
    [(if_false_twice.descend [2], if_false_twice.descend [3], if_false_twice.descend [4])]
    ⟨0⟩ ⟨1⟩ rfl rfl (fun a ha => by rw [List.mem_singleton.mp ha]; rfl) rfl rfl rfl).1

/-! ## The empty token vector -/

/-- C21 at the failing input: on the empty token vector the top rule of the grammar fails, the
iterator it returns is `tokens.begin()`, which is `tokens.end()`, and `parse` dereferences it
to locate the error; `evaluate_string` on an input without tokens ends the same way.  On a
non-empty vector `parse` never dereferences the end iterator. -/
theorem parse_empty_vector_reads_end_iterator (filename : String) :
    (∀ k, run_rule build_parser_rules (47 + k) build_parser_rules.top [] = Match.failed) ∧
    (∀ k, parse (47 + k) build_parser_rules [] filename
      = Except.error Thrown.undefined_behaviour) ∧
    (evaluate_string 200 (lexer_of []) build_parser_rules empty_system "" "test.chai").1
      = Except.error Thrown.undefined_behaviour ∧
    (∀ fuel rule t ts, parse fuel rule (t :: ts) filename
      ≠ Except.error Thrown.undefined_behaviour) := by
  have h : ∀ k, run_rule build_parser_rules (47 + k) build_parser_rules.top []
      = Match.failed :=
    fun k => run_rule_mono_add build_parser_rules k 47 _ _ _ rfl (fun h => Match.noConfusion h)
  refine ⟨h, fun k => ?_, rfl, ?_⟩
  · rw [parse, h k]
  · intro fuel rule t ts
    rw [parse]
    cases run_rule rule fuel rule.top (t :: ts) with
    | matched rest cs =>
      cases rest with
      | nil => simp
      | cons x xs => simp
    | failed => simp
    | out_of_fuel => simp

/-! ## Termination of the parser -/

theorem rule_well_formed_build_parser_rules (name : RuleName) :
    rule_well_formed build_parser_rules rule_consumes rule_rank name = true := by
  cases name <;> rfl

theorem rule_rank_lt (name : RuleName) : rule_rank name < 13 := by
  cases name <;> decide


theorem star_loop_length (f : List Token → Match)
    (hf : ∀ ts rest cs, f ts = Match.matched rest cs → rest.length ≤ ts.length) :
    ∀ (k : Nat) (ts acc rest cs : List Token),
      star_loop f k ts acc = Match.matched rest cs → rest.length ≤ ts.length := by
  intro k
  induction k with
  | zero => intro ts acc rest cs h; rw [star_loop] at h; cases h
  | succ k ih =>
    intro ts acc rest cs h
    rw [star_loop] at h
    cases hb : f ts with
    | matched r1 c1 =>
      rw [hb] at h
      exact Nat.le_trans (ih _ _ _ _ h) (hf _ _ _ hb)
    | failed =>
      rw [hb] at h
      cases h
      exact Nat.le_refl _
    | out_of_fuel => rw [hb] at h; cases h

/-- A match never leaves more tokens than it started with, and leaves fewer when the rule body
is one that `consumes` marks. -/
theorem run_rule_length (g : Rule) (nn : RuleName → Bool)
    (hnn : ∀ name b, g.body name = some b → nn name = true → consumes nn b = true) :
    ∀ (n : Nat) (r : RuleBody) (ts rest cs : List Token),
      run_rule g n r ts = Match.matched rest cs →
        rest.length ≤ ts.length ∧ (consumes nn r = true → rest.length < ts.length) := by
  intro n
  induction n with
  | zero => intro r ts rest cs h; rw [run_rule] at h; cases h
  | succ n ih =>
    intro r ts rest cs h
    cases r with
    | Seq a b =>
      rw [run_rule_Seq] at h
      cases ha : run_rule g n a ts with
      | matched r1 c1 =>
        rw [ha] at h
        dsimp only at h
        cases hb : run_rule g n b r1 with
        | matched r2 c2 =>
          rw [hb] at h
          cases h
          obtain ⟨h1, h2⟩ := ih a ts _ _ ha
          obtain ⟨h3, h4⟩ := ih b r1 _ _ hb
          refine ⟨Nat.le_trans h3 h1, fun hc => ?_⟩
          simp only [consumes, Bool.or_eq_true] at hc
          rcases hc with hc | hc
          · exact Nat.lt_of_le_of_lt h3 (h2 hc)
          · exact Nat.lt_of_lt_of_le (h4 hc) h1
        | failed => rw [hb] at h; cases h
        | out_of_fuel => rw [hb] at h; cases h
      | failed => rw [ha] at h; cases h
      | out_of_fuel => rw [ha] at h; cases h
    | Alt a b =>
      rw [run_rule_Alt] at h
      cases ha : run_rule g n a ts with
      | matched r1 c1 =>
        rw [ha] at h
        cases h
        obtain ⟨h1, h2⟩ := ih a ts _ _ ha
        refine ⟨h1, fun hc => ?_⟩
        simp only [consumes, Bool.and_eq_true] at hc
        exact h2 hc.1
      | failed =>
        rw [ha] at h
        obtain ⟨h1, h2⟩ := ih b ts _ _ h
        refine ⟨h1, fun hc => ?_⟩
        simp only [consumes, Bool.and_eq_true] at hc
        exact h2 hc.2
      | out_of_fuel => rw [ha] at h; cases h
    | Star a =>
      rw [run_rule_Star] at h
      refine ⟨star_loop_length _ (fun ts rest cs hm => (ih a ts rest cs hm).1) _ _ _ _ _ h,
        fun hc => ?_⟩
      simp [consumes] at hc
    | Plus a =>
      rw [run_rule_Plus] at h
      cases ha : run_rule g n a ts with
      | matched r1 c1 =>
        rw [ha] at h
        dsimp only at h
        obtain ⟨h1, h2⟩ := ih a ts _ _ ha
        have h3 := star_loop_length _ (fun ts rest cs hm => (ih a ts rest cs hm).1) _ _ _ _ _ h
        refine ⟨Nat.le_trans h3 h1, fun hc => ?_⟩
        simp only [consumes] at hc
        exact Nat.lt_of_le_of_lt h3 (h2 hc)
      | failed => rw [ha] at h; cases h
      | out_of_fuel => rw [ha] at h; cases h
    | Opt a =>
      rw [run_rule_Opt] at h
      cases ha : run_rule g n a ts with
      | matched r1 c1 =>
        rw [ha] at h
        cases h
        exact ⟨(ih a ts _ _ ha).1, fun hc => by simp [consumes] at hc⟩
      | failed =>
        rw [ha] at h
        cases h
        exact ⟨Nat.le_refl _, fun hc => by simp [consumes] at hc⟩
      | out_of_fuel => rw [ha] at h; cases h
    | Ign a =>
      rw [run_rule_Ign] at h
      cases ha : run_rule g n a ts with
      | matched r1 c1 =>
        rw [ha] at h
        cases h
        obtain ⟨h1, h2⟩ := ih a ts _ _ ha
        exact ⟨h1, fun hc => h2 (by simpa [consumes] using hc)⟩
      | failed => rw [ha] at h; cases h
      | out_of_fuel => rw [ha] at h; cases h
    | Wrap a =>
      rw [run_rule_Wrap] at h
      obtain ⟨h1, h2⟩ := ih a ts _ _ h
      exact ⟨h1, fun hc => h2 (by simpa [consumes] using hc)⟩
    | Id k =>
      rw [run_rule_Id] at h
      cases ts with
      | nil => cases h
      | cons t tl =>
        dsimp only at h
        split at h
        · cases h; simp
        · cases h
    | Str s =>
      rw [run_rule_Str] at h
      cases ts with
      | nil => cases h
      | cons t tl =>
        dsimp only at h
        split at h
        · cases h; simp
        · cases h
    | Ref name =>
      rw [run_rule_Ref] at h
      cases hb : g.body name with
      | none => rw [hb] at h; cases h
      | some b =>
        rw [hb] at h
        dsimp only at h
        have hcb : consumes nn (RuleBody.Ref name) = true → consumes nn b = true :=
          fun hc => hnn name b hb (by simpa [consumes] using hc)
        cases hk : g.kind name with
        | none =>
          rw [hk] at h
          obtain ⟨h1, h2⟩ := ih b ts _ _ h
          exact ⟨h1, fun hc => h2 (hcb hc)⟩
        | some k =>
          rw [hk] at h
          dsimp only at h
          cases ha : run_rule g n b ts with
          | matched r1 c1 =>
            rw [ha] at h
            cases h
            obtain ⟨h1, h2⟩ := ih b ts _ _ ha
            exact ⟨h1, fun hc => h2 (hcb hc)⟩
          | failed => rw [ha] at h; cases h
          | out_of_fuel => rw [ha] at h; cases h


theorem parses_Opt_some (g : Rule) (a : RuleBody) (ts rest cs : List Token)
    (ha : parses g a ts (Match.matched rest cs)) :
    parses g (RuleBody.Opt a) ts (Match.matched rest cs) := by
  obtain ⟨_, n, h1⟩ := ha
  exact ⟨by simp, n + 1, by rw [run_rule_Opt, h1]⟩

theorem parses_Opt_none (g : Rule) (a : RuleBody) (ts : List Token)
    (ha : parses g a ts Match.failed) :
    parses g (RuleBody.Opt a) ts (Match.matched ts []) := by
  obtain ⟨_, n, h1⟩ := ha
  exact ⟨by simp, n + 1, by rw [run_rule_Opt, h1]⟩

theorem parses_Ign (g : Rule) (a : RuleBody) (ts rest cs : List Token)
    (ha : parses g a ts (Match.matched rest cs)) :
    parses g (RuleBody.Ign a) ts (Match.matched rest []) := by
  obtain ⟨_, n, h1⟩ := ha
  exact ⟨by simp, n + 1, by rw [run_rule_Ign, h1]⟩

theorem parses_Wrap (g : Rule) (a : RuleBody) (ts : List Token) (res : Match)
    (ha : parses g a ts res) : parses g (RuleBody.Wrap a) ts res := by
  obtain ⟨hne, n, h1⟩ := ha
  exact ⟨hne, n + 1, by rw [run_rule_Wrap, h1]⟩

theorem parses_Ref_none (g : Rule) (name : RuleName) (ts : List Token)
    (hbody : g.body name = none) : parses g (RuleBody.Ref name) ts Match.failed :=
  ⟨by simp, 1, by rw [run_rule_Ref, hbody]⟩

/-- A repetition ends when each match of its body consumes a token and the body ends on
every input that is not longer. -/
theorem star_loop_terminates (g : Rule) (a : RuleBody) (L : Nat)
    (hcons : ∀ n ts rest cs, run_rule g n a ts = Match.matched rest cs →
      rest.length < ts.length)
    (hterm : ∀ ts, ts.length ≤ L → ∃ res, parses g a ts res) :
    ∀ (j : Nat) (ts acc : List Token), ts.length < j → ts.length ≤ L →
      ∃ res n, res ≠ Match.out_of_fuel ∧
        ∀ fuel, n ≤ fuel → star_loop (run_rule g fuel a) j ts acc = res := by
  intro j
  induction j with
  | zero => intro ts acc h; omega
  | succ j ih =>
    intro ts acc hj hL
    obtain ⟨res, hp⟩ := hterm ts hL
    obtain ⟨na, hna⟩ := parses_from g a ts res hp
    cases res with
    | matched rest cs =>
      have hlt := hcons na ts rest cs (hna na (Nat.le_refl _))
      obtain ⟨res1, n1, hne1, h1⟩ := ih rest (acc ++ cs) (by omega) (by omega)
      refine ⟨res1, na + n1, hne1, fun fuel hle => ?_⟩
      rw [star_loop, hna fuel (by omega)]
      exact h1 fuel (by omega)
    | failed =>
      refine ⟨Match.matched ts acc, na, by simp, fun fuel hle => ?_⟩
      rw [star_loop, hna fuel hle]
    | out_of_fuel => exact absurd rfl hp.1

theorem heads_below_of_bound (nn : RuleName → Bool) (rank : RuleName → Nat) (K : Nat)
    (hK : ∀ name, rank name < K) : ∀ r, heads_below nn rank K r = true := by
  intro r
  induction r with
  | Seq a b iha ihb => simp [heads_below, iha, ihb]
  | Alt a b iha ihb => simp [heads_below, iha, ihb]
  | Star a ih => simpa [heads_below] using ih
  | Plus a ih => simpa [heads_below] using ih
  | Opt a ih => simpa [heads_below] using ih
  | Ign a ih => simpa [heads_below] using ih
  | Wrap a ih => simpa [heads_below] using ih
  | Id k => rfl
  | Str s => rfl
  | Ref name => simpa [heads_below] using hK name

/-- On inputs of length at most `L`, a rule body whose head rules have rank below `k` ends,
when every rule body ends on the shorter inputs. -/
theorem terminates_of_heads (g : Rule) (nn : RuleName → Bool) (rank : RuleName → Nat)
    (hwf : ∀ name, rule_well_formed g nn rank name = true) (L : Nat)
    (hshort : ∀ ts : List Token, ts.length < L → ∀ r, loops_consume nn r = true →
      ∃ res, parses g r ts res) :
    ∀ (k : Nat) (r : RuleBody), heads_below nn rank k r = true → loops_consume nn r = true →
      ∀ ts : List Token, ts.length ≤ L → ∃ res, parses g r ts res := by
  have hnn : ∀ name b, g.body name = some b → nn name = true → consumes nn b = true := by
    intro name b hb hn
    have := hwf name
    simp only [rule_well_formed, hb, hn, Bool.not_true, Bool.false_or, Bool.and_eq_true] at this
    exact this.2
  intro k
  induction k using Nat.strong_induction_on with
  | _ k ihk =>
    intro r
    induction r with
    | Seq a b iha ihb =>
      intro hh hl ts hL
      simp only [heads_below, loops_consume, Bool.and_eq_true, Bool.or_eq_true] at hh hl
      obtain ⟨res, hp⟩ := iha hh.1 hl.1 ts hL
      cases res with
      | matched rest cs =>
        obtain ⟨_, n, hn⟩ := id hp
        obtain ⟨hle, hlt⟩ := run_rule_length g nn hnn n a ts rest cs hn
        have hb : ∃ res, parses g b rest res := by
          by_cases hs : rest.length < L
          · exact hshort rest hs b hl.2
          · rcases hh.2 with hc | hc
            · have := hlt hc
              omega
            · exact ihb hc hl.2 rest (by omega)
        obtain ⟨resb, hpb⟩ := hb
        cases resb with
        | matched rest2 cs2 => exact ⟨_, parses_Seq g a b ts rest cs rest2 cs2 hp hpb⟩
        | failed => exact ⟨_, parses_Seq_fail2 g a b ts rest cs hp hpb⟩
        | out_of_fuel => exact absurd rfl hpb.1
      | failed => exact ⟨_, parses_Seq_fail1 g a b ts hp⟩
      | out_of_fuel => exact absurd rfl hp.1
    | Alt a b iha ihb =>
      intro hh hl ts hL
      simp only [heads_below, loops_consume, Bool.and_eq_true] at hh hl
      obtain ⟨res, hp⟩ := iha hh.1 hl.1 ts hL
      cases res with
      | matched rest cs => exact ⟨_, parses_Alt_left g a b ts rest cs hp⟩
      | failed =>
        obtain ⟨resb, hpb⟩ := ihb hh.2 hl.2 ts hL
        exact ⟨_, parses_Alt_right g a b ts resb hp hpb⟩
      | out_of_fuel => exact absurd rfl hp.1
    | Star a iha =>
      intro hh hl ts hL
      simp only [heads_below, loops_consume, Bool.and_eq_true] at hh hl
      obtain ⟨res, n, hne, h⟩ := star_loop_terminates g a L
        (fun n ts rest cs hm => (run_rule_length g nn hnn n a ts rest cs hm).2 hl.1)
        (fun ts hL => iha hh hl.2 ts hL) (ts.length + 1) ts [] (by omega) hL
      exact ⟨res, hne, n + 1, by rw [run_rule_Star]; exact h n (Nat.le_refl _)⟩
    | Plus a iha =>
      intro hh hl ts hL
      simp only [heads_below, loops_consume, Bool.and_eq_true] at hh hl
      obtain ⟨res, hp⟩ := iha hh hl.2 ts hL
      cases res with
      | matched rest cs =>
        obtain ⟨na, hna⟩ := parses_from g a ts _ hp
        have hle := (run_rule_length g nn hnn na a ts rest cs (hna na (Nat.le_refl _))).1
        obtain ⟨res1, n1, hne1, h1⟩ := star_loop_terminates g a L
          (fun n ts rest cs hm => (run_rule_length g nn hnn n a ts rest cs hm).2 hl.1)
          (fun ts hL => iha hh hl.2 ts hL) (rest.length + 1) rest cs (by omega) (by omega)
        refine ⟨res1, hne1, na + n1 + 1, ?_⟩
        rw [run_rule_Plus, hna (na + n1) (by omega)]
        exact h1 (na + n1) (by omega)
      | failed => exact ⟨_, parses_Plus_fail g a ts hp⟩
      | out_of_fuel => exact absurd rfl hp.1
    | Opt a iha =>
      intro hh hl ts hL
      simp only [heads_below, loops_consume] at hh hl
      obtain ⟨res, hp⟩ := iha hh hl ts hL
      cases res with
      | matched rest cs => exact ⟨_, parses_Opt_some g a ts rest cs hp⟩
      | failed => exact ⟨_, parses_Opt_none g a ts hp⟩
      | out_of_fuel => exact absurd rfl hp.1
    | Ign a iha =>
      intro hh hl ts hL
      simp only [heads_below, loops_consume] at hh hl
      obtain ⟨res, hp⟩ := iha hh hl ts hL
      cases res with
      | matched rest cs => exact ⟨_, parses_Ign g a ts rest cs hp⟩
      | failed => exact ⟨_, parses_Ign_fail g a ts hp⟩
      | out_of_fuel => exact absurd rfl hp.1
    | Wrap a iha =>
      intro hh hl ts hL
      simp only [heads_below, loops_consume] at hh hl
      obtain ⟨res, hp⟩ := iha hh hl ts hL
      exact ⟨res, parses_Wrap g a ts res hp⟩
    | Id kind =>
      intro _ _ ts _
      refine ⟨run_rule g 1 (RuleBody.Id kind) ts, ?_, 1, rfl⟩
      rw [run_rule_Id]
      cases ts with
      | nil => simp
      | cons t tl => dsimp only; split <;> simp
    | Str s =>
      intro _ _ ts _
      refine ⟨run_rule g 1 (RuleBody.Str s) ts, ?_, 1, rfl⟩
      rw [run_rule_Str]
      cases ts with
      | nil => simp
      | cons t tl => dsimp only; split <;> simp
    | Ref name =>
      intro hh _ ts hL
      simp only [heads_below, decide_eq_true_eq] at hh
      cases hb : g.body name with
      | none => exact ⟨_, parses_Ref_none g name ts hb⟩
      | some b =>
        have hw := hwf name
        simp only [rule_well_formed, hb, Bool.and_eq_true] at hw
        obtain ⟨res, hp⟩ := ihk (rank name) hh b hw.1.2 hw.1.1 ts hL
        cases hk : g.kind name with
        | none => exact ⟨res, parses_Ref_plain g name b ts res hb hk hp⟩
        | some kind =>
          cases res with
          | matched rest cs => exact ⟨_, parses_Ref g name b kind ts rest cs hb hk hp⟩
          | failed => exact ⟨_, parses_Ref_fail g name b ts hb hp⟩
          | out_of_fuel => exact absurd rfl hp.1

/-- Every rule body whose loops consume ends on every token sequence, in a rule graph that
passes the checks and whose ranks are bounded. -/
theorem run_rule_terminates (g : Rule) (nn : RuleName → Bool) (rank : RuleName → Nat)
    (K : Nat) (hwf : ∀ name, rule_well_formed g nn rank name = true)
    (hK : ∀ name, rank name < K) :
    ∀ (L : Nat) (ts : List Token), ts.length ≤ L → ∀ r, loops_consume nn r = true →
      ∃ res, parses g r ts res := by
  intro L
  induction L with
  | zero =>
    intro ts hL r hl
    exact terminates_of_heads g nn rank hwf 0 (fun ts h => by omega) K r
      (heads_below_of_bound nn rank K hK r) hl ts hL
  | succ L ih =>
    intro ts hL r hl
    exact terminates_of_heads g nn rank hwf (L + 1)
      (fun ts h r hl => ih ts (by omega) r hl) K r
      (heads_below_of_bound nn rank K hK r) hl ts hL

/-- C22: every rule of `build_parser_rules` passes the checks (its loops repeat bodies that
consume a token, and before consuming a token it enters only rules of smaller rank, so there
is no left recursion), and therefore running the top rule is a total function of the token
vector: for every token vector there is a result, a match or a failure, that the top rule
gives for all sufficient fuel, and `parse` then returns a tree or throws `ParserError` or
reads the end iterator, but does not run on. -/
theorem parser_terminates :
    (∀ name, rule_well_formed build_parser_rules rule_consumes rule_rank name = true) ∧
    (∀ tokens : List Token, ∃ res fuel, res ≠ Match.out_of_fuel ∧
      ∀ k, run_rule build_parser_rules (fuel + k) build_parser_rules.top tokens = res) ∧
    (∀ (tokens : List Token) (filename : String), ∃ fuel, ∀ k,
      parse (fuel + k) build_parser_rules tokens filename
        ≠ Except.error Thrown.out_of_fuel) := by
  have hterm : ∀ tokens : List Token, ∃ res fuel, res ≠ Match.out_of_fuel ∧
      ∀ k, run_rule build_parser_rules (fuel + k) build_parser_rules.top tokens = res := by
    intro tokens
    obtain ⟨res, hp⟩ := run_rule_terminates build_parser_rules rule_consumes rule_rank 13
      rule_well_formed_build_parser_rules rule_rank_lt tokens.length tokens (Nat.le_refl _)
      build_parser_rules.top rfl
    obtain ⟨n, hn⟩ := parses_from _ _ _ _ hp
    exact ⟨res, n, hp.1, fun k => hn (n + k) (by omega)⟩
  refine ⟨rule_well_formed_build_parser_rules, hterm, fun tokens filename => ?_⟩
  obtain ⟨res, fuel, hne, h⟩ := hterm tokens
  refine ⟨fuel, fun k => ?_⟩
  unfold parse
  rw [h k]
  cases res with
  | matched rest cs =>
    cases rest with
    | nil => simp
    | cons x xs => simp
  | failed =>
    cases tokens with
    | nil => simp
    | cons x xs => simp
  | out_of_fuel => exact absurd rfl hne

/-! ## The shape of the trees the parser returns -/

theorem star_loop_sig (f : List Token → Match) (p : List Token → Prop)
    (hf : ∀ ts rest cs, f ts = Match.matched rest cs → p cs) :
    ∀ (k : Nat) (ts acc rest cs : List Token),
      star_loop f k ts acc = Match.matched rest cs →
        ∃ more, cs = acc ++ more ∧ star_sig p more := by
  intro k
  induction k with
  | zero => intro ts acc rest cs h; rw [star_loop] at h; cases h
  | succ k ih =>
    intro ts acc rest cs h
    rw [star_loop] at h
    cases hb : f ts with
    | matched r1 c1 =>
      rw [hb] at h
      obtain ⟨more, rfl, hm⟩ := ih _ _ _ _ h
      exact ⟨c1 ++ more, by simp, star_sig.cons c1 more (hf _ _ _ hb) hm⟩
    | failed =>
      rw [hb] at h
      cases h
      exact ⟨[], by simp, star_sig.nil⟩
    | out_of_fuel => rw [hb] at h; cases h

/-- The contributions of a match are among those the structure of the rule body allows, when
the table for the references is sound for every rule of the graph. -/
theorem run_rule_sig (g : Rule) (ref : RuleName → List Token → Prop)
    (href : ∀ name b cs, g.body name = some b → sig ref b cs →
      (g.kind name = none → ref name cs) ∧
      (∀ k ts rest, g.kind name = some k → ref name [fresh_node k ts rest cs])) :
    ∀ (n : Nat) (r : RuleBody) (ts rest cs : List Token),
      run_rule g n r ts = Match.matched rest cs → sig ref r cs := by
  intro n
  induction n with
  | zero => intro r ts rest cs h; rw [run_rule] at h; cases h
  | succ n ih =>
    intro r ts rest cs h
    cases r with
    | Seq a b =>
      rw [run_rule_Seq] at h
      cases ha : run_rule g n a ts with
      | matched r1 c1 =>
        rw [ha] at h
        dsimp only at h
        cases hb : run_rule g n b r1 with
        | matched r2 c2 =>
          rw [hb] at h
          cases h
          exact ⟨c1, c2, rfl, ih a ts _ _ ha, ih b r1 _ _ hb⟩
        | failed => rw [hb] at h; cases h
        | out_of_fuel => rw [hb] at h; cases h
      | failed => rw [ha] at h; cases h
      | out_of_fuel => rw [ha] at h; cases h
    | Alt a b =>
      rw [run_rule_Alt] at h
      cases ha : run_rule g n a ts with
      | matched r1 c1 =>
        rw [ha] at h
        cases h
        exact Or.inl (ih a ts _ _ ha)
      | failed =>
        rw [ha] at h
        exact Or.inr (ih b ts _ _ h)
      | out_of_fuel => rw [ha] at h; cases h
    | Star a =>
      rw [run_rule_Star] at h
      obtain ⟨more, rfl, hm⟩ := star_loop_sig _ (sig ref a)
        (fun ts rest cs hm => ih a ts rest cs hm) _ _ _ _ _ h
      exact hm
    | Plus a =>
      rw [run_rule_Plus] at h
      cases ha : run_rule g n a ts with
      | matched r1 c1 =>
        rw [ha] at h
        dsimp only at h
        obtain ⟨more, rfl, hm⟩ := star_loop_sig _ (sig ref a)
          (fun ts rest cs hm => ih a ts rest cs hm) _ _ _ _ _ h
        exact star_sig.cons c1 more (ih a ts _ _ ha) hm
      | failed => rw [ha] at h; cases h
      | out_of_fuel => rw [ha] at h; cases h
    | Opt a =>
      rw [run_rule_Opt] at h
      cases ha : run_rule g n a ts with
      | matched r1 c1 =>
        rw [ha] at h
        cases h
        exact Or.inr (ih a ts _ _ ha)
      | failed =>
        rw [ha] at h
        cases h
        exact Or.inl rfl
      | out_of_fuel => rw [ha] at h; cases h
    | Ign a =>
      rw [run_rule_Ign] at h
      cases ha : run_rule g n a ts with
      | matched r1 c1 =>
        rw [ha] at h
        cases h
        rfl
      | failed => rw [ha] at h; cases h
      | out_of_fuel => rw [ha] at h; cases h
    | Wrap a =>
      rw [run_rule_Wrap] at h
      exact ih a ts _ _ h
    | Id k =>
      rw [run_rule_Id] at h
      cases ts with
      | nil => cases h
      | cons t tl =>
        dsimp only at h
        split at h
        · rename_i hk
          cases h
          exact ⟨t, rfl, hk⟩
        · cases h
    | Str s =>
      rw [run_rule_Str] at h
      cases ts with
      | nil => cases h
      | cons t tl =>
        dsimp only at h
        split at h
        · rename_i hk
          cases h
          exact ⟨t, rfl, hk⟩
        · cases h
    | Ref name =>
      rw [run_rule_Ref] at h
      cases hb : g.body name with
      | none => rw [hb] at h; cases h
      | some b =>
        rw [hb] at h
        dsimp only at h
        cases hk : g.kind name with
        | none =>
          rw [hk] at h
          exact (href name b cs hb (ih b ts _ _ h)).1 hk
        | some k =>
          rw [hk] at h
          dsimp only at h
          cases ha : run_rule g n b ts with
          | matched r1 c1 =>
            rw [ha] at h
            cases h
            exact (href name b c1 hb (ih b ts _ _ ha)).2 k ts rest hk
          | failed => rw [ha] at h; cases h
          | out_of_fuel => rw [ha] at h; cases h


theorem star_sig_mono (p q : List Token → Prop) (h : ∀ l, p l → q l) :
    ∀ cs, star_sig p cs → star_sig q cs := by
  intro cs hs
  induction hs with
  | nil => exact star_sig.nil
  | cons l rest hl _ ih => exact star_sig.cons l rest (h l hl) ih

theorem star_sig_empty (p : List Token → Prop) (h : ∀ l, p l → l = []) :
    ∀ cs, star_sig p cs → cs = [] := by
  intro cs hs
  induction hs with
  | nil => rfl
  | cons l rest hl _ ih => rw [h l hl, ih]; rfl

theorem star_sig_all (p : List Token → Prop) (q : Token → Prop)
    (h : ∀ l, p l → ∀ t ∈ l, q t) : ∀ cs, star_sig p cs → ∀ t ∈ cs, q t := by
  intro cs hs
  induction hs with
  | nil => intro t ht; cases ht
  | cons l rest hl _ ih =>
    intro t ht
    rcases List.mem_append.mp ht with ht | ht
    · exact h l hl t ht
    · exact ih t ht

theorem star_sig_pairs (p : List Token → Prop) (q : Token → Token → Prop)
    (h : ∀ l, p l → ∃ a b, l = [a, b] ∧ q a b) :
    ∀ cs, star_sig p cs → ∃ pairs : List (Token × Token),
      cs = interleave pairs ∧ ∀ x ∈ pairs, q x.1 x.2 := by
  intro cs hs
  induction hs with
  | nil => exact ⟨[], rfl, fun x hx => by cases hx⟩
  | cons l rest hl _ ih =>
    obtain ⟨a, b, rfl, hq⟩ := h l hl
    obtain ⟨pairs, rfl, hp⟩ := ih
    refine ⟨(a, b) :: pairs, rfl, fun x hx => ?_⟩
    rcases List.mem_cons.mp hx with rfl | hx
    · exact hq
    · exact hp x hx

theorem star_sig_triples (p : List Token → Prop) (q : Token → Token → Token → Prop)
    (h : ∀ l, p l → ∃ a b c, l = [a, b, c] ∧ q a b c) :
    ∀ cs, star_sig p cs → ∃ arms : List (Token × Token × Token),
      cs = elseif_children arms ∧ ∀ x ∈ arms, q x.1 x.2.1 x.2.2 := by
  intro cs hs
  induction hs with
  | nil => exact ⟨[], rfl, fun x hx => by cases hx⟩
  | cons l rest hl _ ih =>
    obtain ⟨a, b, c, rfl, hq⟩ := h l hl
    obtain ⟨arms, rfl, hp⟩ := ih
    refine ⟨(a, b, c) :: arms, rfl, fun x hx => ?_⟩
    rcases List.mem_cons.mp hx with rfl | hx
    · exact hq
    · exact hp x hx

theorem rule_sig_node (name : RuleName) (k : TokenType) (cs : List Token)
    (hk : build_parser_rules_kind name = some k) (h : rule_sig name cs) :
    ∃ node, cs = [node] ∧ node.identifier = k ∧ Shaped node := by
  simp only [rule_sig, hk] at h
  exact h

theorem rule_sig_value (cs : List Token) (h : rule_sig RuleName.value cs) :
    ∃ t, cs = [t] ∧ Shaped t := h


theorem rule_sig_all (name : RuleName) (hname : name ≠ RuleName.params) (cs : List Token)
    (h : rule_sig name cs) : ∀ t ∈ cs, Shaped t := by
  cases name <;>
    first
    | exact absurd rfl hname
    | exact h
    | (obtain ⟨node, rfl, _, hs⟩ := h
       intro t ht
       rw [List.mem_singleton.mp ht]
       exact hs)
    | (obtain ⟨node, rfl, hs⟩ := h
       intro t ht
       rw [List.mem_singleton.mp ht]
       exact hs)
    | exact h.2

theorem sig_all :
    ∀ (r : RuleBody), contributes_operands r = true → ∀ cs, sig rule_sig r cs →
      ∀ t ∈ cs, Shaped t := by
  intro r
  induction r with
  | Seq a b iha ihb =>
    intro hr cs h t ht
    simp only [contributes_operands, Bool.and_eq_true] at hr
    obtain ⟨c1, c2, rfl, h1, h2⟩ := h
    rcases List.mem_append.mp ht with ht | ht
    · exact iha hr.1 c1 h1 t ht
    · exact ihb hr.2 c2 h2 t ht
  | Alt a b iha ihb =>
    intro hr cs h
    simp only [contributes_operands, Bool.and_eq_true] at hr
    rcases h with h | h
    · exact iha hr.1 cs h
    · exact ihb hr.2 cs h
  | Star a ih =>
    intro hr cs h
    exact star_sig_all _ _ (fun l hl => ih hr l hl) cs h
  | Plus a ih =>
    intro hr cs h
    exact star_sig_all _ _ (fun l hl => ih hr l hl) cs h
  | Opt a ih =>
    intro hr cs h
    rcases h with rfl | h
    · intro t ht; cases ht
    · exact ih hr cs h
  | Ign a _ =>
    intro _ cs h t ht
    have : cs = [] := h
    rw [this] at ht
    cases ht
  | Wrap a ih =>
    intro hr cs h
    exact ih hr cs h
  | Id k =>
    intro hr cs h t ht
    obtain ⟨x, rfl, hx⟩ := h
    rw [List.mem_singleton.mp ht]
    simp only [contributes_operands, Bool.or_eq_true, decide_eq_true_eq] at hr
    refine Shaped.leaf x ?_
    rw [hx]
    rcases hr with (((h | h) | h) | h) | h <;> simp [h]
  | Str s => intro hr; cases hr
  | Ref name =>
    intro hr cs h
    refine rule_sig_all name ?_ cs h
    intro hn
    rw [hn] at hr
    cases hr


theorem singleton_shaped (cs : List Token) (hall : ∀ t ∈ cs, Shaped t) (x : Token)
    (h : cs = [x]) : Shaped x :=
  hall x (by rw [h]; exact List.mem_singleton_self x)

theorem shaped_vardecl (b : RuleBody) (cs : List Token)
    (hb : build_parser_rules_body RuleName.vardecl = some b) (h : sig rule_sig b cs)
    (t : Token) (hk : t.identifier = TokenType.Variable_Decl) (hc : t.children = cs) :
    Shaped t := by
  cases hb
  obtain ⟨c1, c2, rfl, h1, name, rfl, _⟩ := h
  have : c1 = [] := h1
  subst this
  exact Shaped.variable_decl t name hk hc

theorem shaped_break_statement (t : Token) (hk : t.identifier = TokenType.Break) :
    Shaped t :=
  Shaped.leaf t (Or.inr (Or.inr (Or.inr (Or.inr (Or.inr hk)))))

theorem shaped_return_statement (b : RuleBody) (cs : List Token)
    (hb : build_parser_rules_body RuleName.return_statement = some b) (h : sig rule_sig b cs)
    (t : Token) (hk : t.identifier = TokenType.Return) (hc : t.children = cs) :
    Shaped t := by
  cases hb
  obtain ⟨c1, c2, rfl, h1, h2⟩ := h
  have : c1 = [] := h1
  subst this
  rcases h2 with rfl | h2
  · exact Shaped.return_node t hk (by rw [hc]; simp) (by rw [hc]; intro c hx; cases hx)
  · obtain ⟨node, rfl, _, hs⟩ := rule_sig_node RuleName.boolean _ _ rfl h2
    refine Shaped.return_node t hk (by rw [hc]; simp) ?_
    rw [hc]
    intro c hx
    rw [List.mem_singleton.mp hx]
    exact hs

theorem shaped_negate (b : RuleBody) (cs : List Token)
    (hb : build_parser_rules_body RuleName.negate = some b) (h : sig rule_sig b cs)
    (t : Token) (hk : t.identifier = TokenType.Negate) (hc : t.children = cs) :
    Shaped t := by
  cases hb
  obtain ⟨c1, c2, rfl, h1, h2⟩ := h
  have : c1 = [] := h1
  subst this
  obtain ⟨node, rfl, _, hs⟩ := rule_sig_node RuleName.boolean _ _ rfl h2
  exact Shaped.negate t node hk hc hs

theorem shaped_prefix_rule (b : RuleBody) (cs : List Token)
    (hb : build_parser_rules_body RuleName.prefix_rule = some b) (h : sig rule_sig b cs)
    (t : Token) (hk : t.identifier = TokenType.Prefix) (hc : t.children = cs) :
    Shaped t := by
  cases hb
  have key : ∀ s, sig rule_sig (seqs [RuleBody.Str s,
      alts [RuleBody.Ref RuleName.boolean, RuleBody.Ref RuleName.arraycall]]) cs →
      Shaped t := by
    intro s h1
    obtain ⟨c1, c2, rfl, ⟨op, rfl, _⟩, h2⟩ := h1
    rcases h2 with h2 | h2
    · obtain ⟨node, rfl, _, hs⟩ := rule_sig_node RuleName.boolean _ _ rfl h2
      exact Shaped.prefix_node t op node hk hc hs
    · obtain ⟨node, rfl, _, hs⟩ := rule_sig_node RuleName.arraycall _ _ rfl h2
      exact Shaped.prefix_node t op node hk hc hs
  rcases h with h | h
  · exact key _ h
  · exact key _ h

theorem shaped_sequence_of (b : RuleBody) (cs : List Token)
    (hok : contributes_operands b = true)
    (h : sig rule_sig b cs) (t : Token)
    (hk : t.identifier = TokenType.File ∨ t.identifier = TokenType.Scoped_Block ∨
      t.identifier = TokenType.Array_Init) (hc : t.children = cs) : Shaped t :=
  Shaped.sequence t hk (by rw [hc]; exact sig_all b hok cs h)

theorem shaped_funcall (b : RuleBody) (cs : List Token)
    (hb : build_parser_rules_body RuleName.funcall = some b) (h : sig rule_sig b cs)
    (t : Token) (hk : t.identifier = TokenType.Fun_Call) (hc : t.children = cs) :
    Shaped t := by
  cases hb
  obtain ⟨c1, c2, rfl, ⟨c3, c4, rfl, ⟨c5, c6, rfl, ⟨callee, rfl, _⟩, h6⟩, h4⟩, h2⟩ := h
  have e6 : c6 = [] := h6
  have e2 : c2 = [] := h2
  subst e6 e2
  have hall := sig_all _ (by rfl) c4 h4
  exact Shaped.fun_call t callee c4 hk (by rw [hc]; simp) hall

theorem shaped_methodcall (b : RuleBody) (cs : List Token)
    (hb : build_parser_rules_body RuleName.methodcall = some b) (h : sig rule_sig b cs)
    (t : Token) (hk : t.identifier = TokenType.Method_Call) (hc : t.children = cs) :
    Shaped t := by
  cases hb
  obtain ⟨c1, c2, rfl, h1, h2⟩ := h
  obtain ⟨recv, rfl, hr⟩ := rule_sig_value c1 h1
  have hseg := star_sig_all _ (fun x => x.identifier = TokenType.Fun_Call ∧ Shaped x)
    (fun l hl => by
      obtain ⟨d1, d2, rfl, hd1, hd2⟩ := hl
      have : d1 = [] := hd1
      subst this
      obtain ⟨node, rfl, hkn, hs⟩ := rule_sig_node RuleName.funcall _ _ rfl hd2
      intro x hx
      rw [List.mem_singleton.mp hx]
      exact ⟨hkn, hs⟩) c2 h2
  exact Shaped.method_call t recv c2 hk hc hr (fun x hx => (hseg x hx).1)
    (fun x hx => (hseg x hx).2)

theorem shaped_arraycall (b : RuleBody) (cs : List Token)
    (hb : build_parser_rules_body RuleName.arraycall = some b) (h : sig rule_sig b cs)
    (t : Token) (hk : t.identifier = TokenType.Array_Call) (hc : t.children = cs) :
    Shaped t := by
  cases hb
  obtain ⟨c1, c2, rfl, h1, h2⟩ := h
  obtain ⟨base, rfl, hr⟩ := rule_sig_value c1 h1
  have hall := sig_all (RuleBody.Plus (seqs [RuleBody.Ign (RuleBody.Id TokenType.Square_Open),
    RuleBody.Ref RuleName.boolean, RuleBody.Ign (RuleBody.Id TokenType.Square_Close)]))
    (by rfl) c2 h2
  exact Shaped.array_call t base c2 hk hc hr hall


theorem sig_value (b : RuleBody) (cs : List Token)
    (hb : build_parser_rules_body RuleName.value = some b) (h : sig rule_sig b cs) :
    rule_sig RuleName.value cs := by
  cases hb
  have hall := sig_all _ (by rfl) cs h
  suffices hone : ∃ x, cs = [x] by
    obtain ⟨x, rfl⟩ := hone
    exact ⟨x, rfl, hall x (List.mem_singleton_self x)⟩
  have hnode : ∀ (name : RuleName) (k : TokenType), build_parser_rules_kind name = some k →
      rule_sig name cs → ∃ x, cs = [x] := by
    intro name k hk h1
    obtain ⟨node, hn, _⟩ := rule_sig_node name k cs hk h1
    exact ⟨node, hn⟩
  have hid : ∀ k, sig rule_sig (RuleBody.Id k) cs → ∃ x, cs = [x] := by
    intro k h1
    obtain ⟨x, hx, _⟩ := h1
    exact ⟨x, hx⟩
  rcases h with ((((((((((h | h) | h) | h) | h) | h) | h) | h) | h) | h) | h) | h
  · exact hnode RuleName.vardecl _ rfl h
  · exact hnode RuleName.arrayinit _ rfl h
  · exact hnode RuleName.block _ rfl h
  · obtain ⟨c1, c2, rfl, ⟨c3, c4, rfl, h3, h4⟩, h2⟩ := h
    have e3 : c3 = [] := h3
    have e2 : c2 = [] := h2
    subst e3 e2
    obtain ⟨node, rfl, _⟩ := rule_sig_node RuleName.boolean _ _ rfl h4
    exact ⟨node, rfl⟩
  · exact hnode RuleName.return_statement _ rfl h
  · exact hnode RuleName.break_statement _ rfl h
  · exact hnode RuleName.funcall _ rfl h
  · exact hid _ h
  · exact hid _ h
  · exact hid _ h
  · exact hid _ h
  · exact hid _ h

theorem shaped_factor (b : RuleBody) (cs : List Token)
    (hb : build_parser_rules_body RuleName.factor = some b) (h : sig rule_sig b cs)
    (t : Token) (hk : t.identifier = TokenType.Factor) (hc : t.children = cs) :
    Shaped t := by
  cases hb
  suffices hone : ∃ x, cs = [x] ∧ Shaped x by
    obtain ⟨x, rfl, hx⟩ := hone
    exact Shaped.binary t x [] (Or.inl hk) hc hx (fun p hp => by cases hp)
  have hnode : ∀ (name : RuleName) (k : TokenType), build_parser_rules_kind name = some k →
      rule_sig name cs → ∃ x, cs = [x] ∧ Shaped x := by
    intro name k hk h1
    obtain ⟨node, hn, _, hs⟩ := rule_sig_node name k cs hk h1
    exact ⟨node, hn, hs⟩
  rcases h with ((((h | h) | h) | h) | h) | h
  · exact hnode RuleName.methodcall _ rfl h
  · exact hnode RuleName.arraycall _ rfl h
  · exact rule_sig_value cs h
  · exact hnode RuleName.negate _ rfl h
  · exact hnode RuleName.prefix_rule _ rfl h
  · obtain ⟨c1, c2, rfl, h1, h2⟩ := h
    have e1 : c1 = [] := h1
    subst e1
    exact rule_sig_value c2 h2

theorem sig_foldl_Alt (ref : RuleName → List Token → Prop) (cs : List Token) :
    ∀ (rs : List RuleBody) (r : RuleBody), sig ref (rs.foldl RuleBody.Alt r) cs →
      sig ref r cs ∨ ∃ x ∈ rs, sig ref x cs := by
  intro rs
  induction rs with
  | nil => intro r h; exact Or.inl h
  | cons x rs ih =>
    intro r h
    rcases ih (RuleBody.Alt r x) h with h1 | ⟨y, hy, h1⟩
    · rcases h1 with h1 | h1
      · exact Or.inl h1
      · exact Or.inr ⟨x, List.mem_cons_self _ _, h1⟩
    · exact Or.inr ⟨y, List.mem_cons_of_mem _ hy, h1⟩

theorem shaped_level (sub : RuleName) (ksub : TokenType) (o : String) (ops : List String)
    (hsub : build_parser_rules_kind sub = some ksub) (cs : List Token)
    (h : sig rule_sig (level_body sub (o :: ops)) cs) (t : Token)
    (hk : t.identifier = TokenType.Factor ∨ t.identifier = TokenType.Expression ∨
      t.identifier = TokenType.Term ∨ t.identifier = TokenType.Boolean ∨
      t.identifier = TokenType.Comparison) (hc : t.children = cs) : Shaped t := by
  obtain ⟨c1, c2, rfl, h1, h2⟩ := h
  obtain ⟨first, rfl, _, hf⟩ := rule_sig_node sub ksub c1 hsub h1
  have hone : ∀ s l, sig rule_sig (seqs [RuleBody.Str s, RuleBody.Ref sub]) l →
      ∃ a b, l = [a, b] ∧ Shaped b := by
    intro s l hl
    obtain ⟨d1, d2, rfl, ⟨op, rfl, _⟩, hd2⟩ := hl
    obtain ⟨x, rfl, _, hx⟩ := rule_sig_node sub ksub d2 hsub hd2
    exact ⟨op, x, rfl, hx⟩
  obtain ⟨pairs, rfl, hp⟩ := star_sig_pairs _ (fun _ b => Shaped b)
    (fun l hl => by
      rcases sig_foldl_Alt rule_sig l _ _ hl with hl | ⟨x, hx, hl⟩
      · exact hone o l hl
      · obtain ⟨s, _, rfl⟩ := List.mem_map.mp hx
        exact hone s l hl) c2 h2
  exact Shaped.binary t first pairs hk hc hf hp

theorem shaped_equation (b : RuleBody) (cs : List Token)
    (hb : build_parser_rules_body RuleName.equation = some b) (h : sig rule_sig b cs)
    (t : Token) (hk : t.identifier = TokenType.Equation) (hc : t.children = cs) :
    Shaped t := by
  cases hb
  obtain ⟨c1, c2, rfl, h1, h2⟩ := h
  obtain ⟨last, rfl, _, hl⟩ := rule_sig_node RuleName.boolean _ c2 rfl h2
  have hone : ∀ s l, sig rule_sig (seqs [alts [RuleBody.Ref RuleName.vardecl,
      RuleBody.Ref RuleName.arraycall, RuleBody.Id TokenType.Identifier], RuleBody.Str s]) l →
      ∃ a b, l = [a, b] ∧ Shaped a := by
    intro s l hl
    obtain ⟨d1, d2, rfl, hd1, ⟨op, rfl, _⟩⟩ := hl
    have hall := sig_all (alts [RuleBody.Ref RuleName.vardecl,
      RuleBody.Ref RuleName.arraycall, RuleBody.Id TokenType.Identifier]) (by rfl) d1 hd1
    rcases hd1 with (hd1 | hd1) | hd1
    · obtain ⟨x, rfl, _, hx⟩ := rule_sig_node RuleName.vardecl _ _ rfl hd1
      exact ⟨x, op, rfl, hx⟩
    · obtain ⟨x, rfl, _, hx⟩ := rule_sig_node RuleName.arraycall _ _ rfl hd1
      exact ⟨x, op, rfl, hx⟩
    · obtain ⟨x, rfl, _⟩ := hd1
      exact ⟨x, op, rfl, hall x (List.mem_singleton_self x)⟩
  obtain ⟨pairs, rfl, hp⟩ := star_sig_pairs _ (fun a _ => Shaped a)
    (fun l hl => by
      rcases hl with (((hl | hl) | hl) | hl) | hl
      · exact hone _ l hl
      · exact hone _ l hl
      · exact hone _ l hl
      · exact hone _ l hl
      · exact hone _ l hl) c1 h1
  exact Shaped.equation t pairs last hk hc hp hl


theorem shaped_while_block (b : RuleBody) (cs : List Token)
    (hb : build_parser_rules_body RuleName.while_block = some b) (h : sig rule_sig b cs)
    (t : Token) (hk : t.identifier = TokenType.While_Block) (hc : t.children = cs) :
    Shaped t := by
  cases hb
  obtain ⟨c1, c2, rfl, ⟨c3, c4, rfl, h3, h4⟩, h2⟩ := h
  have e3 : c3 = [] := h3
  subst e3
  obtain ⟨c, rfl, _, hcs⟩ := rule_sig_node RuleName.boolean _ c4 rfl h4
  obtain ⟨body, rfl, _, hbs⟩ := rule_sig_node RuleName.block _ c2 rfl h2
  exact Shaped.while_block t c body hk hc hcs hbs

theorem sig_for_conditions (b : RuleBody) (cs : List Token)
    (hb : build_parser_rules_body RuleName.for_conditions = some b) (h : sig rule_sig b cs) :
    rule_sig RuleName.for_conditions cs := by
  cases hb
  refine ⟨?_, sig_all _ (by rfl) cs h⟩
  obtain ⟨c1, c2, rfl, ⟨c3, c4, rfl, ⟨c5, c6, rfl, ⟨c7, c8, rfl, ⟨c9, c10, rfl,
    ⟨c11, c12, rfl, h11, h12⟩, h10⟩, h8⟩, h6⟩, h4⟩, h2⟩ := h
  have e11 : c11 = [] := h11
  have e10 : c10 = [] := h10
  have e6 : c6 = [] := h6
  have e2 : c2 = [] := h2
  subst e11 e10 e6 e2
  obtain ⟨x, rfl, _⟩ := rule_sig_node RuleName.boolean _ c8 rfl h8
  obtain ⟨y, rfl, _⟩ := rule_sig_node RuleName.equation _ c4 rfl h4
  rcases h12 with rfl | h12
  · exact Or.inl rfl
  · obtain ⟨z, rfl, _⟩ := rule_sig_node RuleName.equation _ c12 rfl h12
    exact Or.inr rfl

theorem shaped_for_block (b : RuleBody) (cs : List Token)
    (hb : build_parser_rules_body RuleName.for_block = some b) (h : sig rule_sig b cs)
    (t : Token) (hk : t.identifier = TokenType.For_Block) (hc : t.children = cs) :
    Shaped t := by
  cases hb
  obtain ⟨c1, c2, rfl, ⟨c3, c4, rfl, h3, h4⟩, h2⟩ := h
  have e3 : c3 = [] := h3
  subst e3
  obtain ⟨body, rfl, _, hbs⟩ := rule_sig_node RuleName.block _ c2 rfl h2
  obtain ⟨hlen, hall⟩ : (c4.length = 2 ∨ c4.length = 3) ∧ ∀ x ∈ c4, Shaped x := h4
  rcases hlen with hlen | hlen
  · match c4, hlen, hall with
    | [c, post], _, hall =>
      exact Shaped.for_block_no_init t c post body hk hc (hall c (by simp))
        (hall post (by simp)) hbs
  · match c4, hlen, hall with
    | [init, c, post], _, hall =>
      exact Shaped.for_block t init c post body hk hc (hall init (by simp))
        (hall c (by simp)) (hall post (by simp)) hbs

theorem shaped_fundef (b : RuleBody) (cs : List Token)
    (hb : build_parser_rules_body RuleName.fundef = some b) (h : sig rule_sig b cs)
    (t : Token) (hk : t.identifier = TokenType.Function_Def) (hc : t.children = cs) :
    Shaped t := by
  cases hb
  obtain ⟨c1, c2, rfl, ⟨c3, c4, rfl, ⟨c5, c6, rfl, h5, ⟨name, rfl, _⟩⟩, _⟩, h2⟩ := h
  have e5 : c5 = [] := h5
  subst e5
  obtain ⟨body, rfl, _, hbs⟩ := rule_sig_node RuleName.block _ c2 rfl h2
  exact Shaped.function_def t name c4 body hk (by rw [hc]; simp) hbs

theorem shaped_if_block (b : RuleBody) (cs : List Token)
    (hb : build_parser_rules_body RuleName.if_block = some b) (h : sig rule_sig b cs)
    (t : Token) (hk : t.identifier = TokenType.If_Block) (hc : t.children = cs) :
    Shaped t := by
  cases hb
  obtain ⟨c1, c2, rfl, ⟨c3, c4, rfl, ⟨c5, c6, rfl, ⟨c7, c8, rfl, h7, h8⟩, h6⟩, h4⟩, h2⟩ := h
  have e7 : c7 = [] := h7
  subst e7
  obtain ⟨cond, rfl, _, hcond⟩ := rule_sig_node RuleName.boolean _ c8 rfl h8
  obtain ⟨blk, rfl, _, hblk⟩ := rule_sig_node RuleName.block _ c6 rfl h6
  have hsemi : ∀ l, sig rule_sig (RuleBody.Star (RuleBody.Ign
      (RuleBody.Id TokenType.Semicolon))) l → l = [] :=
    fun l hl => star_sig_empty _ (fun _ hx => hx) l hl
  obtain ⟨arms, rfl, harms⟩ := star_sig_triples _
    (fun kw c b => kw.text = "elseif" ∧ Shaped c ∧ Shaped b)
    (fun l hl => by
      obtain ⟨d1, d2, rfl, ⟨d3, d4, rfl, ⟨d5, d6, rfl, h5, ⟨kw, rfl, hkw⟩⟩, hd4⟩, hd2⟩ := hl
      have e5 := hsemi d5 h5
      subst e5
      obtain ⟨c, rfl, _, hcs⟩ := rule_sig_node RuleName.boolean _ d4 rfl hd4
      obtain ⟨bk, rfl, _, hbs⟩ := rule_sig_node RuleName.block _ d2 rfl hd2
      exact ⟨kw, c, bk, rfl, hkw, hcs, hbs⟩) c4 h4
  have hels : ∃ els : Option (Token × Token), c2 = else_children els ∧
      (∀ e, els = some e → e.1.text = "else") ∧ (∀ e, els = some e → Shaped e.2) := by
    rcases h2 with rfl | h2
    · refine ⟨none, rfl, ?_, ?_⟩ <;> intro e he <;> cases he
    · obtain ⟨d1, d2, rfl, ⟨d5, d6, rfl, h5, ⟨kw, rfl, hkw⟩⟩, hd2⟩ := h2
      have e5 := hsemi d5 h5
      subst e5
      obtain ⟨bk, rfl, _, hbs⟩ := rule_sig_node RuleName.block _ d2 rfl hd2
      refine ⟨some (kw, bk), rfl, ?_, ?_⟩
      · intro e he
        cases he
        exact hkw
      · intro e he
        cases he
        exact hbs
  obtain ⟨els, rfl, hels1, hels2⟩ := hels
  exact Shaped.if_block t cond blk arms els hk (by rw [hc]; simp)
    (fun a ha => (harms a ha).1) hels1 hcond hblk (fun a ha => (harms a ha).2.1)
    (fun a ha => (harms a ha).2.2) hels2

theorem rule_sig_of_node (name : RuleName) (k : TokenType)
    (hk : build_parser_rules_kind name = some k) (node : Token) (hid : node.identifier = k)
    (hs : Shaped node) : rule_sig name [node] := by
  simp only [rule_sig, hk]
  exact ⟨node, rfl, hid, hs⟩

/-- The table `rule_sig` is sound for every rule of `build_parser_rules`: what the body of a
rule can contribute makes a node of the shape its kind requires, or the list the table
promises for a rule without an output kind. -/
theorem rule_sig_sound (name : RuleName) (b : RuleBody) (cs : List Token)
    (hb : build_parser_rules.body name = some b) (h : sig rule_sig b cs) :
    (build_parser_rules.kind name = none → rule_sig name cs) ∧
    (∀ k ts rest, build_parser_rules.kind name = some k →
      rule_sig name [fresh_node k ts rest cs]) := by
  rw [build_parser_rules_body_eq] at hb
  rw [build_parser_rules_kind_eq]
  cases name with
  | params => exact ⟨fun _ => trivial, fun k ts rest hk => by cases hk⟩
  | block =>
    refine ⟨fun hk => (by cases hk), fun k ts rest hk => ?_⟩
    cases hk
    exact rule_sig_of_node RuleName.block TokenType.Scoped_Block rfl _ rfl
      (shaped_sequence_of b cs (by cases hb; rfl) h _ (Or.inr (Or.inl rfl)) rfl)
  | fundef =>
    refine ⟨fun hk => (by cases hk), fun k ts rest hk => ?_⟩
    cases hk
    exact rule_sig_of_node RuleName.fundef TokenType.Function_Def rfl _ rfl
      (shaped_fundef b cs hb h _ rfl rfl)
  | statement =>
    exact ⟨fun _ => sig_all b (by cases hb; rfl) cs h, fun k ts rest hk => by cases hk⟩
  | equation =>
    refine ⟨fun hk => (by cases hk), fun k ts rest hk => ?_⟩
    cases hk
    exact rule_sig_of_node RuleName.equation TokenType.Equation rfl _ rfl
      (shaped_equation b cs hb h _ rfl rfl)
  | boolean =>
    refine ⟨fun hk => (by cases hk), fun k ts rest hk => ?_⟩
    cases hk
    exact rule_sig_of_node RuleName.boolean TokenType.Boolean rfl _ rfl
      (shaped_level RuleName.comparison TokenType.Comparison "&&" ["||"] rfl cs (by cases hb; exact h) _ (Or.inr (Or.inr (Or.inr (Or.inl rfl)))) rfl)
  | comparison =>
    refine ⟨fun hk => (by cases hk), fun k ts rest hk => ?_⟩
    cases hk
    exact rule_sig_of_node RuleName.comparison TokenType.Comparison rfl _ rfl
      (shaped_level RuleName.expression TokenType.Expression "==" ["!=", "<", "<=", ">", ">="] rfl cs (by cases hb; exact h) _ (Or.inr (Or.inr (Or.inr (Or.inr rfl)))) rfl)
  | expression =>
    refine ⟨fun hk => (by cases hk), fun k ts rest hk => ?_⟩
    cases hk
    exact rule_sig_of_node RuleName.expression TokenType.Expression rfl _ rfl
      (shaped_level RuleName.term TokenType.Term "+" ["-"] rfl cs (by cases hb; exact h) _ (Or.inr (Or.inl rfl)) rfl)
  | term =>
    refine ⟨fun hk => (by cases hk), fun k ts rest hk => ?_⟩
    cases hk
    exact rule_sig_of_node RuleName.term TokenType.Term rfl _ rfl
      (shaped_level RuleName.factor TokenType.Factor "*" ["/"] rfl cs (by cases hb; exact h) _ (Or.inr (Or.inr (Or.inl rfl))) rfl)
  | factor =>
    refine ⟨fun hk => (by cases hk), fun k ts rest hk => ?_⟩
    cases hk
    exact rule_sig_of_node RuleName.factor TokenType.Factor rfl _ rfl
      (shaped_factor b cs hb h _ rfl rfl)
  | negate =>
    refine ⟨fun hk => (by cases hk), fun k ts rest hk => ?_⟩
    cases hk
    exact rule_sig_of_node RuleName.negate TokenType.Negate rfl _ rfl
      (shaped_negate b cs hb h _ rfl rfl)
  | prefix_rule =>
    refine ⟨fun hk => (by cases hk), fun k ts rest hk => ?_⟩
    cases hk
    exact rule_sig_of_node RuleName.prefix_rule TokenType.Prefix rfl _ rfl
      (shaped_prefix_rule b cs hb h _ rfl rfl)
  | funcall =>
    refine ⟨fun hk => (by cases hk), fun k ts rest hk => ?_⟩
    cases hk
    exact rule_sig_of_node RuleName.funcall TokenType.Fun_Call rfl _ rfl
      (shaped_funcall b cs hb h _ rfl rfl)
  | methodcall =>
    refine ⟨fun hk => (by cases hk), fun k ts rest hk => ?_⟩
    cases hk
    exact rule_sig_of_node RuleName.methodcall TokenType.Method_Call rfl _ rfl
      (shaped_methodcall b cs hb h _ rfl rfl)
  | if_block =>
    refine ⟨fun hk => (by cases hk), fun k ts rest hk => ?_⟩
    cases hk
    exact rule_sig_of_node RuleName.if_block TokenType.If_Block rfl _ rfl
      (shaped_if_block b cs hb h _ rfl rfl)
  | while_block =>
    refine ⟨fun hk => (by cases hk), fun k ts rest hk => ?_⟩
    cases hk
    exact rule_sig_of_node RuleName.while_block TokenType.While_Block rfl _ rfl
      (shaped_while_block b cs hb h _ rfl rfl)
  | for_block =>
    refine ⟨fun hk => (by cases hk), fun k ts rest hk => ?_⟩
    cases hk
    exact rule_sig_of_node RuleName.for_block TokenType.For_Block rfl _ rfl
      (shaped_for_block b cs hb h _ rfl rfl)
  | arraycall =>
    refine ⟨fun hk => (by cases hk), fun k ts rest hk => ?_⟩
    cases hk
    exact rule_sig_of_node RuleName.arraycall TokenType.Array_Call rfl _ rfl
      (shaped_arraycall b cs hb h _ rfl rfl)
  | vardecl =>
    refine ⟨fun hk => (by cases hk), fun k ts rest hk => ?_⟩
    cases hk
    exact rule_sig_of_node RuleName.vardecl TokenType.Variable_Decl rfl _ rfl
      (shaped_vardecl b cs hb h _ rfl rfl)
  | arrayinit =>
    refine ⟨fun hk => (by cases hk), fun k ts rest hk => ?_⟩
    cases hk
    exact rule_sig_of_node RuleName.arrayinit TokenType.Array_Init rfl _ rfl
      (shaped_sequence_of b cs (by cases hb; rfl) h _ (Or.inr (Or.inr rfl)) rfl)
  | return_statement =>
    refine ⟨fun hk => (by cases hk), fun k ts rest hk => ?_⟩
    cases hk
    exact rule_sig_of_node RuleName.return_statement TokenType.Return rfl _ rfl
      (shaped_return_statement b cs hb h _ rfl rfl)
  | break_statement =>
    refine ⟨fun hk => (by cases hk), fun k ts rest hk => ?_⟩
    cases hk
    exact rule_sig_of_node RuleName.break_statement TokenType.Break rfl _ rfl
      (shaped_break_statement _ rfl)
  | value => exact ⟨fun _ => sig_value b cs hb h, fun k ts rest hk => by cases hk⟩
  | statements => cases hb
  | for_conditions => exact ⟨fun _ => sig_for_conditions b cs hb h, fun k ts rest hk => by cases hk⟩
  | source_elem =>
    exact ⟨fun _ => sig_all b (by cases hb; rfl) cs h, fun k ts rest hk => by cases hk⟩
  | source_elems =>
    exact ⟨fun _ => sig_all b (by cases hb; rfl) cs h, fun k ts rest hk => by cases hk⟩
  | statement_list =>
    exact ⟨fun _ => sig_all b (by cases hb; rfl) cs h, fun k ts rest hk => by cases hk⟩
  | rule =>
    exact ⟨fun _ => sig_all b (by cases hb; rfl) cs h, fun k ts rest hk => by cases hk⟩


/-- Every tree `parse` returns with the grammar of the language has the shape the evaluator
reads, at every node. -/
theorem parse_tree_shaped (fuel : Nat) (tokens : List Token) (filename : String)
    (tree : Token)
    (h : parse fuel build_parser_rules tokens filename = Except.ok tree) : Shaped tree := by
  unfold parse at h
  cases hr : run_rule build_parser_rules fuel build_parser_rules.top tokens with
  | matched rest cs =>
    rw [hr] at h
    cases rest with
    | nil =>
      simp only [Except.ok.injEq] at h
      subst h
      have hs : sig rule_sig (RuleBody.Ref RuleName.rule) cs :=
        run_rule_sig build_parser_rules rule_sig rule_sig_sound fuel _ tokens [] cs hr
      exact Shaped.sequence _ (Or.inl rfl) hs
    | cons x xs => simp at h
  | failed =>
    rw [hr] at h
    cases tokens with
    | nil => simp at h
    | cons x xs => simp at h
  | out_of_fuel => rw [hr] at h; simp at h

/-! ## Child indexing of the evaluator on the trees of the parser -/

theorem registry_parsed_of_eq (s t : BoxedCPP_System) (h : t.functions = s.functions)
    (hs : registry_parsed s) : registry_parsed t := by
  intro e he
  rw [h] at he
  exact hs e he

theorem registry_parsed_box (ss : BoxedCPP_System) (p : Payload) (hs : registry_parsed ss) :
    registry_parsed (ss.box p).2 :=
  registry_parsed_of_eq ss _ rfl hs

theorem registry_parsed_set_object (ss : BoxedCPP_System) (name : String) (v : Boxed_Value)
    (hs : registry_parsed ss) : registry_parsed (ss.set_object name v) := by
  refine registry_parsed_of_eq ss _ ?_ hs
  unfold BoxedCPP_System.set_object
  cases ss.scopes <;> rfl

theorem registry_parsed_get_function (ss : BoxedCPP_System) (name : String)
    (hs : registry_parsed ss) : ∀ f ∈ ss.get_function name, f.runs_parsed := by
  intro f hf
  unfold BoxedCPP_System.get_function at hf
  obtain ⟨e, he, rfl⟩ := List.mem_map.mp hf
  exact hs e (List.mem_filter.mp he).1

theorem in_bounds_ok {α : Type} (v : α) (s : BoxedCPP_System) (hs : registry_parsed s) :
    children_in_bounds ((Except.ok v, s) : Outcome α) :=
  ⟨fun h => (by cases h), hs⟩

theorem in_bounds_error {α : Type} (e : Thrown) (s : BoxedCPP_System)
    (he : e ≠ Thrown.child_out_of_range) (hs : registry_parsed s) :
    children_in_bounds ((Except.error e, s) : Outcome α) :=
  ⟨fun h => he (Except.error.inj h), hs⟩

theorem in_bounds_andThen {α β : Type} (r : Outcome α)
    (k : α → BoxedCPP_System → Outcome β) (hr : children_in_bounds r)
    (hk : ∀ v s, registry_parsed s → children_in_bounds (k v s)) :
    children_in_bounds (andThen r k) := by
  rcases r with ⟨e | v, s⟩
  · refine in_bounds_error e s (fun he => hr.1 ?_) hr.2
    rw [he]
  · exact hk v s hr.2

theorem in_bounds_catch_std {α : Type} (r : Outcome α) (e : Thrown)
    (hr : children_in_bounds r) (he : e ≠ Thrown.child_out_of_range) :
    children_in_bounds (catch_std r e) := by
  rcases r with ⟨e1 | v, s⟩
  · cases e1 <;> first | exact hr | exact in_bounds_error e s he hr.2
  · exact hr

theorem in_bounds_cond_of (r : Result) (err : Thrown) (hr : children_in_bounds r)
    (he : err ≠ Thrown.child_out_of_range) : children_in_bounds (cond_of r err) := by
  refine in_bounds_andThen r _ hr (fun v s hs => ?_)
  cases h : s.cast_bool v with
  | none => simp only [h]; exact in_bounds_error err s he hs
  | some b => simp only [h]; exact in_bounds_ok b s hs

theorem in_bounds_call_site (disp : String → List Boxed_Value → BoxedCPP_System → Result)
    (hdisp : ∀ name plb s, registry_parsed s → children_in_bounds (disp name plb s))
    (name : String) (where_ : Token) (plb : List Boxed_Value) (ss : BoxedCPP_System)
    (hss : registry_parsed ss) : children_in_bounds (call_site disp name where_ plb ss) := by
  have h := hdisp name plb ss hss
  unfold call_site
  rcases hd : disp name plb ss with ⟨e | v, s⟩
  · rw [hd] at h
    cases e <;> first
      | exact h
      | exact in_bounds_error _ s (fun hx => by cases hx) h.2
      | exact in_bounds_ok _ s h.2
  · rw [hd] at h
    exact h

theorem in_bounds_dispatch_op (disp : String → List Boxed_Value → BoxedCPP_System → Result)
    (hdisp : ∀ name plb s, registry_parsed s → children_in_bounds (disp name plb s))
    (op : Token) (plb : List Boxed_Value) (ss : BoxedCPP_System) (hss : registry_parsed ss) :
    children_in_bounds (dispatch_op disp op plb ss) :=
  in_bounds_catch_std _ _ (hdisp _ _ _ hss) (fun h => by cases h)

theorem in_bounds_eval_children (ev : BoxedCPP_System → Token → Result)
    (hev : ∀ s t, registry_parsed s → Shaped t → children_in_bounds (ev s t)) :
    ∀ (cs : List Token), (∀ c ∈ cs, Shaped c) → ∀ v ss, registry_parsed ss →
      children_in_bounds (eval_children ev cs v ss) := by
  intro cs
  induction cs with
  | nil => intro _ v ss hss; exact in_bounds_ok v ss hss
  | cons c cs ih =>
    intro hall v ss hss
    exact in_bounds_andThen _ _ (hev ss c hss (hall c (List.mem_cons_self _ _)))
      (fun v1 s1 hs1 => ih (fun x hx => hall x (List.mem_cons_of_mem _ hx)) v1 s1 hs1)

theorem in_bounds_eval_args (ev : BoxedCPP_System → Token → Result)
    (hev : ∀ s t, registry_parsed s → Shaped t → children_in_bounds (ev s t)) :
    ∀ (cs : List Token), (∀ c ∈ cs, Shaped c) → ∀ plb ss, registry_parsed ss →
      children_in_bounds (eval_args ev cs plb ss) := by
  intro cs
  induction cs with
  | nil => intro _ plb ss hss; exact in_bounds_ok plb ss hss
  | cons c cs ih =>
    intro hall plb ss hss
    exact in_bounds_andThen _ _ (hev ss c hss (hall c (List.mem_cons_self _ _)))
      (fun v1 s1 hs1 => ih (fun x hx => hall x (List.mem_cons_of_mem _ hx)) _ s1 hs1)

theorem in_bounds_left_fold (ev : BoxedCPP_System → Token → Result)
    (disp : String → List Boxed_Value → BoxedCPP_System → Result)
    (hev : ∀ s t, registry_parsed s → Shaped t → children_in_bounds (ev s t))
    (hdisp : ∀ name plb s, registry_parsed s → children_in_bounds (disp name plb s)) :
    ∀ (pairs : List (Token × Token)), (∀ p ∈ pairs, Shaped p.2) →
      ∀ r ss, registry_parsed ss → children_in_bounds (left_fold ev disp pairs r ss) := by
  intro pairs
  induction pairs with
  | nil => intro _ r ss hss; exact in_bounds_ok r ss hss
  | cons p rest ih =>
    intro hall r ss hss
    obtain ⟨op, rhs⟩ := p
    exact in_bounds_andThen _ _ (hev ss rhs hss (hall (op, rhs) (List.mem_cons_self _ _)))
      (fun x s1 hs1 => in_bounds_andThen _ _ (in_bounds_dispatch_op disp hdisp op _ s1 hs1)
        (fun r1 s2 hs2 => ih (fun q hq => hall q (List.mem_cons_of_mem _ hq)) r1 s2 hs2))

theorem in_bounds_assign_fold (ev : BoxedCPP_System → Token → Result)
    (disp : String → List Boxed_Value → BoxedCPP_System → Result)
    (hev : ∀ s t, registry_parsed s → Shaped t → children_in_bounds (ev s t))
    (hdisp : ∀ name plb s, registry_parsed s → children_in_bounds (disp name plb s)) :
    ∀ (pairs : List (Token × Token)), (∀ p ∈ pairs, Shaped p.1) →
      ∀ r ss, registry_parsed ss → children_in_bounds (assign_fold ev disp pairs r ss) := by
  intro pairs
  induction pairs with
  | nil => intro _ r ss hss; exact in_bounds_ok r ss hss
  | cons p rest ih =>
    intro hall r ss hss
    obtain ⟨lhs, op⟩ := p
    exact in_bounds_andThen _ _ (hev ss lhs hss (hall (lhs, op) (List.mem_cons_self _ _)))
      (fun x s1 hs1 => in_bounds_andThen _ _ (in_bounds_dispatch_op disp hdisp op _ s1 hs1)
        (fun r1 s2 hs2 => ih (fun q hq => hall q (List.mem_cons_of_mem _ hq)) r1 s2 hs2))

theorem in_bounds_elseif_arms (ev : BoxedCPP_System → Token → Result)
    (hev : ∀ s t, registry_parsed s → Shaped t → children_in_bounds (ev s t))
    (els : Option (Token × Token)) (hels : ∀ e, els = some e → Shaped e.2) :
    ∀ (arms : List (Token × Token × Token)), (∀ a ∈ arms, Shaped a.2.1) →
      (∀ a ∈ arms, Shaped a.2.2) → ∀ last ss, registry_parsed ss →
        children_in_bounds (elseif_arms ev arms els last ss) := by
  intro arms
  induction arms with
  | nil =>
    intro _ _ last ss hss
    cases els with
    | none => exact in_bounds_ok last ss hss
    | some e =>
      obtain ⟨kw, blk⟩ := e
      exact hev ss blk hss (hels (kw, blk) rfl)
  | cons a rest ih =>
    intro hc hb last ss hss
    obtain ⟨kw, c, blk⟩ := a
    refine in_bounds_andThen _ _ (hev ss c hss (hc (kw, c, blk) (List.mem_cons_self _ _)))
      (fun v s1 hs1 => ?_)
    cases hcast : s1.cast_bool v with
    | none => simp only [hcast]; exact in_bounds_error _ s1 (fun h => by cases h) hs1
    | some b =>
      cases b with
      | true => exact hev s1 blk hs1 (hb (kw, c, blk) (List.mem_cons_self _ _))
      | false =>
        exact ih (fun x hx => hc x (List.mem_cons_of_mem _ hx))
          (fun x hx => hb x (List.mem_cons_of_mem _ hx)) v s1 hs1

theorem elseif_children_length (arms : List (Token × Token × Token)) :
    (elseif_children arms).length = 3 * arms.length := by
  induction arms with
  | nil => rfl
  | cons a rest ih => obtain ⟨x, y, z⟩ := a; simp [elseif_children, ih]; omega

theorem in_bounds_Binary (ev : BoxedCPP_System → Token → Result)
    (disp : String → List Boxed_Value → BoxedCPP_System → Result)
    (hev : ∀ s t, registry_parsed s → Shaped t → children_in_bounds (ev s t))
    (hdisp : ∀ name plb s, registry_parsed s → children_in_bounds (disp name plb s))
    (ss : BoxedCPP_System) (hss : registry_parsed ss) (node first : Token)
    (pairs : List (Token × Token))
    (hc : node.children = first :: interleave pairs) (hf : Shaped first)
    (hp : ∀ p ∈ pairs, Shaped p.2) : children_in_bounds (Binary ev disp ss node) := by
  rw [Binary, hc, with_child_some _ 0 _ _ first (by simp)]
  refine in_bounds_andThen _ _ (hev ss first hss hf) (fun r0 s1 hs1 => ?_)
  cases pairs with
  | nil =>
    simp only [interleave, List.length_singleton]
    exact in_bounds_ok r0 s1 hs1
  | cons p rest =>
    have hlen : (first :: interleave (p :: rest)).length > 1 := by
      obtain ⟨a, b⟩ := p; simp [interleave]
    rw [if_pos hlen]
    have := Binary_loop_eq_left_fold ev disp (p :: rest) [first]
      ((first :: interleave (p :: rest)).length + 1) r0 s1
      (by simp [interleave_length]; omega)
    simp only [List.singleton_append, List.length_singleton] at this
    rw [this]
    exact in_bounds_left_fold ev disp hev hdisp _ hp r0 s1 hs1

theorem in_bounds_Equation (ev : BoxedCPP_System → Token → Result)
    (disp : String → List Boxed_Value → BoxedCPP_System → Result)
    (hev : ∀ s t, registry_parsed s → Shaped t → children_in_bounds (ev s t))
    (hdisp : ∀ name plb s, registry_parsed s → children_in_bounds (disp name plb s))
    (ss : BoxedCPP_System) (hss : registry_parsed ss) (node last : Token)
    (pairs : List (Token × Token))
    (hc : node.children = interleave pairs ++ [last]) (hl : Shaped last)
    (hp : ∀ p ∈ pairs, Shaped p.1) : children_in_bounds (Equation ev disp ss node) := by
  rw [Equation, hc, getLast?_append_single]
  refine in_bounds_andThen _ _ (hev ss last hss hl) (fun current s1 hs1 => ?_)
  induction pairs using List.reverseRecOn with
  | nil =>
    simp only [interleave, List.nil_append, List.length_singleton]
    exact in_bounds_ok current s1 hs1
  | append_singleton qs q _ =>
    obtain ⟨l1, op1⟩ := q
    have hlen : (interleave (qs ++ [(l1, op1)]) ++ [last]).length = 2 * qs.length + 3 := by
      simp [interleave_length]; omega
    have h1 : 2 * qs.length + 3 > 1 := by omega
    have h2 : ¬ 2 * qs.length + 3 < 3 := by omega
    have hch : interleave (qs ++ [(l1, op1)]) ++ [last]
        = interleave qs ++ l1 :: op1 :: [last] := by
      simp [interleave_append, interleave]
    rw [hlen, if_pos h1, if_neg h2, hch]
    have := Equation_loop_eq_assign_fold ev disp qs l1 op1 [last] current s1
    simp only [Nat.add_sub_cancel] at this ⊢
    rw [this]
    refine in_bounds_assign_fold ev disp hev hdisp _ ?_ current s1 hs1
    intro p hp1
    rcases List.mem_cons.mp hp1 with rfl | hp1
    · exact hp (l1, op1) (by simp)
    · exact hp p (by
        have := List.mem_reverse.mp hp1
        simp [this])

theorem in_bounds_If_Block (ev : BoxedCPP_System → Token → Result)
    (hev : ∀ s t, registry_parsed s → Shaped t → children_in_bounds (ev s t))
    (ss : BoxedCPP_System) (hss : registry_parsed ss) (node cond blk : Token)
    (arms : List (Token × Token × Token)) (els : Option (Token × Token))
    (hc : node.children = cond :: blk :: (elseif_children arms ++ else_children els))
    (harms : ∀ a ∈ arms, a.1.text = "elseif") (hels : ∀ e, els = some e → e.1.text = "else")
    (hcond : Shaped cond) (hblk : Shaped blk) (hac : ∀ a ∈ arms, Shaped a.2.1)
    (hab : ∀ a ∈ arms, Shaped a.2.2) (heb : ∀ e, els = some e → Shaped e.2) :
    children_in_bounds (If_Block ev ss node) := by
  rw [If_Block, hc, with_child_some _ 0 _ _ cond (by simp)]
  refine in_bounds_andThen _ _ (hev ss cond hss hcond) (fun v s1 hs1 => ?_)
  cases hcast : s1.cast_bool v with
  | none => simp only [hcast]; exact in_bounds_error _ s1 (fun h => by cases h) hs1
  | some b =>
    cases b with
    | true =>
      simp only [hcast]
      rw [with_child_some _ 1 _ _ blk (by simp)]
      exact hev s1 blk hs1 hblk
    | false =>
      simp only [hcast]
      by_cases hlen : (cond :: blk :: (elseif_children arms ++ else_children els)).length > 2
      · rw [if_pos hlen]
        have := If_Block_loop_eq_elseif_arms ev els hels arms harms [cond, blk]
          ((cond :: blk :: (elseif_children arms ++ else_children els)).length + 1) v s1
          (by simp [elseif_children_length]; omega)
        simp only [List.cons_append, List.nil_append, List.length_cons, List.length_nil] at this
        simp only [List.length_cons]
        rw [this]
        exact in_bounds_elseif_arms ev hev els heb arms hac hab v s1 hs1
      · rw [if_neg hlen]
        exact in_bounds_ok v s1 hs1

theorem in_bounds_Array_Call_loop (ev : BoxedCPP_System → Token → Result)
    (disp : String → List Boxed_Value → BoxedCPP_System → Result)
    (hev : ∀ s t, registry_parsed s → Shaped t → children_in_bounds (ev s t))
    (hdisp : ∀ name plb s, registry_parsed s → children_in_bounds (disp name plb s)) :
    ∀ (cs : List Token), (∀ c ∈ cs, Shaped c) →
      ∀ r ss, registry_parsed ss → children_in_bounds (Array_Call_loop ev disp cs r ss) := by
  intro cs
  induction cs with
  | nil => intro _ r ss hss; exact in_bounds_ok r ss hss
  | cons c cs ih =>
    intro hall r ss hss
    exact in_bounds_andThen _ _ (hev ss c hss (hall c (List.mem_cons_self _ _)))
      (fun idx s1 hs1 => in_bounds_andThen _ _
        (in_bounds_catch_std _ _ (hdisp _ _ _ hs1) (fun h => by cases h))
        (fun v s2 hs2 => ih (fun x hx => hall x (List.mem_cons_of_mem _ hx)) v s2 hs2))

theorem in_bounds_Array_Init_loop (ev : BoxedCPP_System → Token → Result)
    (disp : String → List Boxed_Value → BoxedCPP_System → Result)
    (hev : ∀ s t, registry_parsed s → Shaped t → children_in_bounds (ev s t))
    (hdisp : ∀ name plb s, registry_parsed s → children_in_bounds (disp name plb s))
    (retval : Boxed_Value) :
    ∀ (cs : List Token), (∀ c ∈ cs, Shaped c) →
      ∀ ss, registry_parsed ss →
        children_in_bounds (Array_Init_loop ev disp retval cs ss) := by
  intro cs
  induction cs with
  | nil => intro _ ss hss; exact in_bounds_ok retval ss hss
  | cons c cs ih =>
    intro hall ss hss
    exact in_bounds_andThen _ _
      (in_bounds_catch_std _ _
        (in_bounds_andThen _ _ (hev ss c hss (hall c (List.mem_cons_self _ _)))
          (fun tmp s1 hs1 => hdisp _ _ _ hs1))
        (fun h => by cases h))
      (fun _ s2 hs2 => ih (fun x hx => hall x (List.mem_cons_of_mem _ hx)) s2 hs2)

theorem shaped_fun_call_children (seg : Token) (hk : seg.identifier = TokenType.Fun_Call)
    (hs : Shaped seg) :
    ∃ callee args, seg.children = callee :: args ∧ ∀ c ∈ args, Shaped c := by
  cases hs with
  | fun_call _ callee args _ hc hargs => exact ⟨callee, args, hc, hargs⟩
  | leaf _ h => rw [hk] at h; simp at h
  | sequence _ h => rw [hk] at h; simp at h
  | binary _ _ _ h => rw [hk] at h; simp at h
  | return_node _ h => rw [hk] at h; cases h
  | equation _ _ _ h => rw [hk] at h; cases h
  | variable_decl _ _ h => rw [hk] at h; cases h
  | array_call _ _ _ h => rw [hk] at h; cases h
  | negate _ _ h => rw [hk] at h; cases h
  | prefix_node _ _ _ h => rw [hk] at h; cases h
  | method_call _ _ _ h => rw [hk] at h; cases h
  | if_block _ _ _ _ _ h => rw [hk] at h; cases h
  | while_block _ _ _ h => rw [hk] at h; cases h
  | for_block _ _ _ _ _ h => rw [hk] at h; cases h
  | for_block_no_init _ _ _ _ h => rw [hk] at h; cases h
  | function_def _ _ _ _ h => rw [hk] at h; cases h

theorem in_bounds_Method_Call_loop (ev : BoxedCPP_System → Token → Result)
    (disp : String → List Boxed_Value → BoxedCPP_System → Result)
    (hev : ∀ s t, registry_parsed s → Shaped t → children_in_bounds (ev s t))
    (hdisp : ∀ name plb s, registry_parsed s → children_in_bounds (disp name plb s))
    (first : Token) :
    ∀ (segs : List Token), (∀ seg ∈ segs, seg.identifier = TokenType.Fun_Call) →
      (∀ seg ∈ segs, Shaped seg) → ∀ r ss, registry_parsed ss →
        children_in_bounds (Method_Call_loop ev disp first segs r ss) := by
  intro segs
  induction segs with
  | nil => intro _ _ r ss hss; exact in_bounds_ok r ss hss
  | cons seg segs ih =>
    intro hk hs r ss hss
    obtain ⟨callee, args, hc, hargs⟩ := shaped_fun_call_children seg
      (hk seg (List.mem_cons_self _ _)) (hs seg (List.mem_cons_self _ _))
    rw [Method_Call_loop, hc]
    refine in_bounds_andThen _ _ (in_bounds_eval_args ev hev _ hargs _ ss hss)
      (fun plb s1 hs1 => ?_)
    rw [with_child_some _ 0 _ _ callee (by simp)]
    exact in_bounds_andThen _ _ (in_bounds_call_site disp hdisp _ _ _ _ hs1)
      (fun v s2 hs2 => ih (fun x hx => hk x (List.mem_cons_of_mem _ hx))
        (fun x hx => hs x (List.mem_cons_of_mem _ hx)) v s2 hs2)

theorem in_bounds_While_Block_loop (ev : BoxedCPP_System → Token → Result)
    (hev : ∀ s t, registry_parsed s → Shaped t → children_in_bounds (ev s t))
    (node c body : Token)
    (hc : node.children = [c, body]) (hcs : Shaped c) (hbs : Shaped body) :
    ∀ (k : Nat) (cond : Bool) (ss : BoxedCPP_System), registry_parsed ss →
      children_in_bounds (While_Block_loop ev node k cond ss) := by
  have htry : ∀ ss, registry_parsed ss → children_in_bounds (While_Block_try ev ss node) := by
    intro ss hss
    rw [While_Block_try, hc, with_child_some _ 1 _ _ body (by simp)]
    refine in_bounds_andThen _ _ (hev ss body hss hbs) (fun _ s1 hs1 => ?_)
    rw [with_child_some _ 0 _ _ c (by simp)]
    exact in_bounds_cond_of _ _ (hev s1 c hs1 hcs) (fun h => by cases h)
  intro k
  induction k with
  | zero =>
    intro cond ss hss
    cases cond with
    | false => exact in_bounds_ok _ _ (registry_parsed_box ss Payload.void hss)
    | true => exact in_bounds_error _ ss (fun h => by cases h) hss
  | succ k ih =>
    intro cond ss hss
    cases cond with
    | false => exact in_bounds_ok _ _ (registry_parsed_box ss Payload.void hss)
    | true =>
      have ht := htry ss hss
      rw [While_Block_loop]
      rcases hr : While_Block_try ev ss node with ⟨e | b, s1⟩
      · rw [hr] at ht
        cases e <;> first
          | exact ih false s1 ht.2
          | exact absurd rfl ht.1
          | exact in_bounds_error _ s1 (fun h => by cases h) ht.2
      · rw [hr] at ht
        exact ih b s1 ht.2

theorem in_bounds_For_Block_loop (ev : BoxedCPP_System → Token → Result)
    (hev : ∀ s t, registry_parsed s → Shaped t → children_in_bounds (ev s t))
    (node c post body : Token)
    (hc : (∃ init, node.children = [init, c, post, body]) ∨ node.children = [c, post, body])
    (hcs : Shaped c) (hps : Shaped post) (hbs : Shaped body) :
    ∀ (k : Nat) (cond : Bool) (ss : BoxedCPP_System), registry_parsed ss →
      children_in_bounds (For_Block_loop ev node k cond ss) := by
  have htry : ∀ ss, registry_parsed ss → children_in_bounds (For_Block_try ev ss node) := by
    intro ss hss
    rw [For_Block_try]
    refine in_bounds_catch_std _ _ ?_ (fun h => by cases h)
    rcases hc with ⟨init, hc⟩ | hc
    · rw [hc]
      simp only [List.length_cons, List.length_nil, if_true]
      rw [with_child_some _ 3 _ _ body (by simp)]
      refine in_bounds_andThen _ _ (hev ss body hss hbs) (fun _ s1 hs1 => ?_)
      rw [with_child_some _ 2 _ _ post (by simp)]
      refine in_bounds_andThen _ _ (hev s1 post hs1 hps) (fun _ s2 hs2 => ?_)
      rw [with_child_some _ 1 _ _ c (by simp)]
      exact in_bounds_cond_of _ _ (hev s2 c hs2 hcs) (fun h => by cases h)
    · rw [hc]
      simp only [List.length_cons, List.length_nil]
      rw [if_pos trivial, with_child_some _ 2 _ _ body (by simp)]
      refine in_bounds_andThen _ _ (hev ss body hss hbs) (fun _ s1 hs1 => ?_)
      rw [with_child_some _ 1 _ _ post (by simp)]
      refine in_bounds_andThen _ _ (hev s1 post hs1 hps) (fun _ s2 hs2 => ?_)
      rw [with_child_some _ 0 _ _ c (by simp)]
      exact in_bounds_cond_of _ _ (hev s2 c hs2 hcs) (fun h => by cases h)
  intro k
  induction k with
  | zero =>
    intro cond ss hss
    cases cond with
    | false => exact in_bounds_ok _ _ (registry_parsed_box ss Payload.void hss)
    | true => exact in_bounds_error _ ss (fun h => by cases h) hss
  | succ k ih =>
    intro cond ss hss
    cases cond with
    | false => exact in_bounds_ok _ _ (registry_parsed_box ss Payload.void hss)
    | true =>
      have ht := htry ss hss
      rw [For_Block_loop]
      rcases hr : For_Block_try ev ss node with ⟨e | b, s1⟩
      · rw [hr] at ht
        cases e <;> first
          | exact ih false s1 ht.2
          | exact absurd rfl ht.1
          | exact in_bounds_error _ s1 (fun h => by cases h) ht.2
      · rw [hr] at ht
        exact ih b s1 ht.2

theorem in_bounds_For_Block_init (ev : BoxedCPP_System → Token → Result)
    (hev : ∀ s t, registry_parsed s → Shaped t → children_in_bounds (ev s t))
    (node c post body : Token)
    (hc : (∃ init, node.children = [init, c, post, body] ∧ Shaped init) ∨
      node.children = [c, post, body])
    (hcs : Shaped c) (ss : BoxedCPP_System) (hss : registry_parsed ss) :
    children_in_bounds (For_Block_init ev ss node) := by
  rw [For_Block_init]
  refine in_bounds_catch_std _ _ ?_ (fun h => by cases h)
  rcases hc with ⟨init, hc, his⟩ | hc
  · rw [hc]
    simp only [List.length_cons, List.length_nil, if_true]
    rw [with_child_some _ 0 _ _ init (by simp)]
    refine in_bounds_andThen _ _ (hev ss init hss his) (fun _ s1 hs1 => ?_)
    rw [with_child_some _ 1 _ _ c (by simp)]
    exact in_bounds_cond_of _ _ (hev s1 c hs1 hcs) (fun h => by cases h)
  · rw [hc]
    simp only [List.length_cons, List.length_nil]
    rw [if_pos trivial, with_child_some _ 0 _ _ c (by simp)]
    exact in_bounds_cond_of _ _ (hev ss c hss hcs) (fun h => by cases h)

theorem in_bounds_Function_Def (ss : BoxedCPP_System) (hss : registry_parsed ss)
    (node name : Token) (params : List Token) (body : Token)
    (hc : node.children = name :: (params ++ [body])) (hbs : Shaped body) :
    children_in_bounds (Function_Def ss node) := by
  have hlen : ¬ (name :: (params ++ [body])).length < 2 := by simp
  have hlast : (name :: (params ++ [body])).getLast? = some body :=
    getLast?_append_single (name :: params) body
  rw [Function_Def, hc, if_neg hlen]
  simp only [hlast, List.head?_cons]
  refine in_bounds_ok _ _ (registry_parsed_box _ Payload.void ?_)
  intro e he
  rcases List.mem_append.mp he with h | h
  · exact hss e h
  · rw [List.mem_singleton.mp h]
    exact hbs

theorem in_bounds_bind_params :
    ∀ (ps : List String) (i : Nat) (vals : List Boxed_Value) (ss : BoxedCPP_System),
      registry_parsed ss → children_in_bounds (bind_params ps i vals ss) := by
  intro ps
  induction ps with
  | nil => intro i vals ss hss; exact in_bounds_ok () ss hss
  | cons p ps ih =>
    intro i vals ss hss
    rw [bind_params]
    cases vals[i]? with
    | none => exact in_bounds_error _ ss (fun h => by cases h) hss
    | some v => exact ih (i + 1) vals _ (registry_parsed_set_object ss p v hss)

theorem parse_not_child_out_of_range (fuel : Nat) (rule : Rule) (tokens : List Token)
    (filename : String) :
    parse fuel rule tokens filename ≠ Except.error Thrown.child_out_of_range := by
  unfold parse
  cases run_rule rule fuel rule.top tokens with
  | matched rest cs => cases rest <;> (intro h; cases h)
  | failed => cases tokens <;> (intro h; cases h)
  | out_of_fuel => intro h; cases h

theorem in_bounds_evaluate_string_with (ev : BoxedCPP_System → Token → Result)
    (hev : ∀ s t, registry_parsed s → Shaped t → children_in_bounds (ev s t))
    (parse_fuel : Nat) (lexer : Lexer) (ss : BoxedCPP_System) (hss : registry_parsed ss)
    (input filename : String) :
    children_in_bounds
      (evaluate_string_with ev parse_fuel lexer build_parser_rules ss input filename) := by
  have hs0 : registry_parsed (ss.box Payload.void).2 := registry_parsed_box ss _ hss
  unfold evaluate_string_with
  dsimp only
  cases strip_quotes (lexer.lex input filename) with
  | none => exact in_bounds_error _ _ (fun h => by cases h) hs0
  | some tokens1 =>
    dsimp only
    cases hp : parse parse_fuel build_parser_rules tokens1 filename with
    | error e =>
      have hne : e ≠ Thrown.child_out_of_range := by
        intro he
        rw [he] at hp
        exact parse_not_child_out_of_range _ _ _ _ hp
      cases e <;> first
        | exact in_bounds_ok _ _ hs0
        | exact absurd rfl hne
        | exact in_bounds_error _ _ (fun h => by cases h) hs0
    | ok parent =>
      have hsh : Shaped parent := parse_tree_shaped parse_fuel tokens1 filename parent hp
      have h := hev (ss.box Payload.void).2 parent hs0 hsh
      dsimp only
      rcases hr : ev (ss.box Payload.void).2 parent with ⟨e | v, s1⟩
      · rw [hr] at h
        cases e with
        | EvalError reason location =>
          dsimp only
          split
          · exact in_bounds_error _ _ (fun h => by cases h) h.2
          · exact in_bounds_ok _ _ h.2
        | std_exception w => exact in_bounds_ok _ _ h.2
        | ParserError r l => exact h
        | ReturnValue r l => exact h
        | BreakLoop l => exact h
        | child_out_of_range => exact h
        | undefined_behaviour => exact h
        | out_of_fuel => exact h
      · rw [hr] at h
        exact h

theorem in_bounds_dispatch
    (cd : Dynamic → List Boxed_Value → BoxedCPP_System → Result)
    (hcd : ∀ f plb s, f.runs_parsed → registry_parsed s → children_in_bounds (cd f plb s)) :
    ∀ (fs : List Proxy_Function), (∀ f ∈ fs, f.runs_parsed) →
      ∀ plb ss, registry_parsed ss → children_in_bounds (dispatch cd fs plb ss) := by
  intro fs
  induction fs with
  | nil => intro _ plb ss hss; exact in_bounds_error _ ss (fun h => by cases h) hss
  | cons f fs ih =>
    intro hall plb ss hss
    have hrest := ih (fun x hx => hall x (List.mem_cons_of_mem _ hx)) plb ss hss
    cases f with
    | native arity call =>
      rw [dispatch]
      split
      · cases hcall : call plb ss.store with
        | none => exact hrest
        | some r =>
          obtain ⟨v, store⟩ := r
          exact in_bounds_ok v _ (registry_parsed_of_eq ss _ rfl hss)
      · exact hrest
    | dynamic d arity =>
      rw [dispatch]
      split
      · exact hcd d plb ss (hall _ (List.mem_cons_self _ _)) hss
      · exact hrest

theorem in_bounds_call_dynamic (ev : BoxedCPP_System → Token → Result)
    (hev : ∀ s t, registry_parsed s → Shaped t → children_in_bounds (ev s t)) :
    ∀ (k : Nat) (f : Dynamic) (plb : List Boxed_Value) (ss : BoxedCPP_System),
      f.runs_parsed → registry_parsed ss →
        children_in_bounds (call_dynamic ev k f plb ss) := by
  intro k
  induction k with
  | zero => intro f plb ss _ hss; exact in_bounds_error _ ss (fun h => by cases h) hss
  | succ k ih =>
    intro f plb ss hf hss
    cases f with
    | eval_function node param_names =>
      rw [call_dynamic, eval_function]
      exact in_bounds_andThen _ _ (in_bounds_bind_params param_names 0 plb ss hss)
        (fun _ s1 hs1 => hev s1 node hs1 hf)
    | add_two =>
      rw [call_dynamic]
      exact in_bounds_dispatch (call_dynamic ev k) ih _
        (registry_parsed_get_function ss "+" hss) plb ss hss
    | eval lexer parser =>
      have hp : parser = build_parser_rules := hf
      rw [call_dynamic, eval, hp]
      cases plb[0]? with
      | none => exact in_bounds_error _ ss (fun h => by cases h) hss
      | some v =>
        dsimp only
        cases ss.cast_string v with
        | none => exact in_bounds_error _ ss (fun h => by cases h) hss
        | some val => exact in_bounds_evaluate_string_with ev hev k lexer ss hss val "__EVAL__"

theorem in_bounds_dispatch_name (ev : BoxedCPP_System → Token → Result)
    (hev : ∀ s t, registry_parsed s → Shaped t → children_in_bounds (ev s t)) (fuel : Nat)
    (name : String) (plb : List Boxed_Value) (ss : BoxedCPP_System)
    (hss : registry_parsed ss) : children_in_bounds (dispatch_name ev fuel name plb ss) :=
  in_bounds_dispatch (call_dynamic ev fuel) (in_bounds_call_dynamic ev hev fuel) _
    (registry_parsed_get_function ss name hss) plb ss hss

/-- One level of `eval_token`: when the recursive calls on shaped trees stay in bounds, so
does the call at a shaped node. -/
theorem in_bounds_eval_token_succ (n : Nat)
    (hev : ∀ s t, registry_parsed s → Shaped t → children_in_bounds (eval_token n s t))
    (ss : BoxedCPP_System) (hss : registry_parsed ss) (node : Token) (hs : Shaped node) :
    children_in_bounds (eval_token (n + 1) ss node) := by
  have hdisp : ∀ name plb s, registry_parsed s →
      children_in_bounds (dispatch_name (eval_token n) n name plb s) :=
    fun name plb s h => in_bounds_dispatch_name (eval_token n) hev n name plb s h
  cases hs with
  | leaf _ hk =>
    rcases hk with hk | hk | hk | hk | hk | hk
    · simp only [eval_token, hk, Identifier]
      split
      · exact in_bounds_ok _ _ (registry_parsed_box ss _ hss)
      · split
        · exact in_bounds_ok _ _ (registry_parsed_box ss _ hss)
        · split
          · exact in_bounds_ok _ _ hss
          · exact in_bounds_error _ _ (fun h => by cases h) hss
    · simp only [eval_token, hk]
      exact in_bounds_ok _ _ (registry_parsed_box ss _ hss)
    · simp only [eval_token, hk]
      split
      · exact in_bounds_error _ _ (fun h => by cases h) hss
      · exact in_bounds_ok _ _ (registry_parsed_box ss _ hss)
    · simp only [eval_token, hk]
      exact in_bounds_ok _ _ (registry_parsed_box ss _ hss)
    · simp only [eval_token, hk]
      exact in_bounds_ok _ _ (registry_parsed_box ss _ hss)
    · simp only [eval_token, hk]
      exact in_bounds_error _ _ (fun h => by cases h) hss
  | sequence _ hk hall =>
    rcases hk with hk | hk | hk
    · simp only [eval_token, hk]
      exact in_bounds_eval_children _ hev _ hall _ _ (registry_parsed_box ss _ hss)
    · simp only [eval_token, hk, Scoped_Block]
      exact in_bounds_andThen _ _
        (in_bounds_eval_children _ hev _ hall _ _
          (registry_parsed_of_eq ss _ rfl hss))
        (fun v s1 hs1 => in_bounds_ok v _ (registry_parsed_of_eq s1 _ rfl hs1))
    · simp only [eval_token, hk, Array_Init]
      exact in_bounds_catch_std _ _ (in_bounds_andThen _ _ (hdisp _ _ _ hss)
        (fun r s1 hs1 => in_bounds_Array_Init_loop _ _ hev hdisp r _ hall s1 hs1))
        (fun h => by cases h)
  | return_node _ hk hlen hall =>
    simp only [eval_token, hk, Return]
    cases hch : node.children with
    | nil =>
      simp only [List.length_nil, gt_iff_lt, Nat.lt_irrefl, if_false]
      exact in_bounds_error _ _ (fun h => by cases h) (registry_parsed_box ss _ hss)
    | cons c rest =>
      rw [hch] at hall
      simp only [List.length_cons, Nat.zero_lt_succ, if_true, gt_iff_lt]
      rw [with_child_some _ 0 _ _ c (by simp)]
      exact in_bounds_andThen _ _ (hev ss c hss (hall c (List.mem_cons_self _ _)))
        (fun v s1 hs1 => in_bounds_error _ _ (fun h => by cases h) hs1)
  | binary _ first pairs hk hc hf hp =>
    have := in_bounds_Binary _ _ hev hdisp ss hss node first pairs hc hf hp
    rcases hk with hk | hk | hk | hk | hk <;> simp only [eval_token, hk] <;> exact this
  | equation _ pairs last hk hc hp hl =>
    simp only [eval_token, hk]
    exact in_bounds_Equation _ _ hev hdisp ss hss node last pairs hc hl hp
  | variable_decl _ name hk hc =>
    simp only [eval_token, hk, Variable_Decl]
    rw [hc, with_child_some _ 0 _ _ name (by simp)]
    have h2 : registry_parsed
        ((ss.box Payload.void).2.set_object name.text (ss.box Payload.void).1) :=
      registry_parsed_set_object _ _ _ (registry_parsed_box ss _ hss)
    split
    · exact in_bounds_ok _ _ h2
    · exact in_bounds_error _ _ (fun h => by cases h) h2
  | array_call _ base idxs hk hc hb hi =>
    simp only [eval_token, hk, Array_Call]
    rw [hc, with_child_some _ 0 _ _ base (by simp)]
    exact in_bounds_andThen _ _ (hev ss base hss hb)
      (fun r s1 hs1 => in_bounds_Array_Call_loop _ _ hev hdisp _ hi r s1 hs1)
  | negate _ c hk hc hcs =>
    simp only [eval_token, hk, Negate]
    rw [hc, with_child_some _ 0 _ _ c (by simp)]
    exact in_bounds_andThen _ _ (hev ss c hss hcs)
      (fun r s1 hs1 => in_bounds_catch_std _ _ (hdisp _ _ _ hs1) (fun h => by cases h))
  | prefix_node _ op c hk hc hcs =>
    simp only [eval_token, hk, Prefix]
    rw [hc, with_child_some _ 1 _ _ c (by simp)]
    refine in_bounds_andThen _ _ (hev ss c hss hcs) (fun r s1 hs1 => ?_)
    rw [with_child_some _ 0 _ _ op (by simp)]
    exact in_bounds_catch_std _ _ (hdisp _ _ _ hs1) (fun h => by cases h)
  | fun_call _ callee args hk hc hargs =>
    simp only [eval_token, hk, Fun_Call]
    rw [hc]
    refine in_bounds_andThen _ _ (in_bounds_eval_args _ hev _ hargs _ ss hss)
      (fun plb s1 hs1 => ?_)
    rw [with_child_some _ 0 _ _ callee (by simp)]
    exact in_bounds_call_site _ hdisp _ _ _ _ hs1
  | method_call _ recv segs hk hc hr hsk hss1 =>
    simp only [eval_token, hk, Method_Call]
    rw [hc, with_child_some _ 0 _ _ recv (by simp)]
    exact in_bounds_andThen _ _ (hev ss recv hss hr)
      (fun r s1 hs1 => in_bounds_Method_Call_loop _ _ hev hdisp recv segs hsk hss1 r s1 hs1)
  | if_block _ cond blk arms els hk hc harms hels hcond hblk hac hab heb =>
    simp only [eval_token, hk]
    exact in_bounds_If_Block _ hev ss hss node cond blk arms els hc harms hels hcond hblk hac
      hab heb
  | while_block _ c body hk hc hcs hbs =>
    simp only [eval_token, hk, While_Block]
    rw [hc, with_child_some _ 0 _ _ c (by simp)]
    refine in_bounds_andThen _ _
      (in_bounds_cond_of _ _ (hev ss c hss hcs) (fun h => by cases h))
      (fun cond s1 hs1 => ?_)
    exact in_bounds_While_Block_loop _ hev node c body hc hcs hbs n cond s1 hs1
  | for_block _ init c post body hk hc his hcs hps hbs =>
    simp only [eval_token, hk, For_Block]
    exact in_bounds_andThen _ _
      (in_bounds_For_Block_init _ hev node c post body (Or.inl ⟨init, hc, his⟩) hcs ss hss)
      (fun cond s1 hs1 => in_bounds_For_Block_loop _ hev node c post body
        (Or.inl ⟨init, hc⟩) hcs hps hbs n cond s1 hs1)
  | for_block_no_init _ c post body hk hc hcs hps hbs =>
    simp only [eval_token, hk, For_Block]
    exact in_bounds_andThen _ _
      (in_bounds_For_Block_init _ hev node c post body (Or.inr hc) hcs ss hss)
      (fun cond s1 hs1 => in_bounds_For_Block_loop _ hev node c post body (Or.inr hc)
        hcs hps hbs n cond s1 hs1)
  | function_def _ name params body hk hc hbs =>
    simp only [eval_token, hk]
    exact in_bounds_Function_Def ss hss node name params body hc hbs

/-- On a shaped tree, in a state whose registry evaluates only trees of the parser, no call
of `eval_token`, at any fuel, ends in a read of a child that is not there, and the registry
it leaves is again such a registry. -/
theorem eval_token_in_bounds :
    ∀ (n : Nat) (ss : BoxedCPP_System) (node : Token), registry_parsed ss → Shaped node →
      children_in_bounds (eval_token n ss node) := by
  intro n
  induction n with
  | zero => intro ss node hss _; exact in_bounds_error _ ss (fun h => by cases h) hss
  | succ n ih =>
    intro ss node hss hs
    exact in_bounds_eval_token_succ n (fun s t h1 h2 => ih s t h1 h2) ss hss node hs

/-- The numbers of children of a shaped node, by kind. -/
theorem shaped_child_counts (node : Token) (hs : Shaped node) :
    ((node.identifier = TokenType.Equation ∨ node.identifier = TokenType.Factor ∨
        node.identifier = TokenType.Expression ∨ node.identifier = TokenType.Term ∨
        node.identifier = TokenType.Boolean ∨ node.identifier = TokenType.Comparison) →
      node.children.length % 2 = 1) ∧
    (node.identifier = TokenType.For_Block →
      node.children.length = 3 ∨ node.children.length = 4) ∧
    (node.identifier = TokenType.If_Block → 2 ≤ node.children.length) ∧
    (node.identifier = TokenType.Function_Def → 2 ≤ node.children.length) ∧
    (node.identifier = TokenType.Prefix → node.children.length = 2) ∧
    (node.identifier = TokenType.While_Block → node.children.length = 2) ∧
    (node.identifier = TokenType.Variable_Decl → node.children.length = 1) ∧
    (node.identifier = TokenType.Negate → node.children.length = 1) ∧
    (node.identifier = TokenType.Return → node.children.length ≤ 1) ∧
    ((node.identifier = TokenType.Fun_Call ∨ node.identifier = TokenType.Method_Call ∨
        node.identifier = TokenType.Array_Call) → 1 ≤ node.children.length) := by
  cases hs with
  | leaf _ hk => rcases hk with hk | hk | hk | hk | hk | hk <;> simp [hk]
  | sequence _ hk _ => rcases hk with hk | hk | hk <;> simp [hk]
  | return_node _ hk hlen _ => simp [hk, hlen]
  | binary _ first pairs hk hc _ _ =>
    have : node.children.length % 2 = 1 := by
      rw [hc]; simp [interleave_length]; omega
    rcases hk with hk | hk | hk | hk | hk <;> simp [hk, this]
  | equation _ pairs last hk hc _ _ =>
    have : node.children.length % 2 = 1 := by
      rw [hc]; simp [interleave_length]; omega
    simp [hk, this]
  | variable_decl _ name hk hc => simp [hk, hc]
  | array_call _ base idxs hk hc _ _ => simp [hk, hc]
  | negate _ c hk hc _ => simp [hk, hc]
  | prefix_node _ op c hk hc _ => simp [hk, hc]
  | fun_call _ callee args hk hc _ => simp [hk, hc]
  | method_call _ recv segs hk hc _ _ _ => simp [hk, hc]
  | if_block _ cond blk arms els hk hc _ _ _ _ _ _ _ => simp [hk, hc]
  | while_block _ c body hk hc _ _ => simp [hk, hc]
  | for_block _ init c post body hk hc _ _ _ _ => simp [hk, hc]
  | for_block_no_init _ c post body hk hc _ _ _ => simp [hk, hc]
  | function_def _ name params body hk hc _ => simp [hk, hc]

/-- C23: every tree `parse` returns with the grammar of the language is shaped, that is, at
every node that is evaluated the children are those the case of `eval_token` for the kind of
the node reads (an odd number alternating operand and operator for `Equation`, `Factor`,
`Expression`, `Term`, `Boolean`, `Comparison`; 3 or 4 for `For_Block`; condition, block,
complete `elseif` triples and at most one final `else` pair for `If_Block`; a name and a body
for `Function_Def`; 2 for `Prefix`; and so on); and no `children[k]` read of `eval_token` is
out of range: in a state whose registry holds host functions, `add_two`, `eval` bound to the
grammar, and functions defined by evaluated trees of the parser, `eval_token` on a shaped
tree, hence on every tree the parser returns, never ends in a read of a child that is not
there, at any fuel, whatever the calls it makes through the registry, and it leaves such a
registry behind; so does `evaluate_string`. -/
theorem parsed_tree_children_in_bounds :
    (∀ fuel tokens filename tree,
      parse fuel build_parser_rules tokens filename = Except.ok tree → Shaped tree) ∧
    (∀ node, Shaped node →
      ((node.identifier = TokenType.Equation ∨ node.identifier = TokenType.Factor ∨
          node.identifier = TokenType.Expression ∨ node.identifier = TokenType.Term ∨
          node.identifier = TokenType.Boolean ∨ node.identifier = TokenType.Comparison) →
        node.children.length % 2 = 1) ∧
      (node.identifier = TokenType.For_Block →
        node.children.length = 3 ∨ node.children.length = 4) ∧
      (node.identifier = TokenType.If_Block → 2 ≤ node.children.length) ∧
      (node.identifier = TokenType.Function_Def → 2 ≤ node.children.length) ∧
      (node.identifier = TokenType.Prefix → node.children.length = 2) ∧
      (node.identifier = TokenType.While_Block → node.children.length = 2) ∧
      (node.identifier = TokenType.Variable_Decl → node.children.length = 1) ∧
      (node.identifier = TokenType.Negate → node.children.length = 1) ∧
      (node.identifier = TokenType.Return → node.children.length ≤ 1) ∧
      ((node.identifier = TokenType.Fun_Call ∨ node.identifier = TokenType.Method_Call ∨
          node.identifier = TokenType.Array_Call) → 1 ≤ node.children.length)) ∧
    (∀ n ss node, registry_parsed ss → Shaped node →
      (eval_token n ss node).1 ≠ Except.error Thrown.child_out_of_range ∧
      registry_parsed (eval_token n ss node).2) ∧
    (∀ fuel tokens filename tree n ss,
      parse fuel build_parser_rules tokens filename = Except.ok tree → registry_parsed ss →
      (eval_token n ss tree).1 ≠ Except.error Thrown.child_out_of_range ∧
      registry_parsed (eval_token n ss tree).2) ∧
    (∀ fuel lexer ss input filename, registry_parsed ss →
      (evaluate_string fuel lexer build_parser_rules ss input filename).1
        ≠ Except.error Thrown.child_out_of_range ∧
      registry_parsed (evaluate_string fuel lexer build_parser_rules ss input filename).2) :=
  ⟨parse_tree_shaped, shaped_child_counts,
    fun n ss node hss hs => eval_token_in_bounds n ss node hss hs,
    fun fuel tokens filename tree n ss hp hss =>
      eval_token_in_bounds n ss tree hss (parse_tree_shaped fuel tokens filename tree hp),
    fun fuel lexer ss input filename hss =>
      in_bounds_evaluate_string_with (eval_token fuel)
        (fun s t h1 h2 => eval_token_in_bounds fuel s t h1 h2) fuel lexer ss hss input
        filename⟩

/-- Witness of C23: the tree of `-1 + 2` is the one `parse` returns; it is shaped and the
expression node under its root has an odd number of children; with the host `+` and unary
`-` registered, `eval_token` on the tree reads no child out of range and returns a box, which
holds `-3` since the grammar negates the sum; and after `var x; def f(x) { }` has been run in the empty system, the registry holds
the function `f` defined by a tree of the parser, and running `f(1)` reads no child out of
range. -/
theorem parsed_tree_children_in_bounds_witness :
    parse 400 build_parser_rules tokens_negate_sum "test.chai"
      = Except.ok (parsed tokens_negate_sum) ∧
    Shaped (parsed tokens_negate_sum) ∧
    (parsed tokens_negate_sum).children.length = 1 ∧
    registry_parsed system_arith ∧
    (eval_token 14 system_arith (parsed tokens_negate_sum)).1
      ≠ Except.error Thrown.child_out_of_range ∧
    (eval_token 14 system_arith (parsed tokens_negate_sum)).1 = Except.ok ⟨4⟩ ∧
    (eval_token 14 system_arith (parsed tokens_negate_sum)).2.payload ⟨4⟩
      = some (Payload.int (-3)) ∧
    registry_parsed system_var_x_def_f ∧
    system_var_x_def_f.functions.length = 1 ∧
    (evaluate_string 200 (lexer_of tokens_call_f_1) build_parser_rules system_var_x_def_f
      "f(1)" "test.chai").1 ≠ Except.error Thrown.child_out_of_range :=
  have hs : Shaped (parsed tokens_negate_sum) :=
    parsed_tree_children_in_bounds.1 400 tokens_negate_sum "test.chai" _ rfl
  have harith : registry_parsed system_arith := fun e he => by
    simp only [system_arith, List.mem_cons, List.mem_singleton, List.not_mem_nil,
      or_false] at he
    rcases he with rfl | rfl <;> exact trivial
  have hempty : registry_parsed empty_system := fun e he => absurd he (List.not_mem_nil e)
  have hdef : registry_parsed system_var_x_def_f :=
    (parsed_tree_children_in_bounds.2.2.2.2 200 (lexer_of tokens_var_x_def_f) empty_system
      "var x; def f(x) \x7b \x7d" "test.chai" hempty).2
  ⟨rfl, hs, rfl, harith,
    (parsed_tree_children_in_bounds.2.2.2.1 400 tokens_negate_sum "test.chai" _ 14
      system_arith rfl harith).1,
    rfl, rfl, hdef, rfl,
    (parsed_tree_children_in_bounds.2.2.2.2 200 (lexer_of tokens_call_f_1)
      system_var_x_def_f "f(1)" "test.chai" hdef).1⟩

end Wesley
